import Mathlib

/-!
# Blocked matrix multiplication (`matmul_pom.c`)

A shallow embedding of the tile kernels `matmulBlock` and `matmulBlockSmp`,
of the two tile schedulers `matmulSMP` and `matmulFPGA`, of the verification
routines `checkBlock` and `matmulCheck`, and of `main`, followed by the
properties proved about them.

Conventions of the embedding.

* A C buffer is a function `Nat → α` from element index to element; a pointer
  into a buffer is the buffer together with an offset.  The three matrices
  `a`, `b`, `c` of a run are the three fields of `Mem`.
* Every variable the source declares `unsigned int` holds its value modulo
  `2 ^ 32` (`u32`).  The constants `BSIZE`, `MBLOCK_NUM_ACCS` and `THRESHOLD`
  are declared in the header `matmul.h`; they are parameters of every
  definition.  The index `i*BSIZE + j` of an element inside a tile and the
  element count `BSIZE*BSIZE` of a tile are kept exact.
* `matmulBlock` is an OmpSs task: a scheduler issues a sequence of kernel
  invocations (`Invocation`), and running a scheduler in program order applies
  the kernel to the buffers once per invocation, in the order of issue.
* `matmulCheck` reads its environment through two parameters: what opening
  and mapping the reference file gives (`RefFile`), and how many elements
  `fwrite` writes.  Its outcome holds the value returned, the messages written
  to `stderr` and the elements written to the new reference file; the
  progress messages on `stdout` are left out.  The mapping of the reference
  holds `m2size` elements: `matmulCheck_reads` lists the elements that check
  mode reads, and `matmulCheck_run` is `matmulCheck` as long as they are
  inside the mapping.
* The parameter `threshold` of `checkBlock` is a `float`; the definitions take
  the value that it holds, which for a constant `q` is `toFloat q`.  The
  comparison itself is over an ordered field (exact arithmetic).
* `main` takes the integers that `atoi` returns for its arguments and
  `sizeof(elem_t)`; the initialisation of `a` and `b`, the success of the
  allocation and the timing are part of its environment (`MainEnv`).  Its
  outcome is the exit status and the tile kernels it dispatched, or `fault`
  when the run leaves the memory it allocated or mapped.
-/

namespace Matmul

/-! ## The tile kernel and the schedulers -/

/-- Number of values of the C type `unsigned int`. -/
def UINT_MOD : Nat := 4294967296

/-- Value held by an `unsigned int` variable that is assigned `n`. -/
def u32 (n : Nat) : Nat := n % UINT_MOD

/-- The three buffers of a run. -/
structure Mem (α : Type) where
  a : Nat → α
  b : Nat → α
  c : Nat → α

/-- The statement `c[i*BSIZE + j] += a[i*BSIZE + k] * b[k*BSIZE + j]` of
`matmulBlock`, the pointers `a`, `b`, `c` being the buffers of `m` at the
offsets `ai`, `bi`, `ci`. -/
def matmulBlockStmt {α : Type} [Add α] [Mul α] (BSIZE ai bi ci k i j : Nat)
    (m : Mem α) : Mem α :=
  { m with
    c := Function.update m.c (ci + (i * BSIZE + j))
      (m.c (ci + (i * BSIZE + j)) + m.a (ai + (i * BSIZE + k)) * m.b (bi + (k * BSIZE + j))) }

/-- The tile kernel `matmulBlock(a + ai, b + bi, c + ci)` (lines 111-130):
loops `k`, `i`, `j` from `0` to `BSIZE - 1`, `k` outermost. -/
def matmulBlock {α : Type} [Add α] [Mul α] (BSIZE ai bi ci : Nat) (m : Mem α) : Mem α :=
  (List.range BSIZE).foldl (fun mk k =>
    (List.range BSIZE).foldl (fun mi i =>
      (List.range BSIZE).foldl (fun mj j => matmulBlockStmt BSIZE ai bi ci k i j mj) mi) mk) m

/-- The host kernel `matmulBlockSmp(a + ai, b + bi, c + ci)` (lines 150-158,
the variant without MKL and OpenBLAS): loops `i`, `j`, and for each element a
local accumulator `l`, started at `0`, filled by the loop over `k` and added
to `c[i*BSIZE + j]` once. -/
def matmulBlockSmp {α : Type} [Zero α] [Add α] [Mul α] (BSIZE ai bi ci : Nat)
    (m : Mem α) : Mem α :=
  (List.range BSIZE).foldl (fun mi i =>
    (List.range BSIZE).foldl (fun mj j =>
      let l := (List.range BSIZE).foldl
        (fun l k => l + mj.a (ai + (i * BSIZE + k)) * mj.b (bi + (k * BSIZE + j))) 0
      { mj with
        c := Function.update mj.c (ci + (i * BSIZE + j)) (mj.c (ci + (i * BSIZE + j)) + l) })
      mi) m

/-- One call `matmulBlock(a + ai, b + bi, c + ci)` issued by a scheduler,
together with the tile coordinates `i`, `j`, `k` it was computed from. -/
structure Invocation where
  i : Nat
  j : Nat
  k : Nat
  ai : Nat
  bi : Nat
  ci : Nat
deriving DecidableEq, Repr

/-- The calls issued by `matmulSMP(a, b, c, msize)` (lines 196-208), in program
order: loops `i`, `k`, `j`. -/
def matmulSMP_calls (BSIZE msize : Nat) : List Invocation :=
  let b2size := u32 (BSIZE * BSIZE)
  (List.range (msize / BSIZE)).flatMap fun i =>
    (List.range (msize / BSIZE)).flatMap fun k =>
      let ai := u32 (k * b2size + i * BSIZE * msize)
      (List.range (msize / BSIZE)).map fun j =>
        let bi := u32 (j * b2size + k * BSIZE * msize)
        let ci := u32 (j * b2size + i * BSIZE * msize)
        { i := i, j := j, k := k, ai := ai, bi := bi, ci := ci }

/-- Loop body of `matmulFPGA` (lines 174-179 and again 185-190): the call for
the flattened output tile `ll` and the contribution `k`. -/
def matmulFPGA_call (BSIZE msize ll k : Nat) : Invocation :=
  let b2size := u32 (BSIZE * BSIZE)
  let num_blocks_side := msize / BSIZE
  let i := ll / num_blocks_side
  let j := ll % num_blocks_side
  let ai := u32 (k * b2size + i * BSIZE * msize)
  let bi := u32 (j * b2size + k * BSIZE * msize)
  let ci := u32 (ll * b2size)
  { i := i, j := j, k := k, ai := ai, bi := bi, ci := ci }

/-- One iteration of the bulk loop of `matmulFPGA`, for the batch that starts
at `l`: the pairs `(ll, k)` visited by `for k < msize/BSIZE` around
`for (ll = l; ll < (l+factor); ll++)`, in order. -/
def matmulFPGA_batch (BSIZE factor msize l : Nat) : List (Nat × Nat) :=
  (List.range (msize / BSIZE)).flatMap fun k =>
    (List.range' l (u32 (l + factor) - l)).map fun ll => (ll, k)

/-- The bulk loop `for (l = 0; l < num_blocks_loop; l += factor)` of
`matmulFPGA`, from loop variable `l` on, as the list of its batches.  The
first argument bounds the number of iterations. -/
def matmulFPGA_bulk (BSIZE factor msize num_blocks_loop : Nat) :
    Nat → Nat → List (List (Nat × Nat))
  | 0, _ => []
  | fuel + 1, l =>
    if l < num_blocks_loop then
      matmulFPGA_batch BSIZE factor msize l ::
        matmulFPGA_bulk BSIZE factor msize num_blocks_loop fuel (u32 (l + factor))
    else []

/-- The variable `num_blocks_matrix` of `matmulFPGA`. -/
def num_blocks_matrix (BSIZE msize : Nat) : Nat :=
  u32 (msize * msize) / u32 (BSIZE * BSIZE)

/-- The variable `num_blocks_loop` of `matmulFPGA`. -/
def num_blocks_loop (BSIZE factor msize : Nat) : Nat :=
  num_blocks_matrix BSIZE msize - num_blocks_matrix BSIZE msize % factor

/-- The batches of the bulk phase of `matmulFPGA`, one list of pairs `(ll, k)`
per iteration of the loop over `l`.  The loop variable grows by `factor` in
every iteration, so `num_blocks_loop` iterations are enough to leave the loop
(`matmulFPGA_bulk_fuel`). -/
def matmulFPGA_batches (BSIZE factor msize : Nat) : List (List (Nat × Nat)) :=
  matmulFPGA_bulk BSIZE factor msize (num_blocks_loop BSIZE factor msize)
    (num_blocks_loop BSIZE factor msize) 0

/-- The drain phase of `matmulFPGA` (lines 183-192): the pairs `(l, k)` visited
by `for k < msize/BSIZE` around
`for (l = num_blocks_loop; l < num_blocks_matrix; l++)`, in order. -/
def matmulFPGA_drain (BSIZE factor msize : Nat) : List (Nat × Nat) :=
  (List.range (msize / BSIZE)).flatMap fun k =>
    (List.range' (num_blocks_loop BSIZE factor msize)
      (num_blocks_matrix BSIZE msize - num_blocks_loop BSIZE factor msize)).map fun l => (l, k)

/-- The calls issued by `matmulFPGA(a, b, c, msize)` (lines 165-194), in
program order, with `factor = MBLOCK_NUM_ACCS`: the bulk phase, then the drain
phase. -/
def matmulFPGA_calls (BSIZE factor msize : Nat) : List Invocation :=
  ((matmulFPGA_batches BSIZE factor msize).flatten ++ matmulFPGA_drain BSIZE factor msize).map
    fun p => matmulFPGA_call BSIZE msize p.1 p.2

/-- Runs a sequence of kernel invocations on the buffers, in order. -/
def runCalls {α : Type} [Add α] [Mul α] (BSIZE : Nat) (calls : List Invocation)
    (m : Mem α) : Mem α :=
  calls.foldl (fun s inv => matmulBlock BSIZE inv.ai inv.bi inv.ci s) m

/-- The scheduler `matmulSMP(a, b, c, msize)` run in program order. -/
def matmulSMP {α : Type} [Add α] [Mul α] (BSIZE msize : Nat) (m : Mem α) : Mem α :=
  runCalls BSIZE (matmulSMP_calls BSIZE msize) m

/-- The scheduler `matmulFPGA(a, b, c, msize)` run in program order. -/
def matmulFPGA {α : Type} [Add α] [Mul α] (BSIZE factor msize : Nat) (m : Mem α) : Mem α :=
  runCalls BSIZE (matmulFPGA_calls BSIZE factor msize) m

/-! ## The verification routines -/

/-- A message written to `stderr` by the verification routines. -/
inductive Diag (α : Type) where
  | cannotOpen : Diag α
  | cannotMap : Diag α
  | mismatch (expected found : α) : Diag α
  | writeError : Diag α

/-- The variable `check_ok` together with the messages written to `stderr`. -/
structure CheckState (α : Type) where
  check_ok : Nat
  err : List (Diag α)

/-- The loop `for (i = start; i < start + rem && cond(s); ++i) s = body(i, s)`. -/
def forWhile {σ : Type} (cond : σ → Bool) (body : Nat → σ → σ) : Nat → Nat → σ → σ
  | 0, _, s => s
  | rem + 1, i, s => if cond s then forWhile cond body rem (i + 1) (body i s) else s

/-- The condition `res_val > maxv || res_val < minv` of `checkBlock`, with
`maxv = ref_val * (1.0 + (ref_val < 0 ? -threshold : threshold))` and
`minv = ref_val * (1.0 - (ref_val < 0 ? -threshold : threshold))`. -/
def outOfTolerance {α : Type} [LinearOrderedField α] (threshold res_val ref_val : α) : Prop :=
  res_val > ref_val * (1 + (if ref_val < 0 then -threshold else threshold)) ∨
    res_val < ref_val * (1 - (if ref_val < 0 then -threshold else threshold))

instance {α : Type} [LinearOrderedField α] (threshold res_val ref_val : α) :
    Decidable (outOfTolerance threshold res_val ref_val) := by
  unfold outOfTolerance; infer_instance

/-- Body of the loop of `checkBlock` for one element. -/
def checkBlockBody {α : Type} [LinearOrderedField α] (threshold res_val ref_val : α)
    (st : CheckState α) : CheckState α :=
  if outOfTolerance threshold res_val ref_val then
    { check_ok := 0, err := st.err ++ [Diag.mismatch ref_val res_val] }
  else st

/-- The task `checkBlock(&check_ok, res, ref, threshold)` (lines 43-55):
`for (i = 0; i < BSIZE*BSIZE && *check_ok; ++i)`. -/
def checkBlock {α : Type} [LinearOrderedField α] (BSIZE : Nat) (threshold : α)
    (res ref : Nat → α) (st : CheckState α) : CheckState α :=
  forWhile (fun s : CheckState α => s.check_ok != 0)
    (fun i s => checkBlockBody threshold (res i) (ref i) s) (BSIZE * BSIZE) 0 st

/-- What `open` and `mmap` of the reference file give in check mode. -/
inductive RefFile (α : Type) where
  | cannotOpen : RefFile α
  | cannotMap : RefFile α
  | mapped (c_ref : Nat → α) : RefFile α

/-- Outcome of `matmulCheck`: the value returned, the messages written to
`stderr`, and the elements written to the new reference file (generate mode). -/
structure CheckResult (α : Type) where
  check_ok : Nat
  err : List (Diag α)
  written : List α

/-- The function `matmulCheck(check, c, msize)` (lines 57-107).  The environment is
`ref_file`, the result of opening and mapping the reference file, and
`fwrite_ret`, the number of elements `fwrite` writes and returns. -/
def matmulCheck {α : Type} [LinearOrderedField α] (BSIZE : Nat) (THRESHOLD : α)
    (ref_file : RefFile α) (fwrite_ret : Nat) (check : Nat) (c : Nat → α) (msize : Nat) :
    CheckResult α :=
  let m2size := u32 (msize * msize)
  let b2size := u32 (BSIZE * BSIZE)
  if check = 1 then
    match ref_file with
    | RefFile.cannotOpen => { check_ok := 0, err := [Diag.cannotOpen], written := [] }
    | RefFile.cannotMap => { check_ok := 0, err := [Diag.cannotMap], written := [] }
    | RefFile.mapped c_ref =>
      let st :=
        forWhile (fun s : CheckState α => s.check_ok != 0)
          (fun i s =>
            forWhile (fun s : CheckState α => s.check_ok != 0)
              (fun j s =>
                let ci := u32 (j * b2size + i * BSIZE * msize)
                checkBlock BSIZE THRESHOLD (fun x => c (ci + x)) (fun x => c_ref (ci + x)) s)
              (msize / BSIZE) 0 s)
          (msize / BSIZE) 0 { check_ok := 1, err := [] }
      { check_ok := st.check_ok, err := st.err, written := [] }
  else if check = 2 then
    if fwrite_ret ≠ m2size then
      { check_ok := 0, err := [Diag.writeError], written := (List.range fwrite_ret).map c }
    else
      { check_ok := 1, err := [], written := (List.range fwrite_ret).map c }
  else
    { check_ok := 1, err := [], written := [] }

/-- State of `matmulCheck` in check mode together with the indices of the
elements of the reference read so far (`ref[i]` at line 47). -/
structure CheckTrace (α : Type) where
  st : CheckState α
  reads : List Nat

/-- The task `checkBlock(&check_ok, res, ref, threshold)` with `ref` pointing
to the element `ci` of the reference: every iteration that runs reads the
element `ci + i` of the reference. -/
def checkBlockTraced {α : Type} [LinearOrderedField α] (BSIZE : Nat) (threshold : α)
    (res ref : Nat → α) (ci : Nat) (t : CheckTrace α) : CheckTrace α :=
  forWhile (fun t : CheckTrace α => t.st.check_ok != 0)
    (fun i t =>
      { st := checkBlockBody threshold (res i) (ref i) t.st, reads := t.reads ++ [ci + i] })
    (BSIZE * BSIZE) 0 t

/-- The indices of the elements of the mapped reference that
`matmulCheck(check, c, msize)` reads (lines 78-83), in the order of the reads;
the elements of `c` compared with them are at the same indices. -/
def matmulCheck_reads {α : Type} [LinearOrderedField α] (BSIZE : Nat) (THRESHOLD : α)
    (ref_file : RefFile α) (check : Nat) (c : Nat → α) (msize : Nat) : List Nat :=
  let b2size := u32 (BSIZE * BSIZE)
  if check = 1 then
    match ref_file with
    | RefFile.cannotOpen => []
    | RefFile.cannotMap => []
    | RefFile.mapped c_ref =>
      (forWhile (fun t : CheckTrace α => t.st.check_ok != 0)
        (fun i t =>
          forWhile (fun t : CheckTrace α => t.st.check_ok != 0)
            (fun j t =>
              let ci := u32 (j * b2size + i * BSIZE * msize)
              checkBlockTraced BSIZE THRESHOLD (fun x => c (ci + x)) (fun x => c_ref (ci + x))
                ci t)
            (msize / BSIZE) 0 t)
        (msize / BSIZE) 0 { st := { check_ok := 1, err := [] }, reads := [] }).reads
  else []

/-- The call `matmulCheck(check, c, msize)` with the extent of the mapping
taken into account: `mmap` at line 73 maps `m2size` elements of the reference
file, and the call has the outcome of `matmulCheck` when every element it
reads from the reference is one of them; otherwise it reads outside the
mapping, its behaviour is undefined and there is no outcome (`none`). -/
def matmulCheck_run {α : Type} [LinearOrderedField α] (BSIZE : Nat) (THRESHOLD : α)
    (ref_file : RefFile α) (fwrite_ret : Nat) (check : Nat) (c : Nat → α) (msize : Nat) :
    Option (CheckResult α) :=
  if ∀ y ∈ matmulCheck_reads BSIZE THRESHOLD ref_file check c msize, y < u32 (msize * msize) then
    some (matmulCheck BSIZE THRESHOLD ref_file fwrite_ret check c msize)
  else none

/-! ## The type `float` of the threshold -/

/-- Doublings of `n / d` up to the first value that is at least `2^23`, at
most `fuel` of them: the binary exponent of a `float` below `2^23`. -/
def floatUp : Nat → Nat → Nat → Nat
  | 0, _, _ => 0
  | fuel + 1, n, d => if n < 8388608 * d then floatUp fuel (2 * n) d + 1 else 0

/-- Halvings of `n / d` down to the first value that is below `2^24`, at most
`fuel` of them: the binary exponent of a `float` from `2^24` on. -/
def floatDown : Nat → Nat → Nat → Nat
  | 0, _, _ => 0
  | fuel + 1, n, d => if 16777216 * d ≤ n then floatDown fuel n (2 * d) + 1 else 0

/-- The integer nearest to `n / d`, the even one of the two at a tie. -/
def roundHalfEven (n d : Nat) : Nat :=
  if 2 * (n % d) < d then n / d
  else if d < 2 * (n % d) then n / d + 1
  else if n / d % 2 = 0 then n / d else n / d + 1

/-- The value that a variable of the C type `float` (IEEE binary32, rounding
to nearest, ties to even) holds when it is assigned the rational `q`, for `q`
of magnitude at most `FLT_MAX`: a significand of 24 bits, scaled by a power of
two that is at least `2^-149`. -/
def toFloat (q : ℚ) : ℚ :=
  let n := q.num.natAbs
  let d := q.den
  let up := floatUp 149 n d
  let down := floatDown 104 n d
  let v : ℚ := (roundHalfEven (n * 2 ^ up) (d * 2 ^ down) : ℚ) * 2 ^ down / 2 ^ up
  if q < 0 then -v else v

/-! ## The function `main` -/

/-- What `main` takes from its environment: the contents of `a` and `b` after
the initialisation loop, the contents of `c` as `malloc` returns it, whether
the three `malloc` calls succeed, and the environment of `matmulCheck`. -/
structure MainEnv (α : Type) where
  a0 : Nat → α
  b0 : Nat → α
  c0 : Nat → α
  malloc_ok : Bool
  ref_file : RefFile α
  fwrite_ret : Nat

/-- Outcome of `main`: it exits with a status, having dispatched the tile
kernels listed, in order; or it divides by zero or accesses an element outside
the buffers it allocated or outside the mapped reference, and its behaviour is
undefined (`fault`). -/
inductive MainOutcome where
  | exit (status : Nat) (calls : List Invocation) : MainOutcome
  | fault : MainOutcome
deriving DecidableEq

/-- The function `main` (lines 210-305) for `argc` arguments, `arg1`, `arg2`,
`arg3` being the integers `atoi` returns for `argv[1]`, `argv[2]`, `argv[3]`,
and `sizeof_elem` being `sizeof(elem_t)`.
`msize` is an `unsigned int`, `check` and `createFrom` are `unsigned char`.
Each of the buffers `a`, `b`, `c` is allocated with `s` bytes, `s` being the
`unsigned int` that holds `m2size*sizeof(elem_t)`, and so has
`s / sizeof(elem_t)` elements.  The initialisation loop writes
`m2size / b2size` tiles of each buffer; after it these tiles of `c` are zero;
the warm-up run and the measured run use the same scheduler, and every kernel
accesses the `BSIZE*BSIZE` elements of its three tiles; `matmulCheck` reads
`c` where it reads the reference in check mode, and `fwrite` reads `m2size`
elements of `c` in generate mode; the exit status is `check_ok ? 0 : 1`. -/
def main {α : Type} [LinearOrderedField α] (BSIZE factor sizeof_elem : Nat) (THRESHOLD : α)
    (env : MainEnv α) (argc : Nat) (arg1 arg2 arg3 : Int) : MainOutcome :=
  if argc ≠ 4 then MainOutcome.exit 1 []
  else
    let b2size := u32 (BSIZE * BSIZE)
    let msize := (arg1 % 4294967296).toNat
    let m2size := u32 (msize * msize)
    let check := (arg2 % 256).toNat
    let createFrom := (arg3 % 256).toNat
    if BSIZE = 0 then MainOutcome.fault
    else if msize % BSIZE ≠ 0 then MainOutcome.exit 1 []
    else if createFrom > 1 then MainOutcome.exit 1 []
    else
      let s := u32 (m2size * sizeof_elem)
      if env.malloc_ok = false then MainOutcome.exit 1 []
      else
        let elems := s / sizeof_elem
        let calls := if createFrom = 0 then matmulFPGA_calls BSIZE factor msize
          else matmulSMP_calls BSIZE msize
        if b2size = 0 then MainOutcome.fault
        else if ¬ (∀ i ∈ List.range (m2size / b2size),
            u32 (i * b2size) + BSIZE * BSIZE ≤ elems) then MainOutcome.fault
        else if ¬ (∀ v ∈ calls, v.ai + BSIZE * BSIZE ≤ elems ∧ v.bi + BSIZE * BSIZE ≤ elems ∧
            v.ci + BSIZE * BSIZE ≤ elems) then MainOutcome.fault
        else
          let m0 : Mem α :=
            { a := env.a0, b := env.b0,
              c := fun x => if x < m2size / b2size * b2size then 0 else env.c0 x }
          let m1 := if createFrom = 0 then matmulFPGA BSIZE factor msize m0
            else matmulSMP BSIZE msize m0
          let m2 := if createFrom = 0 then matmulFPGA BSIZE factor msize m1
            else matmulSMP BSIZE msize m1
          if check = 1 ∧ ¬ (∀ y ∈ matmulCheck_reads BSIZE THRESHOLD env.ref_file check m2.c msize,
              y < elems ∧ y < m2size) then MainOutcome.fault
          else if check = 2 ∧ elems < m2size then MainOutcome.fault
          else
            let r := matmulCheck BSIZE THRESHOLD env.ref_file env.fwrite_ret check m2.c msize
            MainOutcome.exit (if r.check_ok ≠ 0 then 0 else 1) (calls ++ calls)

/-! ## The tile addressing of the specification -/

/-- Offset of the tile at block coordinates `(row, col)`:
`col*BSIZE*BSIZE + row*BSIZE*msize`. -/
def tileOffset (BSIZE msize row col : Nat) : Nat :=
  col * BSIZE * BSIZE + row * BSIZE * msize

/-- Element `(r, c)` of the product of tile `(i, k)` of `a` and tile `(k, j)`
of `b`, summed over the `msize / BSIZE` values of `k`. -/
def tileProduct {α : Type} [CommRing α] (BSIZE msize : Nat) (a b : Nat → α)
    (i j r c : Nat) : α :=
  ∑ k in Finset.range (msize / BSIZE), ∑ kk in Finset.range BSIZE,
    a (tileOffset BSIZE msize i k + (r * BSIZE + kk)) *
      b (tileOffset BSIZE msize k j + (kk * BSIZE + c))

/-- Index of element `(R, C)` of a square matrix of side `msize` stored row by
row. -/
def rowMajorIndex (msize R C : Nat) : Nat := R * msize + C

/-- Index of element `(R, C)` of a square matrix of side `msize` stored tile by
tile: the tile `(R / BSIZE, C / BSIZE)` at its offset, and inside the tile the
element `(R mod BSIZE, C mod BSIZE)` at `r*BSIZE + c`. -/
def blockIndex (BSIZE msize R C : Nat) : Nat :=
  tileOffset BSIZE msize (R / BSIZE) (C / BSIZE) + (R % BSIZE * BSIZE + C % BSIZE)

/-! ## Notions used in the statements and proofs -/

/-- Two memories that hold the same `a`, the same `b`, and the same `c` on a
set `S` of indices. -/
def AgreeOn {α : Type} (S : Nat → Prop) (m1 m2 : Mem α) : Prop :=
  m1.a = m2.a ∧ m1.b = m2.b ∧ ∀ y, S y → m1.c y = m2.c y

/-- A memory transformer that keeps `a` and `b` and adds `d y` to every `c y`,
for memories whose inputs are `a` and `b`. -/
def AddsTo {α : Type} [CommRing α] (a b : Nat → α) (g : Mem α → Mem α) (d : Nat → α) : Prop :=
  ∀ m : Mem α, m.a = a → m.b = b →
    (g m).a = a ∧ (g m).b = b ∧ ∀ y, (g m).c y = m.c y + d y

/-- What one kernel invocation adds to `c y`. -/
def kernelDelta {α : Type} [CommRing α] (BSIZE ai bi ci : Nat) (a b : Nat → α) (y : Nat) : α :=
  ∑ k in Finset.range BSIZE, ∑ i in Finset.range BSIZE, ∑ j in Finset.range BSIZE,
    if y = ci + (i * BSIZE + j) then a (ai + (i * BSIZE + k)) * b (bi + (k * BSIZE + j)) else 0

/-- The call for the triple `(i, j, k)` with the offsets of the tile
addressing: tile `(i, k)` of `a`, tile `(k, j)` of `b`, tile `(i, j)` of `c`. -/
def tileCall (BSIZE msize i j k : Nat) : Invocation :=
  { i := i, j := j, k := k,
    ai := tileOffset BSIZE msize i k,
    bi := tileOffset BSIZE msize k j,
    ci := tileOffset BSIZE msize i j }

/-- Selects the calls whose output tile is `(i0, j0)`. -/
def onTile (i0 j0 : Nat) (v : Invocation) : Bool := decide (v.i = i0 ∧ v.j = j0)

/-- A list of calls is a schedule of the blocked product when every call in it
carries the offsets of the tile addressing for coordinates below
`msize / BSIZE`, and the calls on each output tile `(i0, j0)` are, in the order
of the list, those for `k = 0, 1, ..., msize / BSIZE - 1`. -/
def IsSchedule (BSIZE msize : Nat) (L : List Invocation) : Prop :=
  (∀ v, v ∈ L → v.i < msize / BSIZE ∧ v.j < msize / BSIZE ∧ v.k < msize / BSIZE ∧
      v = tileCall BSIZE msize v.i v.j v.k) ∧
  (∀ i0 j0, i0 < msize / BSIZE → j0 < msize / BSIZE →
      L.filter (onTile i0 j0) = (List.range (msize / BSIZE)).map (tileCall BSIZE msize i0 j0))

/-- The calls for the flattened output tiles `s, ..., s + len - 1` with the
offsets of the tile addressing: for each `k` in turn, one call per tile. -/
def segment (BSIZE msize s len : Nat) : List Invocation :=
  (List.range (msize / BSIZE)).flatMap fun k =>
    (List.range' s len).map fun ll =>
      tileCall BSIZE msize (ll / (msize / BSIZE)) (ll % (msize / BSIZE)) k

/-- The indices of the tile of `BSIZE * BSIZE` elements that starts at `ci`. -/
def InTile (BSIZE ci : Nat) (y : Nat) : Prop := ci ≤ y ∧ y < ci + BSIZE * BSIZE

/-- The triple `(i, j, k)` of a call. -/
def Invocation.triple (v : Invocation) : Nat × Nat × Nat := (v.i, v.j, v.k)

/-- The output tiles handled by the bulk phase of `matmulFPGA`: the `ll` of
every iteration of its innermost loop, in order. -/
def matmulFPGA_bulkTiles (BSIZE factor msize : Nat) : List Nat :=
  (matmulFPGA_batches BSIZE factor msize).flatten.map Prod.fst

/-- The output tiles handled by the drain phase of `matmulFPGA`. -/
def matmulFPGA_drainTiles (BSIZE factor msize : Nat) : List Nat :=
  (matmulFPGA_drain BSIZE factor msize).map Prod.fst

/-- The offset `ci` of tile `(i, j)` as `matmulCheck` computes it. -/
def checkOffset (BSIZE msize i j : Nat) : Nat :=
  u32 (j * u32 (BSIZE * BSIZE) + i * BSIZE * msize)

/-- Every element of the tile of `c` at offset `ci` is within tolerance of the
element of the reference at the same index. -/
def TilePasses {α : Type} [LinearOrderedField α] (BSIZE : Nat) (threshold : α)
    (c c_ref : Nat → α) (ci : Nat) : Prop :=
  ∀ x, x < BSIZE * BSIZE → ¬ outOfTolerance threshold (c (ci + x)) (c_ref (ci + x))

/-- State of a check that is still passing and has reported nothing, or has
failed and reported exactly one element, which is out of tolerance. -/
def AtMostOneDiag {α : Type} [LinearOrderedField α] (threshold : α) (c c_ref : Nat → α)
    (check_ok : Nat) (err : List (Diag α)) : Prop :=
  (check_ok ≠ 0 ∧ err = []) ∨
    (check_ok = 0 ∧ ∃ y, err = [Diag.mismatch (c_ref y) (c y)] ∧
      outOfTolerance threshold (c y) (c_ref y))

/-! ## Sample inputs -/

/-- Sample buffers over the integers: `a[x] = x`, `b[x] = x + 1`, `c` zero. -/
def sampleMem : Mem Int := { a := fun x => x, b := fun x => x + 1, c := fun _ => 0 }

/-- Buffers over the integers with `a` and `b` all ones and `c` zero. -/
def onesMem : Mem Int := { a := fun _ => 1, b := fun _ => 1, c := fun _ => 0 }

/-- The rational buffer that is zero everywhere. -/
def zeroBuf : Nat → ℚ := fun _ => 0

/-- The rational buffer that is one everywhere. -/
def onesBuf : Nat → ℚ := fun _ => 1

/-- A small rational buffer: `c[x] = x / 2 - 3`. -/
def rampBuf : Nat → ℚ := fun x => (x : ℚ) / 2 - 3

/-- A sample environment over the rationals. -/
def sampleEnv : MainEnv ℚ :=
  { a0 := fun x => x, b0 := fun x => x + 1, c0 := fun _ => 7, malloc_ok := true,
    ref_file := RefFile.cannotOpen, fwrite_ret := 0 }

/-! # Properties -/

/-! ## Sample evaluations -/

/-- The calls of `matmulSMP` for `BSIZE = 2`, `msize = 4`: triple and offsets. -/
theorem matmulSMP_calls_sample :
    (matmulSMP_calls 2 4).map (fun v => (v.triple, v.ai, v.bi, v.ci)) =
      [((0, 0, 0), 0, 0, 0), ((0, 1, 0), 0, 4, 4), ((0, 0, 1), 4, 8, 0), ((0, 1, 1), 4, 12, 4),
        ((1, 0, 0), 8, 0, 8), ((1, 1, 0), 8, 4, 12), ((1, 0, 1), 12, 8, 8),
        ((1, 1, 1), 12, 12, 12)] := by decide

/-- The batches, the drain phase and the calls of `matmulFPGA` for `BSIZE = 2`,
`msize = 4` and `factor = 3`. -/
theorem matmulFPGA_calls_sample :
    matmulFPGA_batches 2 3 4 = [[(0, 0), (1, 0), (2, 0), (0, 1), (1, 1), (2, 1)]] ∧
      matmulFPGA_drain 2 3 4 = [(3, 0), (3, 1)] ∧
      (matmulFPGA_calls 2 3 4).map (fun v => (v.triple, v.ai, v.bi, v.ci)) =
        [((0, 0, 0), 0, 0, 0), ((0, 1, 0), 0, 4, 4), ((1, 0, 0), 8, 0, 8),
          ((0, 0, 1), 4, 8, 0), ((0, 1, 1), 4, 12, 4), ((1, 0, 1), 12, 8, 8),
          ((1, 1, 0), 8, 4, 12), ((1, 1, 1), 12, 12, 12)] := by decide

set_option maxRecDepth 100000 in
/-- Both schedulers on 2 by 2 matrices with tiles of one element:
`[[0, 1], [2, 3]] * [[1, 2], [3, 4]] = [[3, 4], [11, 16]]`. -/
theorem matmulSMP_sample :
    (List.range 4).map (matmulSMP 1 2 sampleMem).c = [3, 4, 11, 16] ∧
      (List.range 4).map (matmulFPGA 1 3 2 sampleMem).c = [3, 4, 11, 16] := by decide

set_option maxRecDepth 100000 in
/-- Both schedulers for `BSIZE = 2`, `msize = 4` on `a[x] = x`, `b[x] = x + 1`:
the 16 elements of `c` after one run from zero. -/
theorem matmulSMP_sample_blocked :
    (List.range 16).map (matmulSMP 2 4 sampleMem).c =
        [94, 104, 142, 160, 134, 144, 214, 232, 286, 328, 334, 384, 454, 496, 534, 584] ∧
      (List.range 16).map (matmulFPGA 2 3 4 sampleMem).c =
        [94, 104, 142, 160, 134, 144, 214, 232, 286, 328, 334, 384, 454, 496, 534, 584] := by
  decide

/-! ## Loops as folds -/

theorem foldl_inv {σ β : Type} (P : σ → Prop) (f : σ → β → σ) (l : List β) (s : σ)
    (h0 : P s) (hstep : ∀ x, x ∈ l → ∀ t, P t → P (f t x)) : P (l.foldl f s) := by
  induction l generalizing s with
  | nil => simpa using h0
  | cons x xs ih =>
    rw [List.foldl_cons]
    exact ih _ (hstep x (List.mem_cons_self x xs) s h0)
      (fun y hy t ht => hstep y (List.mem_cons_of_mem x hy) t ht)

theorem foldl_rel {σ τ β : Type} (R : σ → τ → Prop) (f : σ → β → σ) (g : τ → β → τ)
    (l : List β) (s : σ) (t : τ) (h0 : R s t)
    (hstep : ∀ x, x ∈ l → ∀ s1 t1, R s1 t1 → R (f s1 x) (g t1 x)) :
    R (l.foldl f s) (l.foldl g t) := by
  induction l generalizing s t with
  | nil => simpa using h0
  | cons x xs ih =>
    rw [List.foldl_cons, List.foldl_cons]
    exact ih _ _ (hstep x (List.mem_cons_self x xs) s t h0)
      (fun y hy s1 t1 h => hstep y (List.mem_cons_of_mem x hy) s1 t1 h)

/-! ## The tile kernel -/

section Kernel

variable {α : Type} [Add α] [Mul α]

theorem matmulBlock_a (BSIZE ai bi ci : Nat) (m : Mem α) :
    (matmulBlock BSIZE ai bi ci m).a = m.a := by
  unfold matmulBlock
  refine foldl_inv (fun t : Mem α => t.a = m.a) _ _ _ rfl (fun k _ t ht => ?_)
  refine foldl_inv (fun t : Mem α => t.a = m.a) _ _ _ ht (fun i _ t ht => ?_)
  exact foldl_inv (fun t : Mem α => t.a = m.a) _ _ _ ht (fun j _ t ht => ht)

theorem matmulBlock_b (BSIZE ai bi ci : Nat) (m : Mem α) :
    (matmulBlock BSIZE ai bi ci m).b = m.b := by
  unfold matmulBlock
  refine foldl_inv (fun t : Mem α => t.b = m.b) _ _ _ rfl (fun k _ t ht => ?_)
  refine foldl_inv (fun t : Mem α => t.b = m.b) _ _ _ ht (fun i _ t ht => ?_)
  exact foldl_inv (fun t : Mem α => t.b = m.b) _ _ _ ht (fun j _ t ht => ht)

/-- The kernel writes no element of `c` other than `c[ci + i*BSIZE + j]`
with `i, j < BSIZE`. -/
theorem matmulBlock_c_frame (BSIZE ai bi ci : Nat) (m : Mem α) (y : Nat)
    (hy : ∀ i j, i < BSIZE → j < BSIZE → y ≠ ci + (i * BSIZE + j)) :
    (matmulBlock BSIZE ai bi ci m).c y = m.c y := by
  unfold matmulBlock
  refine foldl_inv (fun t : Mem α => t.c y = m.c y) _ _ _ rfl (fun k _ t ht => ?_)
  refine foldl_inv (fun t : Mem α => t.c y = m.c y) _ _ _ ht (fun i hi t ht => ?_)
  refine foldl_inv (fun t : Mem α => t.c y = m.c y) _ _ _ ht (fun j hj t ht => ?_)
  simp only [matmulBlockStmt]
  rw [Function.update_noteq (hy i j (List.mem_range.1 hi) (List.mem_range.1 hj))]
  exact ht

theorem matmulBlockStmt_agree (S : Nat → Prop) (BSIZE ai bi ci k i j : Nat) (m1 m2 : Mem α)
    (h : AgreeOn S m1 m2) (hS : S (ci + (i * BSIZE + j))) :
    AgreeOn S (matmulBlockStmt BSIZE ai bi ci k i j m1)
      (matmulBlockStmt BSIZE ai bi ci k i j m2) := by
  obtain ⟨ha, hb, hc⟩ := h
  refine ⟨ha, hb, fun y hy => ?_⟩
  simp only [matmulBlockStmt]
  by_cases hyx : y = ci + (i * BSIZE + j)
  · subst hyx
    simp only [Function.update_same]
    rw [hc _ hS, ha, hb]
  · rw [Function.update_noteq hyx, Function.update_noteq hyx]
    exact hc y hy

/-- The kernel reads `c` only inside the tile it writes: memories that agree
on a set containing the tile still agree on it after the kernel. -/
theorem matmulBlock_agree (S : Nat → Prop) (BSIZE ai bi ci : Nat) (m1 m2 : Mem α)
    (h : AgreeOn S m1 m2)
    (hS : ∀ i j, i < BSIZE → j < BSIZE → S (ci + (i * BSIZE + j))) :
    AgreeOn S (matmulBlock BSIZE ai bi ci m1) (matmulBlock BSIZE ai bi ci m2) := by
  unfold matmulBlock
  refine foldl_rel (AgreeOn S) _ _ _ _ _ h (fun k _ s1 t1 h1 => ?_)
  refine foldl_rel (AgreeOn S) _ _ _ _ _ h1 (fun i hi s2 t2 h2 => ?_)
  refine foldl_rel (AgreeOn S) _ _ _ _ _ h2 (fun j hj s3 t3 h3 => ?_)
  exact matmulBlockStmt_agree S BSIZE ai bi ci k i j s3 t3 h3
    (hS i j (List.mem_range.1 hi) (List.mem_range.1 hj))

end Kernel

/-! ## The kernel over a commutative ring -/

section KernelRing

variable {α : Type} [CommRing α]

theorem addsTo_foldl_range (a b : Nat → α) (f : Mem α → Nat → Mem α) (d : Nat → Nat → α)
    (n : Nat) (h : ∀ i, i < n → AddsTo a b (fun m => f m i) (d i)) :
    AddsTo a b (fun m => (List.range n).foldl f m)
      (fun y => ∑ i in Finset.range n, d i y) := by
  induction n with
  | zero => intro m ha hb; simp [ha, hb]
  | succ n ih =>
    intro m ha hb
    obtain ⟨ha1, hb1, hc1⟩ := ih (fun i hi => h i (Nat.lt_succ_of_lt hi)) m ha hb
    obtain ⟨ha2, hb2, hc2⟩ := h n (Nat.lt_succ_self n) _ ha1 hb1
    simp only [List.range_succ, List.foldl_append, List.foldl_cons, List.foldl_nil]
    refine ⟨ha2, hb2, fun y => ?_⟩
    rw [hc2 y, hc1 y, Finset.sum_range_succ, add_assoc]

theorem addsTo_foldl_list {β : Type} (a b : Nat → α) (f : Mem α → β → Mem α)
    (d : β → Nat → α) (l : List β) (h : ∀ x, x ∈ l → AddsTo a b (fun m => f m x) (d x)) :
    AddsTo a b (fun m => l.foldl f m) (fun y => (l.map (fun x => d x y)).sum) := by
  induction l with
  | nil => intro m ha hb; simp [ha, hb]
  | cons x xs ih =>
    intro m ha hb
    obtain ⟨ha1, hb1, hc1⟩ := h x (List.mem_cons_self x xs) m ha hb
    obtain ⟨ha2, hb2, hc2⟩ :=
      ih (fun y hy => h y (List.mem_cons_of_mem x hy)) _ ha1 hb1
    simp only [List.foldl_cons, List.map_cons, List.sum_cons]
    refine ⟨ha2, hb2, fun y => ?_⟩
    rw [hc2 y, hc1 y, add_assoc]

theorem matmulBlock_addsTo (BSIZE ai bi ci : Nat) (a b : Nat → α) :
    AddsTo a b (matmulBlock BSIZE ai bi ci) (kernelDelta BSIZE ai bi ci a b) := by
  unfold matmulBlock kernelDelta
  refine addsTo_foldl_range a b _ _ BSIZE (fun k _ => ?_)
  refine addsTo_foldl_range a b _ _ BSIZE (fun i _ => ?_)
  refine addsTo_foldl_range a b _ _ BSIZE (fun j _ => ?_)
  intro m ha hb
  refine ⟨ha, hb, fun y => ?_⟩
  simp only [matmulBlockStmt]
  by_cases hy : y = ci + (i * BSIZE + j)
  · subst hy
    simp [ha, hb]
  · rw [Function.update_noteq hy]
    simp [hy]

theorem matmulBlock_c (BSIZE ai bi ci : Nat) (m : Mem α) (y : Nat) :
    (matmulBlock BSIZE ai bi ci m).c y = m.c y + kernelDelta BSIZE ai bi ci m.a m.b y :=
  (matmulBlock_addsTo BSIZE ai bi ci m.a m.b m rfl rfl).2.2 y

theorem tile_index_inj {B i j i0 j0 : Nat} (hj : j < B) (hj0 : j0 < B)
    (h : i * B + j = i0 * B + j0) : i = i0 ∧ j = j0 := by
  have hB : 0 < B := Nat.lt_of_le_of_lt (Nat.zero_le j) hj
  have h1 : (i * B + j) / B = i := by
    rw [Nat.add_comm, Nat.add_mul_div_right _ _ hB, Nat.div_eq_of_lt hj, Nat.zero_add]
  have h2 : (i0 * B + j0) / B = i0 := by
    rw [Nat.add_comm, Nat.add_mul_div_right _ _ hB, Nat.div_eq_of_lt hj0, Nat.zero_add]
  have hi : i = i0 := by rw [← h1, ← h2, h]
  subst hi
  exact ⟨rfl, Nat.add_left_cancel h⟩

theorem tile_index_lt {B i j : Nat} (hi : i < B) (hj : j < B) : i * B + j < B * B := by
  have h1 : (i + 1) * B ≤ B * B := Nat.mul_le_mul_right B hi
  have h2 : (i + 1) * B = i * B + B := by ring
  omega

/-- Inside the tile the kernel adds the row-by-column product. -/
theorem kernelDelta_hit (BSIZE ai bi ci : Nat) (a b : Nat → α) (i j : Nat)
    (hi : i < BSIZE) (hj : j < BSIZE) :
    kernelDelta BSIZE ai bi ci a b (ci + (i * BSIZE + j)) =
      ∑ k in Finset.range BSIZE, a (ai + (i * BSIZE + k)) * b (bi + (k * BSIZE + j)) := by
  unfold kernelDelta
  refine Finset.sum_congr rfl (fun k _ => ?_)
  rw [Finset.sum_eq_single i]
  · rw [Finset.sum_eq_single j]
    · simp
    · intro j1 hj1 hne
      rw [if_neg]
      intro h
      exact hne (tile_index_inj (Finset.mem_range.1 hj1) hj
        (Nat.add_left_cancel h).symm).2
    · intro h; exact absurd (Finset.mem_range.2 hj) h
  · intro i1 _ hne
    refine Finset.sum_eq_zero (fun j1 hj1 => ?_)
    rw [if_neg]
    intro h
    exact hne (tile_index_inj (Finset.mem_range.1 hj1) hj
      (Nat.add_left_cancel h).symm).1
  · intro h; exact absurd (Finset.mem_range.2 hi) h

/-- Outside the tile the kernel adds nothing. -/
theorem kernelDelta_miss (BSIZE ai bi ci : Nat) (a b : Nat → α) (y : Nat)
    (hy : ∀ i j, i < BSIZE → j < BSIZE → y ≠ ci + (i * BSIZE + j)) :
    kernelDelta BSIZE ai bi ci a b y = 0 := by
  unfold kernelDelta
  refine Finset.sum_eq_zero (fun k _ => Finset.sum_eq_zero (fun i hi =>
    Finset.sum_eq_zero (fun j hj => ?_)))
  rw [if_neg (hy i j (Finset.mem_range.1 hi) (Finset.mem_range.1 hj))]

theorem outside_tile {BSIZE ci y : Nat} (hy : y < ci ∨ ci + BSIZE * BSIZE ≤ y) :
    ∀ i j, i < BSIZE → j < BSIZE → y ≠ ci + (i * BSIZE + j) := by
  intro i j hi hj h
  have := tile_index_lt hi hj
  omega

end KernelRing

/-! ## Lists with one qualifying element -/

theorem filter_map_single {β γ : Type} (l : List β) (g : β → γ) (p : γ → Bool) (x0 : β)
    (hnd : l.Nodup) (hx : x0 ∈ l) (hp : ∀ x, x ∈ l → (p (g x) = true ↔ x = x0)) :
    (l.map g).filter p = [g x0] := by
  induction l with
  | nil => simp at hx
  | cons x xs ih =>
    rw [List.nodup_cons] at hnd
    rw [List.map_cons]
    by_cases hxx : x = x0
    · subst hxx
      have h1 : p (g x) = true := (hp x (List.mem_cons_self x xs)).2 rfl
      rw [List.filter_cons_of_pos h1]
      have h2 : (xs.map g).filter p = [] := by
        rw [List.filter_eq_nil_iff]
        intro y hy
        obtain ⟨z, hz, rfl⟩ := List.mem_map.1 hy
        intro hpz
        have := (hp z (List.mem_cons_of_mem x hz)).1 hpz
        exact hnd.1 (this ▸ hz)
      rw [h2]
    · have h1 : ¬ (p (g x) = true) := fun h => hxx ((hp x (List.mem_cons_self x xs)).1 h)
      rw [List.filter_cons_of_neg h1]
      have hx' : x0 ∈ xs := by
        rcases List.mem_cons.1 hx with h | h
        · exact absurd h.symm hxx
        · exact h
      exact ih hnd.2 hx' (fun y hy => hp y (List.mem_cons_of_mem x hy))

theorem filter_map_none {β γ : Type} (l : List β) (g : β → γ) (p : γ → Bool)
    (hp : ∀ x, x ∈ l → ¬ (p (g x) = true)) : (l.map g).filter p = [] := by
  rw [List.filter_eq_nil_iff]
  intro y hy
  obtain ⟨z, hz, rfl⟩ := List.mem_map.1 hy
  exact hp z hz

theorem flatMap_single {β γ : Type} (l : List β) (f : β → List γ) (x0 : β)
    (hnd : l.Nodup) (hx : x0 ∈ l) (hf : ∀ x, x ∈ l → x ≠ x0 → f x = []) :
    l.flatMap f = f x0 := by
  induction l with
  | nil => simp at hx
  | cons x xs ih =>
    rw [List.nodup_cons] at hnd
    rw [List.flatMap_cons]
    by_cases hxx : x = x0
    · subst hxx
      have h2 : xs.flatMap f = [] := by
        rw [List.flatMap_eq_nil_iff]
        intro y hy
        exact hf y (List.mem_cons_of_mem x hy) (fun h => hnd.1 (h ▸ hy))
      rw [h2, List.append_nil]
    · have hx' : x0 ∈ xs := by
        rcases List.mem_cons.1 hx with h | h
        · exact absurd h.symm hxx
        · exact h
      rw [hf x (List.mem_cons_self x xs) hxx, List.nil_append]
      exact ih hnd.2 hx' (fun y hy => hf y (List.mem_cons_of_mem x hy))

/-! ## Tile addressing when `msize*msize` does not wrap -/

theorem tileOffset_flat (B n r c : Nat) :
    tileOffset B (B * n) r c = (r * n + c) * (B * B) := by
  unfold tileOffset; ring

theorem flat_lt {n r c : Nat} (hr : r < n) (hc : c < n) : r * n + c < n * n := by
  have h1 : (r + 1) * n ≤ n * n := Nat.mul_le_mul_right n hr
  have h2 : (r + 1) * n = r * n + n := by ring
  omega

theorem tileOffset_add_le (B n r c : Nat) (hr : r < n) (hc : c < n) :
    tileOffset B (B * n) r c + B * B ≤ B * n * (B * n) := by
  rw [tileOffset_flat]
  have h := flat_lt hr hc
  calc (r * n + c) * (B * B) + B * B = (r * n + c + 1) * (B * B) := by ring
    _ ≤ (n * n) * (B * B) := Nat.mul_le_mul_right _ h
    _ = B * n * (B * n) := by ring

theorem u32_of_lt {x : Nat} (h : x < UINT_MOD) : u32 x = x := Nat.mod_eq_of_lt h

theorem u32_b2size (B n : Nat) (hn : 0 < n) (hbound : B * n * (B * n) < UINT_MOD) :
    u32 (B * B) = B * B := by
  apply u32_of_lt
  have := tileOffset_add_le B n 0 0 hn hn
  omega

theorem u32_tileOffset (B n r c : Nat) (hr : r < n) (hc : c < n)
    (hbound : B * n * (B * n) < UINT_MOD) :
    u32 (c * u32 (B * B) + r * B * (B * n)) = tileOffset B (B * n) r c := by
  rw [u32_b2size B n (Nat.lt_of_le_of_lt (Nat.zero_le r) hr) hbound]
  have h := tileOffset_add_le B n r c hr hc
  have h2 : c * (B * B) + r * B * (B * n) = tileOffset B (B * n) r c := by
    unfold tileOffset; ring
  rw [h2]
  apply u32_of_lt
  omega

theorem matmulSMP_calls_eq (BSIZE msize : Nat) (hB : 0 < BSIZE) (hm : msize % BSIZE = 0)
    (hbound : msize * msize < UINT_MOD) :
    matmulSMP_calls BSIZE msize =
      (List.range (msize / BSIZE)).flatMap fun i =>
        (List.range (msize / BSIZE)).flatMap fun k =>
          (List.range (msize / BSIZE)).map fun j => tileCall BSIZE msize i j k := by
  obtain ⟨n, rfl⟩ := Nat.dvd_of_mod_eq_zero hm
  rw [Nat.mul_div_cancel_left n hB]
  unfold matmulSMP_calls
  rw [Nat.mul_div_cancel_left n hB]
  refine List.flatMap_congr (fun i hi => List.flatMap_congr (fun k hk =>
    List.map_congr_left (fun j hj => ?_)))
  rw [List.mem_range] at hi hk hj
  simp only [tileCall, u32_tileOffset BSIZE n _ _ hi hk hbound,
    u32_tileOffset BSIZE n _ _ hk hj hbound, u32_tileOffset BSIZE n _ _ hi hj hbound]

/-! ## The loops of `matmulFPGA` -/

theorem num_blocks_loop_le (BSIZE factor msize : Nat) :
    num_blocks_loop BSIZE factor msize ≤ num_blocks_matrix BSIZE msize := Nat.sub_le _ _

theorem num_blocks_matrix_lt (BSIZE msize : Nat) : num_blocks_matrix BSIZE msize < UINT_MOD :=
  Nat.lt_of_le_of_lt (Nat.div_le_self _ _) (Nat.mod_lt _ (by decide))

theorem num_blocks_loop_mul (BSIZE factor msize : Nat) :
    num_blocks_loop BSIZE factor msize / factor * factor = num_blocks_loop BSIZE factor msize := by
  apply Nat.div_mul_cancel
  unfold num_blocks_loop
  exact Nat.dvd_sub_mod _

/-- Inside the bulk loop `l + factor` does not wrap, so a batch holds exactly
the `factor` tiles from `l` on. -/
theorem matmulFPGA_batch_eq (BSIZE factor msize l : Nat) (h : l + factor < UINT_MOD) :
    matmulFPGA_batch BSIZE factor msize l =
      (List.range (msize / BSIZE)).flatMap fun k =>
        (List.range' l factor).map fun ll => (ll, k) := by
  unfold matmulFPGA_batch
  rw [u32_of_lt h, Nat.add_sub_cancel_left]

theorem matmulFPGA_bulk_eq (BSIZE factor msize q : Nat) (hf : 0 < factor)
    (hq : q * factor < UINT_MOD) :
    ∀ fuel t, t ≤ q → q - t ≤ fuel →
      matmulFPGA_bulk BSIZE factor msize (q * factor) fuel (t * factor) =
        (List.range' t (q - t)).map fun t1 =>
          (List.range (msize / BSIZE)).flatMap fun k =>
            (List.range' (t1 * factor) factor).map fun ll => (ll, k) := by
  intro fuel
  induction fuel with
  | zero =>
    intro t ht hfuel
    have : q - t = 0 := by omega
    simp [matmulFPGA_bulk, this]
  | succ fuel ih =>
    intro t ht hfuel
    unfold matmulFPGA_bulk
    by_cases htq : t < q
    · have h1 : t * factor < q * factor := Nat.mul_lt_mul_of_pos_right htq hf
      have h2 : (t + 1) * factor ≤ q * factor := Nat.mul_le_mul_right factor htq
      have h3 : (t + 1) * factor = t * factor + factor := by ring
      rw [if_pos h1]
      have h4 : t * factor + factor < UINT_MOD := by omega
      rw [u32_of_lt h4, ← h3, ih (t + 1) htq (by omega), matmulFPGA_batch_eq _ _ _ _ h4]
      have h5 : q - t = (q - (t + 1)) + 1 := by omega
      rw [h5, List.range'_succ, List.map_cons]
    · have h1 : ¬ (t * factor < q * factor) := by
        intro h
        exact htq (Nat.lt_of_mul_lt_mul_right h)
      have : q - t = 0 := by omega
      rw [if_neg h1, this]
      simp

/-- The bulk loop leaves by its condition within the iterations allotted: any
larger allotment gives the same batches. -/
theorem matmulFPGA_bulk_fuel (BSIZE factor msize fuel : Nat) (hf : 0 < factor)
    (hfuel : num_blocks_loop BSIZE factor msize ≤ fuel) :
    matmulFPGA_bulk BSIZE factor msize (num_blocks_loop BSIZE factor msize) fuel 0 =
      matmulFPGA_batches BSIZE factor msize := by
  have hq := num_blocks_loop_mul BSIZE factor msize
  have hlt : num_blocks_loop BSIZE factor msize < UINT_MOD :=
    Nat.lt_of_le_of_lt (num_blocks_loop_le _ _ _) (num_blocks_matrix_lt _ _)
  have hle : num_blocks_loop BSIZE factor msize / factor ≤ num_blocks_loop BSIZE factor msize :=
    Nat.div_le_self _ _
  unfold matmulFPGA_batches
  have e := matmulFPGA_bulk_eq BSIZE factor msize (num_blocks_loop BSIZE factor msize / factor) hf
    (by rw [hq]; exact hlt)
  have e1 := e fuel 0 (Nat.zero_le _) (by omega)
  have e2 := e (num_blocks_loop BSIZE factor msize) 0 (Nat.zero_le _) (by omega)
  rw [hq, Nat.zero_mul] at e1 e2
  rw [e1, e2]

theorem matmulFPGA_batches_eq (BSIZE factor msize : Nat) (hf : 0 < factor) :
    matmulFPGA_batches BSIZE factor msize =
      (List.range (num_blocks_loop BSIZE factor msize / factor)).map fun t =>
        (List.range (msize / BSIZE)).flatMap fun k =>
          (List.range' (t * factor) factor).map fun ll => (ll, k) := by
  have hq := num_blocks_loop_mul BSIZE factor msize
  have hlt : num_blocks_loop BSIZE factor msize < UINT_MOD :=
    Nat.lt_of_le_of_lt (num_blocks_loop_le _ _ _) (num_blocks_matrix_lt _ _)
  have hle : num_blocks_loop BSIZE factor msize / factor ≤ num_blocks_loop BSIZE factor msize :=
    Nat.div_le_self _ _
  unfold matmulFPGA_batches
  have e := matmulFPGA_bulk_eq BSIZE factor msize (num_blocks_loop BSIZE factor msize / factor) hf
    (by rw [hq]; exact hlt) (num_blocks_loop BSIZE factor msize) 0 (Nat.zero_le _) (by omega)
  rw [hq, Nat.zero_mul] at e
  rw [e, Nat.sub_zero, ← List.range_eq_range']

/-! ## Both call sequences are schedules -/

theorem matmulSMP_isSchedule (BSIZE msize : Nat) (hB : 0 < BSIZE) (hm : msize % BSIZE = 0)
    (hbound : msize * msize < UINT_MOD) :
    IsSchedule BSIZE msize (matmulSMP_calls BSIZE msize) := by
  rw [matmulSMP_calls_eq BSIZE msize hB hm hbound]
  constructor
  · intro v hv
    simp only [List.mem_flatMap, List.mem_map, List.mem_range] at hv
    obtain ⟨i, hi, k, hk, j, hj, rfl⟩ := hv
    exact ⟨hi, hj, hk, rfl⟩
  · intro i0 j0 hi0 hj0
    rw [List.filter_flatMap]
    rw [flatMap_single _ _ i0 (List.nodup_range _) (List.mem_range.2 hi0)]
    · rw [List.filter_flatMap, List.map_eq_flatMap]
      refine List.flatMap_congr (fun k _ => ?_)
      refine filter_map_single _ _ _ j0 (List.nodup_range _) (List.mem_range.2 hj0) ?_
      intro j _
      simp [onTile, tileCall]
    · intro i _ hne
      rw [List.filter_flatMap, List.flatMap_eq_nil_iff]
      intro k _
      refine filter_map_none _ _ _ ?_
      intro j _
      simp [onTile, tileCall, hne]

theorem num_blocks_matrix_eq (B n : Nat) (hB : 0 < B) (hn : 0 < n)
    (hbound : B * n * (B * n) < UINT_MOD) :
    num_blocks_matrix B (B * n) = n * n := by
  unfold num_blocks_matrix
  rw [u32_b2size B n hn hbound, u32_of_lt hbound]
  have h : B * n * (B * n) = n * n * (B * B) := by ring
  rw [h]
  exact Nat.mul_div_cancel _ (Nat.mul_pos hB hB)

theorem matmulFPGA_call_eq (B n ll k : Nat) (hB : 0 < B) (hll : ll < n * n) (hk : k < n)
    (hbound : B * n * (B * n) < UINT_MOD) :
    matmulFPGA_call B (B * n) ll k = tileCall B (B * n) (ll / n) (ll % n) k := by
  have hn : 0 < n := Nat.lt_of_le_of_lt (Nat.zero_le k) hk
  have hi : ll / n < n := (Nat.div_lt_iff_lt_mul hn).2 hll
  have hj : ll % n < n := Nat.mod_lt _ hn
  have hci : u32 (ll * u32 (B * B)) = tileOffset B (B * n) (ll / n) (ll % n) := by
    rw [u32_b2size B n hn hbound, tileOffset_flat]
    have h1 : ll / n * n + ll % n = ll := by
      rw [Nat.mul_comm]; exact Nat.div_add_mod ll n
    rw [h1]
    apply u32_of_lt
    have h2 := tileOffset_add_le B n (ll / n) (ll % n) hi hj
    rw [tileOffset_flat, h1] at h2
    omega
  unfold matmulFPGA_call
  simp only [Nat.mul_div_cancel_left n hB, tileCall, u32_tileOffset B n _ _ hi hk hbound,
    u32_tileOffset B n _ _ hk hj hbound, hci]

theorem flat_unique {n i0 j0 ll : Nat} (hj0 : j0 < n) :
    (ll / n = i0 ∧ ll % n = j0) ↔ ll = i0 * n + j0 := by
  have hn : 0 < n := Nat.lt_of_le_of_lt (Nat.zero_le j0) hj0
  constructor
  · rintro ⟨h1, h2⟩
    have := Nat.div_add_mod ll n
    rw [h1, h2, Nat.mul_comm] at this
    exact this.symm
  · rintro rfl
    constructor
    · rw [Nat.add_comm, Nat.add_mul_div_right _ _ hn, Nat.div_eq_of_lt hj0, Nat.zero_add]
    · rw [Nat.add_comm, Nat.add_mul_mod_self_right, Nat.mod_eq_of_lt hj0]

theorem segment_filter (BSIZE msize s len i0 j0 : Nat) (hj0 : j0 < msize / BSIZE) :
    (segment BSIZE msize s len).filter (onTile i0 j0) =
      if s ≤ i0 * (msize / BSIZE) + j0 ∧ i0 * (msize / BSIZE) + j0 < s + len then
        (List.range (msize / BSIZE)).map (tileCall BSIZE msize i0 j0)
      else [] := by
  unfold segment
  rw [List.filter_flatMap]
  split
  · rename_i h
    rw [List.map_eq_flatMap]
    refine List.flatMap_congr (fun k _ => ?_)
    have e := filter_map_single (List.range' s len)
      (fun ll => tileCall BSIZE msize (ll / (msize / BSIZE)) (ll % (msize / BSIZE)) k)
      (onTile i0 j0) (i0 * (msize / BSIZE) + j0) (List.nodup_range' s len)
      (List.mem_range'_1.2 h) (by
        intro ll _
        simp only [onTile, tileCall, decide_eq_true_eq]
        exact flat_unique hj0)
    rw [e]
    simp only [((flat_unique hj0).2 rfl).1, ((flat_unique hj0).2 rfl).2]
  · rename_i h
    rw [List.flatMap_eq_nil_iff]
    intro k _
    refine filter_map_none _ _ _ ?_
    intro ll hll
    simp only [onTile, tileCall, decide_eq_true_eq]
    intro hc
    rw [flat_unique hj0] at hc
    subst hc
    exact h (List.mem_range'_1.1 hll)

theorem matmulFPGA_calls_eq (BSIZE factor msize : Nat) (hB : 0 < BSIZE) (hf : 0 < factor)
    (hpos : 0 < msize) (hm : msize % BSIZE = 0) (hbound : msize * msize < UINT_MOD) :
    matmulFPGA_calls BSIZE factor msize =
      ((List.range (num_blocks_loop BSIZE factor msize / factor)).flatMap fun t =>
          segment BSIZE msize (t * factor) factor) ++
        segment BSIZE msize (num_blocks_loop BSIZE factor msize)
          (num_blocks_matrix BSIZE msize - num_blocks_loop BSIZE factor msize) := by
  have hq := num_blocks_loop_mul BSIZE factor msize
  have hle := num_blocks_loop_le BSIZE factor msize
  obtain ⟨n, rfl⟩ := Nat.dvd_of_mod_eq_zero hm
  have hn : 0 < n := Nat.pos_of_mul_pos_left hpos
  have hnbm := num_blocks_matrix_eq BSIZE n hB hn hbound
  unfold matmulFPGA_calls matmulFPGA_drain segment
  rw [matmulFPGA_batches_eq BSIZE factor _ hf]
  simp only [List.map_append, List.map_flatMap, List.map_map, Nat.mul_div_cancel_left n hB,
    ← List.flatMap_def, List.flatMap_map]
  congr 1
  · refine List.flatMap_congr (fun t ht => List.flatMap_congr (fun k hk =>
      List.map_congr_left (fun ll hll => ?_)))
    rw [List.mem_range] at ht hk
    rw [List.mem_range'_1] at hll
    have h1 : (t + 1) * factor ≤ num_blocks_loop BSIZE factor (BSIZE * n) / factor * factor :=
      Nat.mul_le_mul_right factor ht
    have h2 : (t + 1) * factor = t * factor + factor := by ring
    exact matmulFPGA_call_eq BSIZE n ll k hB (by omega) hk hbound
  · refine List.flatMap_congr (fun k hk => List.map_congr_left (fun ll hll => ?_))
    rw [List.mem_range] at hk
    rw [List.mem_range'_1] at hll
    exact matmulFPGA_call_eq BSIZE n ll k hB (by omega) hk hbound

theorem segment_mem (BSIZE msize s len : Nat) (hn : 0 < msize / BSIZE)
    (hlen : s + len ≤ msize / BSIZE * (msize / BSIZE)) (v : Invocation)
    (hv : v ∈ segment BSIZE msize s len) :
    v.i < msize / BSIZE ∧ v.j < msize / BSIZE ∧ v.k < msize / BSIZE ∧
      v = tileCall BSIZE msize v.i v.j v.k := by
  unfold segment at hv
  simp only [List.mem_flatMap, List.mem_map, List.mem_range, List.mem_range'_1] at hv
  obtain ⟨k, hk, ll, hll, rfl⟩ := hv
  refine ⟨?_, Nat.mod_lt _ hn, hk, rfl⟩
  exact (Nat.div_lt_iff_lt_mul hn).2 (by omega)

theorem matmulFPGA_isSchedule (BSIZE factor msize : Nat) (hB : 0 < BSIZE) (hf : 0 < factor)
    (hpos : 0 < msize) (hm : msize % BSIZE = 0) (hbound : msize * msize < UINT_MOD) :
    IsSchedule BSIZE msize (matmulFPGA_calls BSIZE factor msize) := by
  rw [matmulFPGA_calls_eq BSIZE factor msize hB hf hpos hm hbound]
  have hq := num_blocks_loop_mul BSIZE factor msize
  have hle := num_blocks_loop_le BSIZE factor msize
  have hnbm : num_blocks_matrix BSIZE msize = msize / BSIZE * (msize / BSIZE) := by
    obtain ⟨n, rfl⟩ := Nat.dvd_of_mod_eq_zero hm
    rw [Nat.mul_div_cancel_left n hB]
    exact num_blocks_matrix_eq BSIZE n hB (Nat.pos_of_mul_pos_left hpos) hbound
  have hn : 0 < msize / BSIZE :=
    Nat.div_pos (Nat.le_of_dvd hpos (Nat.dvd_of_mod_eq_zero hm)) hB
  constructor
  · intro v hv
    rcases List.mem_append.1 hv with h | h
    · obtain ⟨t, ht, hvt⟩ := List.mem_flatMap.1 h
      rw [List.mem_range] at ht
      have h1 : (t + 1) * factor ≤ num_blocks_loop BSIZE factor msize / factor * factor :=
        Nat.mul_le_mul_right factor ht
      have h2 : (t + 1) * factor = t * factor + factor := by ring
      exact segment_mem BSIZE msize _ _ hn (by omega) v hvt
    · exact segment_mem BSIZE msize _ _ hn (by omega) v h
  · intro i0 j0 hi0 hj0
    have hll0 := flat_lt hi0 hj0
    rw [List.filter_append, List.filter_flatMap, segment_filter BSIZE msize _ _ i0 j0 hj0]
    by_cases hlt : i0 * (msize / BSIZE) + j0 < num_blocks_loop BSIZE factor msize
    · rw [if_neg (by omega), List.append_nil]
      have ht0 : (i0 * (msize / BSIZE) + j0) / factor <
          num_blocks_loop BSIZE factor msize / factor := by
        rw [Nat.div_lt_iff_lt_mul hf, hq]; exact hlt
      rw [flatMap_single _ _ _ (List.nodup_range _) (List.mem_range.2 ht0)]
      · rw [segment_filter BSIZE msize _ _ i0 j0 hj0, if_pos]
        constructor
        · exact Nat.div_mul_le_self _ _
        · have := Nat.lt_div_mul_add (a := i0 * (msize / BSIZE) + j0) hf
          exact this
      · intro t _ hne
        rw [segment_filter BSIZE msize _ _ i0 j0 hj0, if_neg]
        rintro ⟨h1, h2⟩
        apply hne
        symm
        have h3 : (t + 1) * factor = t * factor + factor := by ring
        exact Nat.div_eq_of_lt_le h1 (by omega)
    · rw [if_pos (by omega)]
      have : ((List.range (num_blocks_loop BSIZE factor msize / factor)).flatMap fun t =>
          (segment BSIZE msize (t * factor) factor).filter (onTile i0 j0)) = [] := by
        rw [List.flatMap_eq_nil_iff]
        intro t ht
        rw [List.mem_range] at ht
        rw [segment_filter BSIZE msize _ _ i0 j0 hj0, if_neg]
        have h1 : (t + 1) * factor ≤ num_blocks_loop BSIZE factor msize / factor * factor :=
          Nat.mul_le_mul_right factor ht
        have h2 : (t + 1) * factor = t * factor + factor := by ring
        omega
      rw [this, List.nil_append]

/-! ## Runs of call sequences -/

theorem inTile_of_index {BSIZE ci i j : Nat} (hi : i < BSIZE) (hj : j < BSIZE) :
    InTile BSIZE ci (ci + (i * BSIZE + j)) := by
  have := tile_index_lt hi hj
  exact ⟨Nat.le_add_right _ _, by omega⟩

theorem not_inTile {BSIZE ci y : Nat} (hy : ¬ InTile BSIZE ci y) :
    ∀ i j, i < BSIZE → j < BSIZE → y ≠ ci + (i * BSIZE + j) := by
  intro i j hi hj h
  exact hy (h ▸ inTile_of_index hi hj)

/-- Tiles at different block coordinates do not overlap. -/
theorem tiles_disjoint (B n i j i0 j0 y : Nat) (hj : j < n) (hj0 : j0 < n)
    (hne : ¬ (i = i0 ∧ j = j0)) (hy : InTile B (tileOffset B (B * n) i0 j0) y) :
    ¬ InTile B (tileOffset B (B * n) i j) y := by
  intro hy2
  unfold InTile at hy hy2
  rw [tileOffset_flat] at hy hy2
  have hq : i * n + j ≠ i0 * n + j0 := fun h => hne (tile_index_inj hj hj0 h)
  rcases Nat.lt_or_gt_of_ne hq with h | h
  · have h1 : (i * n + j + 1) * (B * B) ≤ (i0 * n + j0) * (B * B) := Nat.mul_le_mul_right _ h
    have h2 : (i * n + j + 1) * (B * B) = (i * n + j) * (B * B) + B * B := by ring
    omega
  · have h1 : (i0 * n + j0 + 1) * (B * B) ≤ (i * n + j) * (B * B) := Nat.mul_le_mul_right _ h
    have h2 : (i0 * n + j0 + 1) * (B * B) = (i0 * n + j0) * (B * B) + B * B := by ring
    omega

section Run

variable {α : Type} [Add α] [Mul α]

theorem runCalls_nil (BSIZE : Nat) (m : Mem α) : runCalls BSIZE [] m = m := rfl

theorem runCalls_cons (BSIZE : Nat) (v : Invocation) (L : List Invocation) (m : Mem α) :
    runCalls BSIZE (v :: L) m = runCalls BSIZE L (matmulBlock BSIZE v.ai v.bi v.ci m) := rfl

theorem runCalls_a (BSIZE : Nat) (L : List Invocation) (m : Mem α) :
    (runCalls BSIZE L m).a = m.a :=
  foldl_inv (fun t : Mem α => t.a = m.a) _ _ _ rfl
    (fun v _ t ht => (matmulBlock_a BSIZE v.ai v.bi v.ci t).trans ht)

theorem runCalls_b (BSIZE : Nat) (L : List Invocation) (m : Mem α) :
    (runCalls BSIZE L m).b = m.b :=
  foldl_inv (fun t : Mem α => t.b = m.b) _ _ _ rfl
    (fun v _ t ht => (matmulBlock_b BSIZE v.ai v.bi v.ci t).trans ht)

/-- An element of `c` outside the tiles of all calls keeps its value. -/
theorem runCalls_frame (BSIZE : Nat) (L : List Invocation) (m : Mem α) (y : Nat)
    (hy : ∀ v, v ∈ L → ¬ InTile BSIZE v.ci y) : (runCalls BSIZE L m).c y = m.c y :=
  foldl_inv (fun t : Mem α => t.c y = m.c y) _ _ _ rfl
    (fun v hv t ht => (matmulBlock_c_frame BSIZE v.ai v.bi v.ci t y (not_inTile (hy v hv))).trans ht)

/-- On a tile, a run is determined by the calls that write the tile, provided
the remaining calls write elsewhere. -/
theorem runCalls_filter (BSIZE ci0 : Nat) (p : Invocation → Bool) (L : List Invocation)
    (hin : ∀ v, v ∈ L → p v = true → v.ci = ci0)
    (hout : ∀ v, v ∈ L → ¬ (p v = true) → ∀ y, InTile BSIZE ci0 y → ¬ InTile BSIZE v.ci y)
    (m1 m2 : Mem α) (h : AgreeOn (InTile BSIZE ci0) m1 m2) :
    AgreeOn (InTile BSIZE ci0) (runCalls BSIZE L m1) (runCalls BSIZE (L.filter p) m2) := by
  induction L generalizing m1 m2 with
  | nil => simpa [runCalls] using h
  | cons v L ih =>
    have ih1 := ih (fun w hw => hin w (List.mem_cons_of_mem v hw))
      (fun w hw => hout w (List.mem_cons_of_mem v hw))
    by_cases hp : p v = true
    · rw [List.filter_cons_of_pos hp, runCalls_cons, runCalls_cons]
      apply ih1
      apply matmulBlock_agree _ _ _ _ _ _ _ h
      intro i j hi hj
      rw [hin v (List.mem_cons_self v L) hp]
      exact inTile_of_index hi hj
    · rw [List.filter_cons_of_neg hp, runCalls_cons]
      apply ih1
      obtain ⟨ha, hb, hc⟩ := h
      refine ⟨(matmulBlock_a _ _ _ _ _).trans ha, (matmulBlock_b _ _ _ _ _).trans hb, ?_⟩
      intro y hy
      rw [matmulBlock_c_frame BSIZE v.ai v.bi v.ci m1 y
        (not_inTile (hout v (List.mem_cons_self v L) hp y hy))]
      exact hc y hy

/-- On the output tile `(i0, j0)` a schedule computes what the calls for
`k = 0, 1, ...` on that tile compute, in that order. -/
theorem isSchedule_run (BSIZE msize : Nat) (hB : 0 < BSIZE) (hm : msize % BSIZE = 0)
    (L : List Invocation) (hL : IsSchedule BSIZE msize L) (i0 j0 : Nat)
    (hi0 : i0 < msize / BSIZE) (hj0 : j0 < msize / BSIZE) (m : Mem α) :
    AgreeOn (InTile BSIZE (tileOffset BSIZE msize i0 j0)) (runCalls BSIZE L m)
      (runCalls BSIZE ((List.range (msize / BSIZE)).map (tileCall BSIZE msize i0 j0)) m) := by
  rw [← hL.2 i0 j0 hi0 hj0]
  refine runCalls_filter BSIZE _ (onTile i0 j0) L ?_ ?_ m m ⟨rfl, rfl, fun _ _ => rfl⟩
  · intro v hv hp
    obtain ⟨_, _, _, e⟩ := hL.1 v hv
    simp only [onTile, decide_eq_true_eq] at hp
    rw [e]
    simp only [tileCall, hp.1, hp.2]
  · intro v hv hp y hy
    obtain ⟨_, hj, _, e⟩ := hL.1 v hv
    simp only [onTile, decide_eq_true_eq] at hp
    have hci : v.ci = tileOffset BSIZE msize v.i v.j := by rw [e]; rfl
    rw [hci]
    obtain ⟨n, rfl⟩ := Nat.dvd_of_mod_eq_zero hm
    rw [Nat.mul_div_cancel_left n hB] at hj hj0
    exact tiles_disjoint BSIZE n v.i v.j i0 j0 y hj hj0 hp hy

end Run

theorem pow32 : (2 : Nat) ^ 32 = UINT_MOD := by decide

/-! ## The kernel postcondition (C6) -/

section Postcondition

variable {α : Type} [CommRing α]

/-- C6: the tile kernel `matmulBlock(a, b, c)` leaves
`c[i*BSIZE + j] = c_old[i*BSIZE + j] + sum over k < BSIZE of a[i*BSIZE + k] * b[k*BSIZE + j]`
for all `i, j < BSIZE`; it leaves `a` and `b` as they were; and with `c` the
sub-range of the buffer `C` that starts at offset `ci`, every element of `C`
outside `[ci, ci + BSIZE*BSIZE)` keeps its value. -/
theorem matmulBlock_postcondition (BSIZE ai bi ci : Nat) (m : Mem α) :
    (∀ i j, i < BSIZE → j < BSIZE →
      (matmulBlock BSIZE ai bi ci m).c (ci + (i * BSIZE + j)) =
        m.c (ci + (i * BSIZE + j)) +
          ∑ k in Finset.range BSIZE, m.a (ai + (i * BSIZE + k)) * m.b (bi + (k * BSIZE + j))) ∧
    (matmulBlock BSIZE ai bi ci m).a = m.a ∧
    (matmulBlock BSIZE ai bi ci m).b = m.b ∧
    (∀ y, y < ci ∨ ci + BSIZE * BSIZE ≤ y → (matmulBlock BSIZE ai bi ci m).c y = m.c y) := by
  refine ⟨fun i j hi hj => ?_, matmulBlock_a _ _ _ _ m, matmulBlock_b _ _ _ _ m, fun y hy => ?_⟩
  · rw [matmulBlock_c, kernelDelta_hit BSIZE ai bi ci m.a m.b i j hi hj]
  · exact matmulBlock_c_frame BSIZE ai bi ci m y (outside_tile hy)

end Postcondition

/-! ## One run of a scheduler (C1) -/

section OneRun

variable {α : Type} [CommRing α]

/-- Running the calls of one output tile for `k = 0, 1, ...` adds the tile
products to the tile. -/
theorem tile_run_c (BSIZE msize i0 j0 r c : Nat) (hr : r < BSIZE) (hc : c < BSIZE)
    (m : Mem α) :
    (runCalls BSIZE ((List.range (msize / BSIZE)).map (tileCall BSIZE msize i0 j0)) m).c
        (tileOffset BSIZE msize i0 j0 + (r * BSIZE + c)) =
      m.c (tileOffset BSIZE msize i0 j0 + (r * BSIZE + c)) +
        tileProduct BSIZE msize m.a m.b i0 j0 r c := by
  unfold runCalls
  rw [List.foldl_map]
  have h := addsTo_foldl_range m.a m.b
    (fun (s : Mem α) (k : Nat) =>
      matmulBlock BSIZE (tileCall BSIZE msize i0 j0 k).ai (tileCall BSIZE msize i0 j0 k).bi
        (tileCall BSIZE msize i0 j0 k).ci s)
    (fun k => kernelDelta BSIZE (tileOffset BSIZE msize i0 k) (tileOffset BSIZE msize k j0)
      (tileOffset BSIZE msize i0 j0) m.a m.b)
    (msize / BSIZE) (fun k _ => matmulBlock_addsTo BSIZE _ _ _ m.a m.b)
  rw [(h m rfl rfl).2.2]
  unfold tileProduct
  congr 1
  exact Finset.sum_congr rfl (fun k _ => kernelDelta_hit BSIZE _ _ _ m.a m.b r c hr hc)

theorem isSchedule_c (BSIZE msize : Nat) (hB : 0 < BSIZE) (hm : msize % BSIZE = 0)
    (L : List Invocation) (hL : IsSchedule BSIZE msize L) (m : Mem α) (i j r c : Nat)
    (hi : i < msize / BSIZE) (hj : j < msize / BSIZE) (hr : r < BSIZE) (hc : c < BSIZE) :
    (runCalls BSIZE L m).c (tileOffset BSIZE msize i j + (r * BSIZE + c)) =
      m.c (tileOffset BSIZE msize i j + (r * BSIZE + c)) +
        tileProduct BSIZE msize m.a m.b i j r c := by
  rw [(isSchedule_run BSIZE msize hB hm L hL i j hi hj m).2.2 _ (inTile_of_index hr hc)]
  exact tile_run_c BSIZE msize i j r c hr hc m

/-- One run of either scheduler adds the tile product to every element of
every output tile. -/
theorem schedulers_c (BSIZE factor msize : Nat) (m : Mem α) (hB : 0 < BSIZE)
    (hf : 0 < factor) (hpos : 0 < msize) (hm : msize % BSIZE = 0)
    (hbound : msize * msize < UINT_MOD) (i j r c : Nat) (hi : i < msize / BSIZE)
    (hj : j < msize / BSIZE) (hr : r < BSIZE) (hc : c < BSIZE) :
    (matmulSMP BSIZE msize m).c (tileOffset BSIZE msize i j + (r * BSIZE + c)) =
        m.c (tileOffset BSIZE msize i j + (r * BSIZE + c)) +
          tileProduct BSIZE msize m.a m.b i j r c ∧
      (matmulFPGA BSIZE factor msize m).c (tileOffset BSIZE msize i j + (r * BSIZE + c)) =
        m.c (tileOffset BSIZE msize i j + (r * BSIZE + c)) +
          tileProduct BSIZE msize m.a m.b i j r c :=
  ⟨isSchedule_c BSIZE msize hB hm _ (matmulSMP_isSchedule BSIZE msize hB hm hbound)
      m i j r c hi hj hr hc,
    isSchedule_c BSIZE msize hB hm _
      (matmulFPGA_isSchedule BSIZE factor msize hB hf hpos hm hbound) m i j r c hi hj hr hc⟩

/-- C1: for `msize` a positive multiple of `BSIZE` with `msize*msize < 2^32`,
one run of `matmulSMP`, and one run of `matmulFPGA`, from the buffers `m`
leaves in element `(r, c)` of every output tile `(i, j)` of `c` its initial
value plus the sum over `k < msize/BSIZE` of the products of tile `(i, k)` of
`a` and tile `(k, j)` of `b`; from an all-zero `c` this is the tile product
itself. Tiles are read at offset `col*BSIZE*BSIZE + row*BSIZE*msize`, element
`(r, c)` of a tile at `r*BSIZE + c`. -/
theorem matmul_once (BSIZE factor msize : Nat) (m : Mem α) (hB : 0 < BSIZE)
    (hf : 1 ≤ factor) (hpos : 0 < msize) (hm : msize % BSIZE = 0)
    (hbound : msize * msize < 2 ^ 32) (i j r c : Nat) (hi : i < msize / BSIZE)
    (hj : j < msize / BSIZE) (hr : r < BSIZE) (hc : c < BSIZE) :
    ((matmulSMP BSIZE msize m).c (tileOffset BSIZE msize i j + (r * BSIZE + c)) =
        m.c (tileOffset BSIZE msize i j + (r * BSIZE + c)) +
          tileProduct BSIZE msize m.a m.b i j r c ∧
      (matmulFPGA BSIZE factor msize m).c (tileOffset BSIZE msize i j + (r * BSIZE + c)) =
        m.c (tileOffset BSIZE msize i j + (r * BSIZE + c)) +
          tileProduct BSIZE msize m.a m.b i j r c) ∧
    ((∀ y, m.c y = 0) →
      (matmulSMP BSIZE msize m).c (tileOffset BSIZE msize i j + (r * BSIZE + c)) =
          tileProduct BSIZE msize m.a m.b i j r c ∧
        (matmulFPGA BSIZE factor msize m).c (tileOffset BSIZE msize i j + (r * BSIZE + c)) =
          tileProduct BSIZE msize m.a m.b i j r c) := by
  rw [pow32] at hbound
  have h := schedulers_c BSIZE factor msize m hB hf hpos hm hbound i j r c hi hj hr hc
  refine ⟨h, fun h0 => ?_⟩
  rw [h.1, h.2, h0, zero_add]
  exact ⟨rfl, rfl⟩

end OneRun

set_option maxRecDepth 100000 in
theorem matmul_once_witness :
    (0 < 2 ∧ 1 ≤ 3 ∧ 0 < 4 ∧ 4 % 2 = 0 ∧ 4 * 4 < 2 ^ 32 ∧ 1 < 4 / 2 ∧ 0 < 4 / 2 ∧ 1 < 2) ∧
      (((matmulSMP 2 4 sampleMem).c (tileOffset 2 4 1 0 + (1 * 2 + 1)) =
          sampleMem.c (tileOffset 2 4 1 0 + (1 * 2 + 1)) +
            tileProduct 2 4 sampleMem.a sampleMem.b 1 0 1 1 ∧
        (matmulFPGA 2 3 4 sampleMem).c (tileOffset 2 4 1 0 + (1 * 2 + 1)) =
          sampleMem.c (tileOffset 2 4 1 0 + (1 * 2 + 1)) +
            tileProduct 2 4 sampleMem.a sampleMem.b 1 0 1 1) ∧
      ((∀ y, sampleMem.c y = 0) →
        (matmulSMP 2 4 sampleMem).c (tileOffset 2 4 1 0 + (1 * 2 + 1)) =
            tileProduct 2 4 sampleMem.a sampleMem.b 1 0 1 1 ∧
          (matmulFPGA 2 3 4 sampleMem).c (tileOffset 2 4 1 0 + (1 * 2 + 1)) =
            tileProduct 2 4 sampleMem.a sampleMem.b 1 0 1 1)) :=
  ⟨by decide, matmul_once 2 3 4 sampleMem (by decide) (by decide) (by decide) (by decide)
    (by decide) 1 0 1 1 (by decide) (by decide) (by decide) (by decide)⟩

/-! ## Two runs of a scheduler (C2) -/

section TwoRuns

variable {α : Type} [CommRing α]

theorem runCalls_addsTo (BSIZE : Nat) (L : List Invocation) (a b : Nat → α) :
    AddsTo a b (runCalls BSIZE L)
      (fun y => (L.map (fun v => kernelDelta BSIZE v.ai v.bi v.ci a b y)).sum) :=
  addsTo_foldl_list a b _ _ L (fun v _ => matmulBlock_addsTo BSIZE v.ai v.bi v.ci a b)

/-- Whatever the calls, running them twice from a zero `c` doubles the result
of running them once. -/
theorem runCalls_twice (BSIZE : Nat) (L : List Invocation) (m : Mem α)
    (h0 : ∀ y, m.c y = 0) (y : Nat) :
    (runCalls BSIZE L (runCalls BSIZE L m)).c y = 2 * (runCalls BSIZE L m).c y := by
  obtain ⟨ha1, hb1, hc1⟩ := runCalls_addsTo BSIZE L m.a m.b m rfl rfl
  obtain ⟨_, _, hc2⟩ := runCalls_addsTo BSIZE L m.a m.b (runCalls BSIZE L m) ha1 hb1
  rw [hc2 y, hc1 y, h0 y]
  ring

/-- C2 (amended): for `msize` a positive multiple of `BSIZE` and either
scheduler, running the schedule twice in a row on a zero-initialised `c`
without re-zeroing it yields in every element of `c` exactly twice the result
of running it once; when moreover `msize*msize < 2^32`, that is twice the tile
product in every element of every output tile, `C = 2*(A*B)`. -/
theorem matmul_twice (BSIZE factor msize : Nat) (m : Mem α) (hB : 0 < BSIZE)
    (hf : 1 ≤ factor) (hpos : 0 < msize) (hm : msize % BSIZE = 0) (h0 : ∀ y, m.c y = 0) :
    (∀ y, (matmulSMP BSIZE msize (matmulSMP BSIZE msize m)).c y =
        2 * (matmulSMP BSIZE msize m).c y) ∧
      (∀ y, (matmulFPGA BSIZE factor msize (matmulFPGA BSIZE factor msize m)).c y =
        2 * (matmulFPGA BSIZE factor msize m).c y) ∧
      (msize * msize < 2 ^ 32 → ∀ i j r c, i < msize / BSIZE → j < msize / BSIZE →
        r < BSIZE → c < BSIZE →
          (matmulSMP BSIZE msize (matmulSMP BSIZE msize m)).c
              (tileOffset BSIZE msize i j + (r * BSIZE + c)) =
            2 * tileProduct BSIZE msize m.a m.b i j r c ∧
          (matmulFPGA BSIZE factor msize (matmulFPGA BSIZE factor msize m)).c
              (tileOffset BSIZE msize i j + (r * BSIZE + c)) =
            2 * tileProduct BSIZE msize m.a m.b i j r c) := by
  refine ⟨fun y => runCalls_twice BSIZE _ m h0 y, fun y => runCalls_twice BSIZE _ m h0 y, ?_⟩
  intro hbound i j r c hi hj hr hc
  rw [pow32] at hbound
  have h1 := schedulers_c BSIZE factor msize m hB hf hpos hm hbound i j r c hi hj hr hc
  rw [h0, zero_add] at h1
  constructor
  · have := runCalls_twice BSIZE (matmulSMP_calls BSIZE msize) m h0
      (tileOffset BSIZE msize i j + (r * BSIZE + c))
    unfold matmulSMP at h1 ⊢
    rw [this, h1.1]
  · have := runCalls_twice BSIZE (matmulFPGA_calls BSIZE factor msize) m h0
      (tileOffset BSIZE msize i j + (r * BSIZE + c))
    unfold matmulFPGA at h1 ⊢
    rw [this, h1.2]

end TwoRuns

set_option maxRecDepth 100000 in
theorem matmul_twice_witness :
    (∀ y, sampleMem.c y = 0) ∧
      ((∀ y, (matmulSMP 2 4 (matmulSMP 2 4 sampleMem)).c y = 2 * (matmulSMP 2 4 sampleMem).c y) ∧
      (∀ y, (matmulFPGA 2 3 4 (matmulFPGA 2 3 4 sampleMem)).c y =
        2 * (matmulFPGA 2 3 4 sampleMem).c y) ∧
      (4 * 4 < 2 ^ 32 → ∀ i j r c, i < 4 / 2 → j < 4 / 2 → r < 2 → c < 2 →
          (matmulSMP 2 4 (matmulSMP 2 4 sampleMem)).c (tileOffset 2 4 i j + (r * 2 + c)) =
            2 * tileProduct 2 4 sampleMem.a sampleMem.b i j r c ∧
          (matmulFPGA 2 3 4 (matmulFPGA 2 3 4 sampleMem)).c (tileOffset 2 4 i j + (r * 2 + c)) =
            2 * tileProduct 2 4 sampleMem.a sampleMem.b i j r c)) :=
  ⟨fun _ => rfl, matmul_twice 2 3 4 sampleMem (by decide) (by decide) (by decide) (by decide)
    (fun _ => rfl)⟩

theorem matmulFPGA_calls_wrap : matmulFPGA_calls 32768 1 65536 = [] := by decide

/-- C2 as stated fails when `msize*msize` wraps: for `BSIZE = 32768` and
`msize = 65536`, a positive multiple of `BSIZE`, `num_blocks_matrix` is `0` and
`matmulFPGA` issues no call, so two runs from a zero `c` leave `c[0] = 0`, while
twice element `(0, 0)` of the tile product for tile `(0, 0)` of all-ones
inputs is `131072`. -/
theorem matmul_twice_wraps :
    0 < 32768 ∧ 0 < 65536 ∧ 65536 % 32768 = 0 ∧ (∀ y, onesMem.c y = 0) ∧
      num_blocks_matrix 32768 65536 = 0 ∧
      (matmulFPGA 32768 1 65536 (matmulFPGA 32768 1 65536 onesMem)).c
          (tileOffset 32768 65536 0 0 + (0 * 32768 + 0)) = 0 ∧
      2 * tileProduct 32768 65536 onesMem.a onesMem.b 0 0 0 0 = 131072 ∧
      (matmulFPGA 32768 1 65536 (matmulFPGA 32768 1 65536 onesMem)).c
          (tileOffset 32768 65536 0 0 + (0 * 32768 + 0)) ≠
        2 * tileProduct 32768 65536 onesMem.a onesMem.b 0 0 0 0 := by
  have h1 : (matmulFPGA 32768 1 65536 (matmulFPGA 32768 1 65536 onesMem)).c
      (tileOffset 32768 65536 0 0 + (0 * 32768 + 0)) = 0 := by
    unfold matmulFPGA
    rw [matmulFPGA_calls_wrap]
    rfl
  have h2 : 2 * tileProduct 32768 65536 onesMem.a onesMem.b 0 0 0 0 = 131072 := by
    simp [tileProduct, onesMem]
  refine ⟨by decide, by decide, by decide, fun _ => rfl, by decide, h1, h2, ?_⟩
  rw [h1, h2]
  decide

/-! ## Every triple exactly once (C3) -/

theorem isSchedule_count (BSIZE msize : Nat) (L : List Invocation)
    (hL : IsSchedule BSIZE msize L) (i j k : Nat) :
    (L.map Invocation.triple).count (i, j, k) =
      if i < msize / BSIZE ∧ j < msize / BSIZE ∧ k < msize / BSIZE then 1 else 0 := by
  split
  · rename_i h
    obtain ⟨hi, hj, hk⟩ := h
    rw [List.count_eq_countP, List.countP_map, List.countP_eq_length_filter]
    have e : L.filter ((fun t => t == (i, j, k)) ∘ Invocation.triple) =
        (L.filter (onTile i j)).filter (fun v => decide (v.k = k)) := by
      rw [List.filter_filter]
      refine List.filter_congr (fun v _ => ?_)
      simp only [Function.comp, Invocation.triple, onTile, beq_iff_eq, Prod.mk.injEq,
        Bool.decide_and, Bool.decide_eq_true]
      by_cases h1 : v.i = i <;> by_cases h2 : v.j = j <;> by_cases h3 : v.k = k <;>
        simp [h1, h2, h3]
    rw [e, hL.2 i j hi hj,
      filter_map_single _ _ _ k (List.nodup_range _) (List.mem_range.2 hk)
        (fun x _ => by simp [tileCall])]
    rfl
  · rename_i h
    apply List.count_eq_zero_of_not_mem
    intro hmem
    obtain ⟨v, hv, e⟩ := List.mem_map.1 hmem
    obtain ⟨h1, h2, h3, _⟩ := hL.1 v hv
    simp only [Invocation.triple, Prod.mk.injEq] at e
    exact h ⟨e.1 ▸ h1, e.2.1 ▸ h2, e.2.2 ▸ h3⟩

/-- C3: for `msize` a positive multiple of `BSIZE` with `msize*msize < 2^32`
and every fan-out factor `>= 1`, the sequence of calls issued by `matmulSMP`
and the sequence issued by `matmulFPGA` each contain every triple `(i, j, k)`
with `i, j, k < msize/BSIZE` exactly once, and no other triple. -/
theorem schedules_cover_once (BSIZE factor msize : Nat) (hB : 0 < BSIZE) (hf : 1 ≤ factor)
    (hpos : 0 < msize) (hm : msize % BSIZE = 0) (hbound : msize * msize < 2 ^ 32)
    (i j k : Nat) :
    ((matmulSMP_calls BSIZE msize).map Invocation.triple).count (i, j, k) =
        (if i < msize / BSIZE ∧ j < msize / BSIZE ∧ k < msize / BSIZE then 1 else 0) ∧
      ((matmulFPGA_calls BSIZE factor msize).map Invocation.triple).count (i, j, k) =
        (if i < msize / BSIZE ∧ j < msize / BSIZE ∧ k < msize / BSIZE then 1 else 0) := by
  rw [pow32] at hbound
  exact ⟨isSchedule_count BSIZE msize _ (matmulSMP_isSchedule BSIZE msize hB hm hbound) i j k,
    isSchedule_count BSIZE msize _
      (matmulFPGA_isSchedule BSIZE factor msize hB hf hpos hm hbound) i j k⟩

theorem schedules_cover_once_witness :
    (0 < 2 ∧ 1 ≤ 3 ∧ 0 < 4 ∧ 4 % 2 = 0 ∧ 4 * 4 < 2 ^ 32) ∧
      (((matmulSMP_calls 2 4).map Invocation.triple).count (1, 0, 1) =
          (if 1 < 4 / 2 ∧ 0 < 4 / 2 ∧ 1 < 4 / 2 then 1 else 0) ∧
        ((matmulFPGA_calls 2 3 4).map Invocation.triple).count (1, 0, 1) =
          (if 1 < 4 / 2 ∧ 0 < 4 / 2 ∧ 1 < 4 / 2 then 1 else 0)) :=
  ⟨by decide, schedules_cover_once 2 3 4 (by decide) (by decide) (by decide) (by decide)
    (by decide) 1 0 1⟩

/-! ## The two policies agree (C4) -/

section Policies

variable {α : Type} [Add α] [Mul α]

theorem isSchedule_unique (BSIZE msize : Nat) (hB : 0 < BSIZE) (hm : msize % BSIZE = 0)
    (L1 L2 : List Invocation) (h1 : IsSchedule BSIZE msize L1) (h2 : IsSchedule BSIZE msize L2)
    (m : Mem α) : runCalls BSIZE L1 m = runCalls BSIZE L2 m := by
  have hc : ∀ y, (runCalls BSIZE L1 m).c y = (runCalls BSIZE L2 m).c y := by
    intro y
    by_cases hy : ∃ i0 j0, i0 < msize / BSIZE ∧ j0 < msize / BSIZE ∧
        InTile BSIZE (tileOffset BSIZE msize i0 j0) y
    · obtain ⟨i0, j0, hi0, hj0, hin⟩ := hy
      rw [(isSchedule_run BSIZE msize hB hm L1 h1 i0 j0 hi0 hj0 m).2.2 y hin,
        (isSchedule_run BSIZE msize hB hm L2 h2 i0 j0 hi0 hj0 m).2.2 y hin]
    · have hout : ∀ L, IsSchedule BSIZE msize L → ∀ v, v ∈ L → ¬ InTile BSIZE v.ci y := by
        intro L hL v hv hin
        obtain ⟨hi, hj, _, e⟩ := hL.1 v hv
        apply hy
        refine ⟨v.i, v.j, hi, hj, ?_⟩
        have hci : v.ci = tileOffset BSIZE msize v.i v.j := by rw [e]; rfl
        rw [← hci]
        exact hin
      rw [runCalls_frame BSIZE L1 m y (hout L1 h1), runCalls_frame BSIZE L2 m y (hout L2 h2)]
  have ha : (runCalls BSIZE L1 m).a = (runCalls BSIZE L2 m).a := by
    rw [runCalls_a, runCalls_a]
  have hb : (runCalls BSIZE L1 m).b = (runCalls BSIZE L2 m).b := by
    rw [runCalls_b, runCalls_b]
  cases h : runCalls BSIZE L1 m with
  | mk a1 b1 c1 =>
    cases h' : runCalls BSIZE L2 m with
    | mk a2 b2 c2 =>
      rw [h, h'] at ha hb hc
      simp only at ha hb hc
      rw [ha, hb, funext hc]

/-- C4: for `msize` a positive multiple of `BSIZE` with `msize*msize < 2^32`,
every fan-out factor `>= 1` and all buffers, `matmulFPGA` and `matmulSMP`, run
in program order with the same kernel `matmulBlock`, leave identical buffers:
every element of `c` is the same (and `a`, `b` are untouched). Addition and
multiplication of elements are arbitrary binary operations; no law is used. -/
theorem matmulFPGA_eq_matmulSMP (BSIZE factor msize : Nat) (m : Mem α) (hB : 0 < BSIZE)
    (hf : 1 ≤ factor) (hpos : 0 < msize) (hm : msize % BSIZE = 0)
    (hbound : msize * msize < 2 ^ 32) :
    matmulFPGA BSIZE factor msize m = matmulSMP BSIZE msize m ∧
      ∀ y, (matmulFPGA BSIZE factor msize m).c y = (matmulSMP BSIZE msize m).c y := by
  rw [pow32] at hbound
  have h := isSchedule_unique BSIZE msize hB hm _ _
    (matmulFPGA_isSchedule BSIZE factor msize hB hf hpos hm hbound)
    (matmulSMP_isSchedule BSIZE msize hB hm hbound) m
  exact ⟨h, fun y => by unfold matmulFPGA matmulSMP; rw [h]⟩

end Policies

set_option maxRecDepth 100000 in
theorem matmulFPGA_eq_matmulSMP_witness :
    (0 < 2 ∧ 1 ≤ 3 ∧ 0 < 4 ∧ 4 % 2 = 0 ∧ 4 * 4 < 2 ^ 32) ∧
      (matmulFPGA 2 3 4 sampleMem = matmulSMP 2 4 sampleMem ∧
        ∀ y, (matmulFPGA 2 3 4 sampleMem).c y = (matmulSMP 2 4 sampleMem).c y) :=
  ⟨by decide, matmulFPGA_eq_matmulSMP 2 3 4 sampleMem (by decide) (by decide) (by decide)
    (by decide) (by decide)⟩

/-! ## Bulk batches and drain of `matmulFPGA` (C5) -/

theorem mem_batch_tiles (n t factor ll : Nat) (hn : 0 < n) :
    ll ∈ ((List.range n).flatMap fun k =>
        (List.range' (t * factor) factor).map fun l => (l, k)).map Prod.fst ↔
      t * factor ≤ ll ∧ ll < t * factor + factor := by
  simp only [List.mem_map, List.mem_flatMap, List.mem_range, List.mem_range'_1, Prod.exists,
    Prod.mk.injEq]
  constructor
  · rintro ⟨a, b, ⟨k, _, l, hl, rfl, rfl⟩, rfl⟩
    exact hl
  · intro h
    exact ⟨ll, 0, ⟨0, hn, ll, h, rfl, rfl⟩, rfl⟩

theorem mem_bulkTiles (BSIZE factor msize ll : Nat) (hf : 0 < factor)
    (hn : 0 < msize / BSIZE) :
    ll ∈ matmulFPGA_bulkTiles BSIZE factor msize ↔ ll < num_blocks_loop BSIZE factor msize := by
  have hq := num_blocks_loop_mul BSIZE factor msize
  unfold matmulFPGA_bulkTiles
  rw [matmulFPGA_batches_eq BSIZE factor msize hf]
  simp only [List.mem_map, List.mem_flatten, List.mem_range, Prod.exists]
  constructor
  · rintro ⟨a, b, ⟨l, ⟨t, ht, rfl⟩, hl⟩, rfl⟩
    have h := (mem_batch_tiles (msize / BSIZE) t factor a hn).1
      (List.mem_map.2 ⟨(a, b), hl, rfl⟩)
    have h1 : (t + 1) * factor ≤ num_blocks_loop BSIZE factor msize / factor * factor :=
      Nat.mul_le_mul_right factor ht
    have h2 : (t + 1) * factor = t * factor + factor := by ring
    omega
  · intro h
    have ht : ll / factor < num_blocks_loop BSIZE factor msize / factor := by
      rw [Nat.div_lt_iff_lt_mul hf, hq]; exact h
    have hmem := (mem_batch_tiles (msize / BSIZE) (ll / factor) factor ll hn).2
      ⟨Nat.div_mul_le_self _ _, Nat.lt_div_mul_add hf⟩
    obtain ⟨⟨a, b⟩, hab, e⟩ := List.mem_map.1 hmem
    simp only at e
    subst e
    exact ⟨a, b, ⟨_, ⟨a / factor, ht, rfl⟩, hab⟩, rfl⟩

theorem mem_drainTiles (BSIZE factor msize ll : Nat) (hn : 0 < msize / BSIZE) :
    ll ∈ matmulFPGA_drainTiles BSIZE factor msize ↔
      num_blocks_loop BSIZE factor msize ≤ ll ∧ ll < num_blocks_matrix BSIZE msize := by
  have hle := num_blocks_loop_le BSIZE factor msize
  unfold matmulFPGA_drainTiles matmulFPGA_drain
  simp only [List.mem_map, List.mem_flatMap, List.mem_range, List.mem_range'_1, Prod.exists,
    Prod.mk.injEq]
  constructor
  · rintro ⟨a, b, ⟨k, _, l, hl, rfl, rfl⟩, rfl⟩
    omega
  · intro h
    exact ⟨ll, 0, ⟨0, hn, ll, by omega, rfl, rfl⟩, rfl⟩

/-- C5: in `matmulFPGA`, with `num_blocks_matrix = msize*msize/(BSIZE*BSIZE)`
tiles and `factor = MBLOCK_NUM_ACCS >= 1`, the bulk loop runs
`num_blocks_loop / factor` batches, `num_blocks_loop` being
`num_blocks_matrix - num_blocks_matrix mod factor`; batch `t` handles exactly
the `factor` tiles `t*factor, ..., t*factor + factor - 1` (each for every `k`),
so the bulk phase handles exactly the tiles below `num_blocks_loop`; the drain
loop handles exactly the tiles from `num_blocks_loop` up to
`num_blocks_matrix`; no tile is in both phases and the two phases together
handle exactly the tiles below `num_blocks_matrix`. For `msize = 1024`,
`BSIZE = 256`, `factor = 4` there are 16 tiles, 4 batches that handle all of
them, and the drain phase is empty. -/
theorem matmulFPGA_remainder_batching (BSIZE factor msize : Nat) (hB : 0 < BSIZE)
    (hf : 1 ≤ factor) (hpos : 0 < msize) (hm : msize % BSIZE = 0) :
    num_blocks_loop BSIZE factor msize =
        num_blocks_matrix BSIZE msize - num_blocks_matrix BSIZE msize % factor ∧
      matmulFPGA_batches BSIZE factor msize =
        (List.range (num_blocks_loop BSIZE factor msize / factor)).map (fun t =>
          (List.range (msize / BSIZE)).flatMap fun k =>
            (List.range' (t * factor) factor).map fun ll => (ll, k)) ∧
      (∀ t ll, t < num_blocks_loop BSIZE factor msize / factor →
        (ll ∈ ((matmulFPGA_batches BSIZE factor msize).getD t []).map Prod.fst ↔
          t * factor ≤ ll ∧ ll < t * factor + factor)) ∧
      (∀ ll, ll ∈ matmulFPGA_bulkTiles BSIZE factor msize ↔
        ll < num_blocks_loop BSIZE factor msize) ∧
      (∀ ll, ll ∈ matmulFPGA_drainTiles BSIZE factor msize ↔
        num_blocks_loop BSIZE factor msize ≤ ll ∧ ll < num_blocks_matrix BSIZE msize) ∧
      (∀ ll, ¬ (ll ∈ matmulFPGA_bulkTiles BSIZE factor msize ∧
        ll ∈ matmulFPGA_drainTiles BSIZE factor msize)) ∧
      (∀ ll, (ll ∈ matmulFPGA_bulkTiles BSIZE factor msize ∨
        ll ∈ matmulFPGA_drainTiles BSIZE factor msize) ↔ ll < num_blocks_matrix BSIZE msize) ∧
      (num_blocks_matrix 256 1024 = 16 ∧ (matmulFPGA_batches 256 4 1024).length = 4 ∧
        (∀ ll, ll ∈ matmulFPGA_bulkTiles 256 4 1024 ↔ ll < 16) ∧
        matmulFPGA_drain 256 4 1024 = []) := by
  have hn : 0 < msize / BSIZE :=
    Nat.div_pos (Nat.le_of_dvd hpos (Nat.dvd_of_mod_eq_zero hm)) hB
  have hle := num_blocks_loop_le BSIZE factor msize
  have hbatches := matmulFPGA_batches_eq BSIZE factor msize hf
  refine ⟨rfl, hbatches, ?_, fun ll => mem_bulkTiles BSIZE factor msize ll hf hn,
    fun ll => mem_drainTiles BSIZE factor msize ll hn, ?_, ?_, ?_⟩
  · intro t ll ht
    rw [hbatches, List.getD_eq_getElem?_getD, List.getElem?_map, List.getElem?_range ht]
    exact mem_batch_tiles (msize / BSIZE) t factor ll hn
  · intro ll
    rw [mem_bulkTiles BSIZE factor msize ll hf hn, mem_drainTiles BSIZE factor msize ll hn]
    omega
  · intro ll
    rw [mem_bulkTiles BSIZE factor msize ll hf hn, mem_drainTiles BSIZE factor msize ll hn]
    omega
  · have h16 : num_blocks_matrix 256 1024 = 16 := by decide
    have hl16 : num_blocks_loop 256 4 1024 = 16 := by decide
    refine ⟨h16, ?_, ?_, ?_⟩
    · rw [matmulFPGA_batches_eq 256 4 1024 (by decide), List.length_map, List.length_range,
        hl16]
    · intro ll
      rw [mem_bulkTiles 256 4 1024 ll (by decide) (by decide), hl16]
    · unfold matmulFPGA_drain
      rw [h16, hl16]
      simp

theorem matmulFPGA_remainder_batching_witness :
    (0 < 2 ∧ 1 ≤ 3 ∧ 0 < 6 ∧ 6 % 2 = 0) ∧
      (matmulFPGA_batches 2 3 6 =
        (List.range (num_blocks_loop 2 3 6 / 3)).map (fun t =>
          (List.range (6 / 2)).flatMap fun k =>
            (List.range' (t * 3) 3).map fun ll => (ll, k)) ∧
      (∀ ll, ll ∈ matmulFPGA_bulkTiles 2 3 6 ↔ ll < num_blocks_loop 2 3 6) ∧
      (∀ ll, ll ∈ matmulFPGA_drainTiles 2 3 6 ↔
        num_blocks_loop 2 3 6 ≤ ll ∧ ll < num_blocks_matrix 2 6)) :=
  ⟨by decide,
    (matmulFPGA_remainder_batching 2 3 6 (by decide) (by decide) (by decide) (by decide)).2.1,
    (matmulFPGA_remainder_batching 2 3 6 (by decide) (by decide) (by decide) (by decide)).2.2.2.1,
    (matmulFPGA_remainder_batching 2 3 6 (by decide) (by decide) (by decide)
      (by decide)).2.2.2.2.1⟩

/-! ## Loops guarded by `check_ok` -/

theorem forWhile_not {σ : Type} (cond : σ → Bool) (body : Nat → σ → σ) (rem i : Nat) (s : σ)
    (h : cond s = false) : forWhile cond body rem i s = s := by
  cases rem with
  | zero => rfl
  | succ rem => simp [forWhile, h]

/-- A loop guarded by `check_ok` whose body either leaves the state alone
(iteration passes) or clears `check_ok` (iteration fails): the loop leaves the
state alone when every iteration passes and clears `check_ok` otherwise. -/
theorem forWhile_check {α : Type} (body : Nat → CheckState α → CheckState α) (P : Nat → Prop)
    (rem : Nat) :
    ∀ (start : Nat) (s : CheckState α),
      (∀ i, start ≤ i → i < start + rem → ∀ t : CheckState α, t.check_ok ≠ 0 →
        (P i → body i t = t) ∧ (¬ P i → (body i t).check_ok = 0)) →
      s.check_ok ≠ 0 →
      ((∀ i, start ≤ i → i < start + rem → P i) →
        forWhile (fun s : CheckState α => s.check_ok != 0) body rem start s = s) ∧
      (¬ (∀ i, start ≤ i → i < start + rem → P i) →
        (forWhile (fun s : CheckState α => s.check_ok != 0) body rem start s).check_ok = 0) := by
  induction rem with
  | zero =>
    intro start s _ _
    refine ⟨fun _ => rfl, fun h => ?_⟩
    exact absurd (fun i h1 h2 => by omega) h
  | succ rem ih =>
    intro start s hbody hs
    have hcond : (fun s : CheckState α => s.check_ok != 0) s = true := by simpa using hs
    have hb := hbody start (Nat.le_refl _) (by omega) s hs
    have hrest : ∀ i, start + 1 ≤ i → i < start + 1 + rem → ∀ t : CheckState α,
        t.check_ok ≠ 0 → (P i → body i t = t) ∧ (¬ P i → (body i t).check_ok = 0) :=
      fun i h1 h2 => hbody i (by omega) (by omega)
    unfold forWhile
    rw [if_pos hcond]
    by_cases hP : P start
    · rw [hb.1 hP]
      obtain ⟨ih1, ih2⟩ := ih (start + 1) s hrest hs
      constructor
      · intro hall
        exact ih1 (fun i h1 h2 => hall i (by omega) (by omega))
      · intro hall
        apply ih2
        intro hall2
        apply hall
        intro i h1 h2
        by_cases hi : i = start
        · rw [hi]; exact hP
        · exact hall2 i (by omega) (by omega)
    · have h0 := hb.2 hP
      rw [forWhile_not _ _ _ _ _ (by simpa using h0)]
      exact ⟨fun hall => absurd (hall start (Nat.le_refl _) (by omega)) hP, fun _ => h0⟩

section CheckLoops

variable {α : Type} [LinearOrderedField α]

theorem checkBlockBody_pass (threshold res_val ref_val : α) (st : CheckState α)
    (h : ¬ outOfTolerance threshold res_val ref_val) :
    checkBlockBody threshold res_val ref_val st = st := by
  unfold checkBlockBody; rw [if_neg h]

theorem checkBlockBody_fail (threshold res_val ref_val : α) (st : CheckState α)
    (h : outOfTolerance threshold res_val ref_val) :
    checkBlockBody threshold res_val ref_val st =
      { check_ok := 0, err := st.err ++ [Diag.mismatch ref_val res_val] } := by
  unfold checkBlockBody; rw [if_pos h]

theorem checkBlock_spec (BSIZE : Nat) (threshold : α) (res ref : Nat → α) (st : CheckState α)
    (hst : st.check_ok ≠ 0) :
    ((∀ x, x < BSIZE * BSIZE → ¬ outOfTolerance threshold (res x) (ref x)) →
        checkBlock BSIZE threshold res ref st = st) ∧
      (¬ (∀ x, x < BSIZE * BSIZE → ¬ outOfTolerance threshold (res x) (ref x)) →
        (checkBlock BSIZE threshold res ref st).check_ok = 0) := by
  have h := forWhile_check (fun i s => checkBlockBody threshold (res i) (ref i) s)
    (fun x => ¬ outOfTolerance threshold (res x) (ref x)) (BSIZE * BSIZE) 0 st
    (fun i _ _ t _ => ⟨fun hp => checkBlockBody_pass _ _ _ t hp, fun hp => by
      show (checkBlockBody threshold (res i) (ref i) t).check_ok = 0
      rw [checkBlockBody_fail _ _ _ t (not_not.1 hp)]⟩) hst
  unfold checkBlock
  constructor
  · intro hall
    exact h.1 (fun i _ hi => hall i (by omega))
  · intro hall
    exact h.2 (fun hall2 => hall (fun x hx => hall2 x (Nat.zero_le _) (by omega)))

/-- The verdict of check mode with the reference mapped: nothing is reported
and `1` is returned when every tile visited passes, `0` is returned otherwise. -/
theorem matmulCheck_mapped (BSIZE : Nat) (THRESHOLD : α) (c_ref : Nat → α) (fwrite_ret : Nat)
    (c : Nat → α) (msize : Nat) :
    ((∀ i j, i < msize / BSIZE → j < msize / BSIZE →
          TilePasses BSIZE THRESHOLD c c_ref (checkOffset BSIZE msize i j)) →
        matmulCheck BSIZE THRESHOLD (RefFile.mapped c_ref) fwrite_ret 1 c msize =
          { check_ok := 1, err := [], written := [] }) ∧
      (¬ (∀ i j, i < msize / BSIZE → j < msize / BSIZE →
          TilePasses BSIZE THRESHOLD c c_ref (checkOffset BSIZE msize i j)) →
        (matmulCheck BSIZE THRESHOLD (RefFile.mapped c_ref) fwrite_ret 1 c msize).check_ok = 0) := by
  have hj : ∀ i (t : CheckState α), t.check_ok ≠ 0 →
      ((∀ j, j < msize / BSIZE →
          TilePasses BSIZE THRESHOLD c c_ref (checkOffset BSIZE msize i j)) →
        forWhile (fun s : CheckState α => s.check_ok != 0)
          (fun j s => checkBlock BSIZE THRESHOLD
            (fun x => c (u32 (j * u32 (BSIZE * BSIZE) + i * BSIZE * msize) + x))
            (fun x => c_ref (u32 (j * u32 (BSIZE * BSIZE) + i * BSIZE * msize) + x)) s)
          (msize / BSIZE) 0 t = t) ∧
      (¬ (∀ j, j < msize / BSIZE →
          TilePasses BSIZE THRESHOLD c c_ref (checkOffset BSIZE msize i j)) →
        (forWhile (fun s : CheckState α => s.check_ok != 0)
          (fun j s => checkBlock BSIZE THRESHOLD
            (fun x => c (u32 (j * u32 (BSIZE * BSIZE) + i * BSIZE * msize) + x))
            (fun x => c_ref (u32 (j * u32 (BSIZE * BSIZE) + i * BSIZE * msize) + x)) s)
          (msize / BSIZE) 0 t).check_ok = 0) := by
    intro i t ht
    have h := forWhile_check
      (fun j s => checkBlock BSIZE THRESHOLD
        (fun x => c (u32 (j * u32 (BSIZE * BSIZE) + i * BSIZE * msize) + x))
        (fun x => c_ref (u32 (j * u32 (BSIZE * BSIZE) + i * BSIZE * msize) + x)) s)
      (fun j => TilePasses BSIZE THRESHOLD c c_ref (checkOffset BSIZE msize i j))
      (msize / BSIZE) 0 t
      (fun j _ _ s hs => checkBlock_spec BSIZE THRESHOLD _ _ s hs) ht
    constructor
    · intro hall
      exact h.1 (fun j _ hj => hall j (by omega))
    · intro hall
      exact h.2 (fun hall2 => hall (fun j hj => hall2 j (Nat.zero_le _) (by omega)))
  have hi := forWhile_check
    (fun i s => forWhile (fun s : CheckState α => s.check_ok != 0)
      (fun j s => checkBlock BSIZE THRESHOLD
        (fun x => c (u32 (j * u32 (BSIZE * BSIZE) + i * BSIZE * msize) + x))
        (fun x => c_ref (u32 (j * u32 (BSIZE * BSIZE) + i * BSIZE * msize) + x)) s)
      (msize / BSIZE) 0 s)
    (fun i => ∀ j, j < msize / BSIZE →
      TilePasses BSIZE THRESHOLD c c_ref (checkOffset BSIZE msize i j))
    (msize / BSIZE) 0 ({ check_ok := 1, err := [] } : CheckState α)
    (fun i _ _ s hs => hj i s hs) (by simp)
  unfold matmulCheck
  simp only [if_true]
  constructor
  · intro hall
    rw [hi.1 (fun i _ hi j hj => hall i j (by omega) hj)]
  · intro hall
    exact hi.2 (fun hall2 => hall (fun i j hi hj => hall2 i (Nat.zero_le _) (by omega) j hj))

theorem checkBlockBody_ok_iff (threshold res_val ref_val : α) (st : CheckState α)
    (hst : st.check_ok ≠ 0) :
    (checkBlockBody threshold res_val ref_val st).check_ok ≠ 0 ↔
      ¬ outOfTolerance threshold res_val ref_val := by
  by_cases h : outOfTolerance threshold res_val ref_val
  · rw [checkBlockBody_fail _ _ _ st h]
    simp [h]
  · rw [checkBlockBody_pass _ _ _ st h]
    simp [h, hst]

theorem tilePasses_iff_checkBlock (BSIZE : Nat) (THRESHOLD : α) (c c_ref : Nat → α) (ci : Nat) :
    TilePasses BSIZE THRESHOLD c c_ref ci ↔
      (checkBlock BSIZE THRESHOLD (fun x => c (ci + x)) (fun x => c_ref (ci + x))
        { check_ok := 1, err := [] }).check_ok ≠ 0 := by
  have h := checkBlock_spec BSIZE THRESHOLD (fun x => c (ci + x)) (fun x => c_ref (ci + x))
    ({ check_ok := 1, err := [] } : CheckState α) (by simp)
  unfold TilePasses
  constructor
  · intro hp
    rw [h.1 hp]
    simp
  · intro hok
    by_contra hp
    exact hok (h.2 hp)

theorem matmulCheck_ok_iff (BSIZE : Nat) (THRESHOLD : α) (c_ref : Nat → α) (fwrite_ret : Nat)
    (c : Nat → α) (msize : Nat) :
    (matmulCheck BSIZE THRESHOLD (RefFile.mapped c_ref) fwrite_ret 1 c msize).check_ok ≠ 0 ↔
      ∀ i j, i < msize / BSIZE → j < msize / BSIZE →
        TilePasses BSIZE THRESHOLD c c_ref (checkOffset BSIZE msize i j) := by
  have h := matmulCheck_mapped BSIZE THRESHOLD c_ref fwrite_ret c msize
  constructor
  · intro hok
    by_contra hp
    exact hok (h.2 hp)
  · intro hp
    rw [h.1 hp]
    simp

end CheckLoops

theorem forWhile_inv {σ : Type} (cond : σ → Bool) (body : Nat → σ → σ) (P : σ → Prop)
    (hbody : ∀ i s, cond s = true → P s → P (body i s)) (rem : Nat) :
    ∀ (start : Nat) (s : σ), P s → P (forWhile cond body rem start s) := by
  induction rem with
  | zero => intro start s hs; exact hs
  | succ rem ih =>
    intro start s hs
    unfold forWhile
    by_cases hc : cond s = true
    · rw [if_pos hc]
      exact ih (start + 1) _ (hbody start s hc hs)
    · rw [if_neg hc]
      exact hs

/-! ## The tolerance rule (C7, C8) -/

section Tolerance

variable {α : Type} [LinearOrderedField α]

theorem not_outOfTolerance_iff (t res ref : α) :
    ¬ outOfTolerance t res ref ↔
      (if ref < 0 then ref * (1 + t) ≤ res ∧ res ≤ ref * (1 - t)
        else ref * (1 - t) ≤ res ∧ res ≤ ref * (1 + t)) := by
  unfold outOfTolerance
  have e1 : ref * (1 + -t) = ref * (1 - t) := by ring
  have e2 : ref * (1 - -t) = ref * (1 + t) := by ring
  by_cases h : ref < 0
  · simp only [h, if_true, e1, e2, not_or, not_lt, gt_iff_lt]
    exact And.comm
  · simp only [h, if_false, not_or, not_lt, gt_iff_lt]
    exact And.comm

theorem not_outOfTolerance_iff_abs (t res ref : α) :
    ¬ outOfTolerance t res ref ↔ |res - ref| ≤ t * |ref| := by
  rw [not_outOfTolerance_iff, abs_le]
  by_cases h : ref < 0
  · rw [if_pos h, abs_of_neg h]
    constructor
    · rintro ⟨h1, h2⟩
      constructor <;> linarith
    · rintro ⟨h1, h2⟩
      constructor <;> linarith
  · rw [if_neg h, abs_of_nonneg (not_lt.1 h)]
    constructor
    · rintro ⟨h1, h2⟩
      constructor <;> linarith
    · rintro ⟨h1, h2⟩
      constructor <;> linarith

/-- The tolerance comparison is reflexive for a threshold `>= 0`. -/
theorem not_outOfTolerance_self (t v : α) (ht : 0 ≤ t) : ¬ outOfTolerance t v v := by
  rw [not_outOfTolerance_iff_abs, sub_self, abs_zero]
  exact mul_nonneg ht (abs_nonneg v)

/-- C7: in `checkBlock`, for every threshold `t >= 0`, reference value `ref`
and computed value `res`, the element is accepted (`check_ok` is not cleared)
if and only if `res` lies between `ref*(1 - t)` and `ref*(1 + t)`, the two
bounds swapped when `ref < 0`; equivalently if and only if
`|res - ref| <= t * |ref|`; and a reference of `0` accepts only `res = 0`. -/
theorem checkBlock_tolerance_rule (t res ref : α) (st : CheckState α) (ht : 0 ≤ t)
    (hst : st.check_ok ≠ 0) :
    ((checkBlockBody t res ref st).check_ok ≠ 0 ↔
        (if ref < 0 then ref * (1 + t) ≤ res ∧ res ≤ ref * (1 - t)
          else ref * (1 - t) ≤ res ∧ res ≤ ref * (1 + t))) ∧
      ((checkBlockBody t res ref st).check_ok ≠ 0 ↔ |res - ref| ≤ t * |ref|) ∧
      (ref = 0 → ((checkBlockBody t res ref st).check_ok ≠ 0 ↔ res = 0)) := by
  have _ := ht
  refine ⟨(checkBlockBody_ok_iff t res ref st hst).trans (not_outOfTolerance_iff t res ref),
    (checkBlockBody_ok_iff t res ref st hst).trans (not_outOfTolerance_iff_abs t res ref), ?_⟩
  intro h0
  rw [(checkBlockBody_ok_iff t res ref st hst).trans (not_outOfTolerance_iff_abs t res ref), h0]
  simp

end Tolerance

theorem checkBlock_tolerance_rule_witness :
    ((0 : ℚ) ≤ 1 / 100 ∧ (1 : Nat) ≠ 0) ∧
      (((checkBlockBody (1 / 100 : ℚ) 3 (-2) { check_ok := 1, err := [] }).check_ok ≠ 0 ↔
        (if (-2 : ℚ) < 0 then (-2 : ℚ) * (1 + 1 / 100) ≤ 3 ∧ (3 : ℚ) ≤ -2 * (1 - 1 / 100)
          else (-2 : ℚ) * (1 - 1 / 100) ≤ 3 ∧ (3 : ℚ) ≤ -2 * (1 + 1 / 100))) ∧
      ((checkBlockBody (1 / 100 : ℚ) 3 (-2) { check_ok := 1, err := [] }).check_ok ≠ 0 ↔
        |(3 : ℚ) - (-2)| ≤ 1 / 100 * |(-2 : ℚ)|) ∧
      ((-2 : ℚ) = 0 →
        ((checkBlockBody (1 / 100 : ℚ) 3 (-2) { check_ok := 1, err := [] }).check_ok ≠ 0 ↔
          (3 : ℚ) = 0))) :=
  ⟨⟨by norm_num, by decide⟩,
    checkBlock_tolerance_rule (1 / 100 : ℚ) 3 (-2) { check_ok := 1, err := [] } (by norm_num)
      (by decide)⟩

theorem toFloat_samples :
    toFloat 1 = 1 ∧ toFloat (-3 / 2) = -3 / 2 ∧ toFloat 16777217 = 16777216 := by
  have h1 : floatUp 149 1 1 = 23 := by decide
  have h2 : floatDown 104 1 1 = 0 := by decide
  have h3 : floatUp 149 3 2 = 23 := by decide
  have h4 : floatDown 104 3 2 = 0 := by decide
  have h5 : floatUp 149 16777217 1 = 0 := by decide
  have h6 : floatDown 104 16777217 1 = 1 := by decide
  have h7 : roundHalfEven (1 * 2 ^ 23) (1 * 2 ^ 0) = 8388608 := by decide
  have h8 : roundHalfEven (3 * 2 ^ 23) (2 * 2 ^ 0) = 12582912 := by decide
  have h9 : roundHalfEven (16777217 * 2 ^ 0) (1 * 2 ^ 1) = 8388608 := by decide
  have hn : (-3 / 2 : ℚ).num = -3 := by norm_num
  have hd : (-3 / 2 : ℚ).den = 2 := by norm_num
  refine ⟨?_, ?_, ?_⟩
  · unfold toFloat
    simp only [Rat.num_one, Rat.den_one, Int.natAbs_one, h1, h2, h7]
    norm_num
  · unfold toFloat
    simp only [hn, hd, show (-3 : Int).natAbs = 3 from rfl, h3, h4, h8]
    norm_num
  · unfold toFloat
    have hn2 : (16777217 : ℚ).num.natAbs = 16777217 := rfl
    have hd2 : (16777217 : ℚ).den = 1 := rfl
    rw [hn2, hd2]
    simp only [h5, h6, h9]
    norm_num

/-- With a threshold of exactly `1/100` the value `-1.98` is the bound
`ref * (1 - threshold)` itself for the reference `-2.0`, and the comparison,
which rejects only values strictly outside the bounds, accepts it. -/
theorem checkBlock_accepts_bound :
    (checkBlockBody (1 / 100 : ℚ) (-198 / 100) (-2) { check_ok := 1, err := [] }).check_ok ≠ 0 := by
  rw [checkBlockBody_ok_iff _ _ _ _ (by decide), not_outOfTolerance_iff]
  norm_num

/-- The tiles cover the buffer: every index below `msize*msize` lies in the
tile of some block coordinates. -/
theorem tiles_cover (B n y : Nat) (hB : 0 < B) (hy : y < B * n * (B * n)) :
    ∃ i j x, i < n ∧ j < n ∧ x < B * B ∧ y = tileOffset B (B * n) i j + x := by
  have hBB : 0 < B * B := Nat.mul_pos hB hB
  have hn : 0 < n := by
    rcases Nat.eq_zero_or_pos n with h | h
    · subst h; simp at hy
    · exact h
  have hq : y / (B * B) < n * n := by
    rw [Nat.div_lt_iff_lt_mul hBB]
    have : n * n * (B * B) = B * n * (B * n) := by ring
    omega
  refine ⟨y / (B * B) / n, y / (B * B) % n, y % (B * B),
    (Nat.div_lt_iff_lt_mul hn).2 hq, Nat.mod_lt _ hn, Nat.mod_lt _ hBB, ?_⟩
  rw [tileOffset_flat]
  have h1 : y / (B * B) / n * n + y / (B * B) % n = y / (B * B) := by
    rw [Nat.mul_comm]; exact Nat.div_add_mod _ n
  rw [h1, Nat.mul_comm]
  exact (Nat.div_add_mod y (B * B)).symm

theorem checkOffset_eq (BSIZE msize i j : Nat) (hB : 0 < BSIZE) (hm : msize % BSIZE = 0)
    (hbound : msize * msize < UINT_MOD) (hi : i < msize / BSIZE) (hj : j < msize / BSIZE) :
    checkOffset BSIZE msize i j = tileOffset BSIZE msize i j := by
  obtain ⟨n, rfl⟩ := Nat.dvd_of_mod_eq_zero hm
  rw [Nat.mul_div_cancel_left n hB] at hi hj
  exact u32_tileOffset BSIZE n i j hi hj hbound

theorem checkOffset_add_lt (BSIZE msize i j x : Nat) (hB : 0 < BSIZE)
    (hm : msize % BSIZE = 0) (hi : i < msize / BSIZE) (hj : j < msize / BSIZE)
    (hx : x < BSIZE * BSIZE) : checkOffset BSIZE msize i j + x < msize * msize := by
  obtain ⟨n, rfl⟩ := Nat.dvd_of_mod_eq_zero hm
  rw [Nat.mul_div_cancel_left n hB] at hi hj
  have h1 := tileOffset_add_le BSIZE n i j hi hj
  have h2 : checkOffset BSIZE (BSIZE * n) i j ≤
      j * u32 (BSIZE * BSIZE) + i * BSIZE * (BSIZE * n) := Nat.mod_le _ _
  have h3 : j * u32 (BSIZE * BSIZE) ≤ j * (BSIZE * BSIZE) :=
    Nat.mul_le_mul_left j (Nat.mod_le _ _)
  have h4 : tileOffset BSIZE (BSIZE * n) i j = j * (BSIZE * BSIZE) + i * BSIZE * (BSIZE * n) := by
    unfold tileOffset; ring
  omega

/-! ## The reads of check mode -/

theorem matmulCheck_reads_sample :
    matmulCheck_reads 1 (1 / 100 : ℚ) (RefFile.mapped zeroBuf) 1 zeroBuf 2 = [0, 1, 2, 3] := by
  simp [matmulCheck_reads, forWhile, checkBlockTraced, checkBlockBody, outOfTolerance, zeroBuf,
    u32, UINT_MOD]

theorem matmulCheck_reads_sample_stop :
    matmulCheck_reads 1 (1 / 100 : ℚ) (RefFile.mapped zeroBuf) 1 onesBuf 2 = [0] := by
  have h1 : outOfTolerance (100⁻¹ : ℚ) 1 0 := by simp [outOfTolerance]
  simp [matmulCheck_reads, forWhile, checkBlockTraced, checkBlockBody, h1, zeroBuf, onesBuf,
    u32, UINT_MOD]

theorem forWhile_sim {σ τ : Type} (R : σ → τ → Prop) (c1 : σ → Bool) (c2 : τ → Bool)
    (b1 : Nat → σ → σ) (b2 : Nat → τ → τ) (hc : ∀ s t, R s t → c1 s = c2 t)
    (hb : ∀ i s t, R s t → c1 s = true → R (b1 i s) (b2 i t)) (rem : Nat) :
    ∀ (start : Nat) (s : σ) (t : τ), R s t →
      R (forWhile c1 b1 rem start s) (forWhile c2 b2 rem start t) := by
  induction rem with
  | zero => intro start s t h; exact h
  | succ rem ih =>
    intro start s t h
    unfold forWhile
    by_cases h1 : c1 s = true
    · have h2 : c2 t = true := by rw [← hc s t h]; exact h1
      rw [if_pos h1, if_pos h2]
      exact ih (start + 1) _ _ (hb start s t h h1)
    · have h2 : ¬ c2 t = true := by rw [← hc s t h]; exact h1
      rw [if_neg h1, if_neg h2]
      exact h

theorem forWhile_inv_range {σ : Type} (cond : σ → Bool) (body : Nat → σ → σ) (P : σ → Prop)
    (rem : Nat) :
    ∀ (start : Nat) (s : σ),
      (∀ i s, start ≤ i → i < start + rem → cond s = true → P s → P (body i s)) →
      P s → P (forWhile cond body rem start s) := by
  induction rem with
  | zero => intro start s _ hs; exact hs
  | succ rem ih =>
    intro start s hbody hs
    unfold forWhile
    by_cases hc : cond s = true
    · rw [if_pos hc]
      exact ih (start + 1) _ (fun i s h1 h2 => hbody i s (by omega) (by omega))
        (hbody start s (Nat.le_refl _) (by omega) hc hs)
    · rw [if_neg hc]
      exact hs

theorem forWhile_succ {σ : Type} (cond : σ → Bool) (body : Nat → σ → σ) (rem i : Nat) (s : σ)
    (h : cond s = true) :
    forWhile cond body (rem + 1) i s = forWhile cond body rem (i + 1) (body i s) := by
  rw [forWhile, if_pos h]

theorem forWhile_head {σ : Type} (cond : σ → Bool) (body : Nat → σ → σ) (P : σ → Prop)
    (rem start : Nat) (s : σ) (hc : cond s = true) (hP : P (body start s))
    (hmono : ∀ i s, P s → P (body i s)) : P (forWhile cond body (rem + 1) start s) := by
  rw [forWhile_succ _ _ _ _ _ hc]
  exact forWhile_inv _ _ P (fun i s _ hs => hmono i s hs) rem (start + 1) _ hP

section Reads

variable {α : Type} [LinearOrderedField α]

theorem checkBlockTraced_st (BSIZE : Nat) (threshold : α) (res ref : Nat → α) (ci : Nat)
    (t : CheckTrace α) :
    (checkBlockTraced BSIZE threshold res ref ci t).st = checkBlock BSIZE threshold res ref t.st := by
  unfold checkBlockTraced checkBlock
  exact forWhile_sim (fun (t : CheckTrace α) (s : CheckState α) => t.st = s) _ _ _ _
    (fun s t h => by subst h; rfl) (fun i s t h _ => by subst h; rfl) _ 0 t t.st rfl

theorem checkBlockTraced_mono (BSIZE : Nat) (threshold : α) (res ref : Nat → α) (ci y : Nat)
    (t : CheckTrace α) (h : y ∈ t.reads) :
    y ∈ (checkBlockTraced BSIZE threshold res ref ci t).reads := by
  unfold checkBlockTraced
  refine forWhile_inv _ _ (fun t : CheckTrace α => y ∈ t.reads) ?_ _ 0 t h
  intro i s _ hs
  exact List.mem_append_left _ hs

theorem checkBlockTraced_first (BSIZE : Nat) (threshold : α) (res ref : Nat → α) (ci : Nat)
    (t : CheckTrace α) (hB : 0 < BSIZE) (hok : t.st.check_ok ≠ 0) :
    ci ∈ (checkBlockTraced BSIZE threshold res ref ci t).reads := by
  obtain ⟨k, hk⟩ : ∃ k, BSIZE * BSIZE = k + 1 :=
    ⟨BSIZE * BSIZE - 1, (Nat.sub_add_cancel (Nat.mul_pos hB hB)).symm⟩
  have hc : (fun t : CheckTrace α => t.st.check_ok != 0) t = true := by simpa using hok
  unfold checkBlockTraced
  rw [hk]
  unfold forWhile
  rw [if_pos hc]
  refine forWhile_inv _ _ (fun t : CheckTrace α => ci ∈ t.reads) ?_ _ _ _ ?_
  · intro i s _ hs
    exact List.mem_append_left _ hs
  · simp

theorem checkBlockTraced_bound (Q : Nat → Prop) (BSIZE : Nat) (threshold : α)
    (res ref : Nat → α) (ci : Nat) (t : CheckTrace α) (ht : ∀ y ∈ t.reads, Q y)
    (hQ : ∀ x, x < BSIZE * BSIZE → Q (ci + x)) :
    ∀ y ∈ (checkBlockTraced BSIZE threshold res ref ci t).reads, Q y := by
  unfold checkBlockTraced
  refine forWhile_inv_range _ _ (fun t : CheckTrace α => ∀ y ∈ t.reads, Q y) _ 0 t ?_ ht
  intro i s _ hi _ hs y hy
  rcases List.mem_append.1 hy with h | h
  · exact hs y h
  · rw [List.mem_singleton.1 h]
    exact hQ i (by omega)

/-- Every element that check mode reads is an element of a tile. -/
theorem matmulCheck_reads_tile (BSIZE : Nat) (THRESHOLD : α) (ref_file : RefFile α)
    (check : Nat) (c : Nat → α) (msize : Nat) :
    ∀ y ∈ matmulCheck_reads BSIZE THRESHOLD ref_file check c msize,
      ∃ i j x, i < msize / BSIZE ∧ j < msize / BSIZE ∧ x < BSIZE * BSIZE ∧
        y = checkOffset BSIZE msize i j + x := by
  unfold matmulCheck_reads
  by_cases hc : check = 1
  · simp only [hc, if_true]
    cases ref_file with
    | cannotOpen => simp
    | cannotMap => simp
    | mapped c_ref =>
      simp only
      refine forWhile_inv_range _ _ (fun t : CheckTrace α => ∀ y ∈ t.reads,
        ∃ i j x, i < msize / BSIZE ∧ j < msize / BSIZE ∧ x < BSIZE * BSIZE ∧
          y = checkOffset BSIZE msize i j + x) _ 0 _ ?_ (by simp)
      intro i s _ hi _ hs
      refine forWhile_inv_range _ _ (fun t : CheckTrace α => ∀ y ∈ t.reads,
        ∃ i j x, i < msize / BSIZE ∧ j < msize / BSIZE ∧ x < BSIZE * BSIZE ∧
          y = checkOffset BSIZE msize i j + x) _ 0 _ ?_ hs
      intro j s2 _ hj _ hs2
      refine checkBlockTraced_bound _ BSIZE THRESHOLD _ _ _ s2 hs2 ?_
      intro x hx
      exact ⟨i, j, x, by omega, by omega, hx, rfl⟩
  · simp [hc]

/-- Every element that check mode reads has an index below `msize*msize`. -/
theorem matmulCheck_reads_lt (BSIZE : Nat) (THRESHOLD : α) (ref_file : RefFile α)
    (check : Nat) (c : Nat → α) (msize : Nat) (hB : 0 < BSIZE) (hm : msize % BSIZE = 0) :
    ∀ y ∈ matmulCheck_reads BSIZE THRESHOLD ref_file check c msize, y < msize * msize := by
  intro y hy
  obtain ⟨i, j, x, hi, hj, hx, rfl⟩ :=
    matmulCheck_reads_tile BSIZE THRESHOLD ref_file check c msize y hy
  exact checkOffset_add_lt BSIZE msize i j x hB hm hi hj hx

/-- When `msize*msize` does not wrap, check mode stays inside the mapping. -/
theorem matmulCheck_run_eq (BSIZE : Nat) (THRESHOLD : α) (ref_file : RefFile α)
    (fwrite_ret check : Nat) (c : Nat → α) (msize : Nat) (hB : 0 < BSIZE)
    (hm : msize % BSIZE = 0) (hbound : msize * msize < UINT_MOD) :
    matmulCheck_run BSIZE THRESHOLD ref_file fwrite_ret check c msize =
      some (matmulCheck BSIZE THRESHOLD ref_file fwrite_ret check c msize) := by
  unfold matmulCheck_run
  rw [if_pos]
  intro y hy
  rw [u32_of_lt hbound]
  exact matmulCheck_reads_lt BSIZE THRESHOLD ref_file check c msize hB hm y hy

/-- When the first tile passes and a row has a second tile, check mode reads
the first element of the second tile. -/
theorem matmulCheck_reads_second (BSIZE : Nat) (THRESHOLD : α) (c_ref c : Nat → α)
    (msize : Nat) (hB : 0 < BSIZE) (hn : 1 < msize / BSIZE)
    (hpass : TilePasses BSIZE THRESHOLD c c_ref (checkOffset BSIZE msize 0 0)) :
    checkOffset BSIZE msize 0 1 ∈
      matmulCheck_reads BSIZE THRESHOLD (RefFile.mapped c_ref) 1 c msize := by
  obtain ⟨k, hk⟩ : ∃ k, msize / BSIZE = k + 2 := ⟨msize / BSIZE - 2, by omega⟩
  have hblock : ∀ i j (t : CheckTrace α), checkOffset BSIZE msize 0 1 ∈ t.reads →
      checkOffset BSIZE msize 0 1 ∈ (checkBlockTraced BSIZE THRESHOLD
        (fun x => c (u32 (j * u32 (BSIZE * BSIZE) + i * BSIZE * msize) + x))
        (fun x => c_ref (u32 (j * u32 (BSIZE * BSIZE) + i * BSIZE * msize) + x))
        (u32 (j * u32 (BSIZE * BSIZE) + i * BSIZE * msize)) t).reads :=
    fun i j t ht => checkBlockTraced_mono _ _ _ _ _ _ t ht
  have hrow : ∀ i rem start (t : CheckTrace α), checkOffset BSIZE msize 0 1 ∈ t.reads →
      checkOffset BSIZE msize 0 1 ∈
        (forWhile (fun t : CheckTrace α => t.st.check_ok != 0)
          (fun j t =>
            checkBlockTraced BSIZE THRESHOLD
              (fun x => c (u32 (j * u32 (BSIZE * BSIZE) + i * BSIZE * msize) + x))
              (fun x => c_ref (u32 (j * u32 (BSIZE * BSIZE) + i * BSIZE * msize) + x))
              (u32 (j * u32 (BSIZE * BSIZE) + i * BSIZE * msize)) t) rem start t).reads :=
    fun i rem start t ht =>
      forWhile_inv _ _ (fun t : CheckTrace α => checkOffset BSIZE msize 0 1 ∈ t.reads)
        (fun j s _ hs => hblock i j s hs) rem start t ht
  have h0 : (checkBlockTraced BSIZE THRESHOLD
      (fun x => c (u32 (0 * u32 (BSIZE * BSIZE) + 0 * BSIZE * msize) + x))
      (fun x => c_ref (u32 (0 * u32 (BSIZE * BSIZE) + 0 * BSIZE * msize) + x))
      (u32 (0 * u32 (BSIZE * BSIZE) + 0 * BSIZE * msize))
      { st := { check_ok := 1, err := [] }, reads := [] }).st = { check_ok := 1, err := [] } := by
    rw [checkBlockTraced_st]
    exact (checkBlock_spec BSIZE THRESHOLD _ _ _ (by simp)).1 hpass
  unfold matmulCheck_reads
  simp only [if_true]
  rw [hk]
  refine forWhile_head _ _ (fun t : CheckTrace α => checkOffset BSIZE msize 0 1 ∈ t.reads)
    (k + 1) 0 _ (by simp) ?_ (fun i s hs => hrow i _ _ s hs)
  show checkOffset BSIZE msize 0 1 ∈
    (forWhile (fun t : CheckTrace α => t.st.check_ok != 0)
      (fun j t =>
        checkBlockTraced BSIZE THRESHOLD
          (fun x => c (u32 (j * u32 (BSIZE * BSIZE) + 0 * BSIZE * msize) + x))
          (fun x => c_ref (u32 (j * u32 (BSIZE * BSIZE) + 0 * BSIZE * msize) + x))
          (u32 (j * u32 (BSIZE * BSIZE) + 0 * BSIZE * msize)) t) ((k + 1) + 1) 0
      { st := { check_ok := 1, err := [] }, reads := [] }).reads
  rw [forWhile_succ _ _ _ _ _ (by simp)]
  refine forWhile_head _ _ (fun t : CheckTrace α => checkOffset BSIZE msize 0 1 ∈ t.reads)
    k (0 + 1) _ (by rw [h0]; simp) ?_ (fun j s hs => hblock 0 j s hs)
  exact checkBlockTraced_first BSIZE THRESHOLD _ _ _ _ hB (by rw [h0]; simp)

end Reads

/-! ## The verdict of check mode (C9) -/

section Verdict

variable {α : Type} [LinearOrderedField α]

/-- C9 (amended): for `msize` a positive multiple of `BSIZE` with
`msize*msize < 2^32` and the reference mapped, `matmulCheck(1, c, msize)`
reads inside the mapping and returns, and it returns non-zero if and only if
every one of the `msize*msize` elements of `c` is within tolerance of the
element of the reference at the same index; equivalently, if and only if
`checkBlock` passes on every tile. -/
theorem matmulCheck_verdict (BSIZE : Nat) (THRESHOLD : α) (c_ref : Nat → α) (fwrite_ret : Nat)
    (c : Nat → α) (msize : Nat) (hB : 0 < BSIZE) (hpos : 0 < msize) (hm : msize % BSIZE = 0)
    (hbound : msize * msize < 2 ^ 32) :
    matmulCheck_run BSIZE THRESHOLD (RefFile.mapped c_ref) fwrite_ret 1 c msize =
        some (matmulCheck BSIZE THRESHOLD (RefFile.mapped c_ref) fwrite_ret 1 c msize) ∧
      ((matmulCheck BSIZE THRESHOLD (RefFile.mapped c_ref) fwrite_ret 1 c msize).check_ok ≠ 0 ↔
        ∀ x, x < msize * msize → ¬ outOfTolerance THRESHOLD (c x) (c_ref x)) ∧
      ((matmulCheck BSIZE THRESHOLD (RefFile.mapped c_ref) fwrite_ret 1 c msize).check_ok ≠ 0 ↔
        ∀ i j, i < msize / BSIZE → j < msize / BSIZE →
          (checkBlock BSIZE THRESHOLD (fun x => c (tileOffset BSIZE msize i j + x))
            (fun x => c_ref (tileOffset BSIZE msize i j + x))
            { check_ok := 1, err := [] }).check_ok ≠ 0) := by
  have _ := hpos
  rw [pow32] at hbound
  refine ⟨matmulCheck_run_eq BSIZE THRESHOLD _ fwrite_ret 1 c msize hB hm hbound, ?_⟩
  have key : (∀ i j, i < msize / BSIZE → j < msize / BSIZE →
      TilePasses BSIZE THRESHOLD c c_ref (checkOffset BSIZE msize i j)) ↔
      ∀ i j, i < msize / BSIZE → j < msize / BSIZE →
        TilePasses BSIZE THRESHOLD c c_ref (tileOffset BSIZE msize i j) := by
    constructor
    · intro h i j hi hj
      rw [← checkOffset_eq BSIZE msize i j hB hm hbound hi hj]
      exact h i j hi hj
    · intro h i j hi hj
      rw [checkOffset_eq BSIZE msize i j hB hm hbound hi hj]
      exact h i j hi hj
  rw [matmulCheck_ok_iff, key]
  constructor
  · obtain ⟨n, rfl⟩ := Nat.dvd_of_mod_eq_zero hm
    rw [Nat.mul_div_cancel_left n hB]
    constructor
    · intro h y hy
      obtain ⟨i, j, x, hi, hj, hx, rfl⟩ := tiles_cover BSIZE n y hB hy
      exact h i j hi hj x hx
    · intro h i j hi hj x hx
      apply h
      have := tileOffset_add_le BSIZE n i j hi hj
      omega
  · constructor
    · intro h i j hi hj
      exact (tilePasses_iff_checkBlock BSIZE THRESHOLD c c_ref _).1 (h i j hi hj)
    · intro h i j hi hj
      exact (tilePasses_iff_checkBlock BSIZE THRESHOLD c c_ref _).2 (h i j hi hj)

end Verdict

theorem matmulCheck_verdict_witness :
    (0 < 2 ∧ 0 < 4 ∧ 4 % 2 = 0 ∧ 4 * 4 < 2 ^ 32) ∧
      (matmulCheck_run 2 (1 / 100 : ℚ) (RefFile.mapped zeroBuf) 0 1 rampBuf 4 =
        some (matmulCheck 2 (1 / 100 : ℚ) (RefFile.mapped zeroBuf) 0 1 rampBuf 4) ∧
      ((matmulCheck 2 (1 / 100 : ℚ) (RefFile.mapped zeroBuf) 0 1 rampBuf 4).check_ok ≠ 0 ↔
        ∀ x, x < 4 * 4 → ¬ outOfTolerance (1 / 100 : ℚ) (rampBuf x) (zeroBuf x)) ∧
      ((matmulCheck 2 (1 / 100 : ℚ) (RefFile.mapped zeroBuf) 0 1 rampBuf 4).check_ok ≠ 0 ↔
        ∀ i j, i < 4 / 2 → j < 4 / 2 →
          (checkBlock 2 (1 / 100 : ℚ) (fun x => rampBuf (tileOffset 2 4 i j + x))
            (fun x => zeroBuf (tileOffset 2 4 i j + x))
            { check_ok := 1, err := [] }).check_ok ≠ 0)) :=
  ⟨by decide, matmulCheck_verdict 2 (1 / 100 : ℚ) zeroBuf 0 rampBuf 4 (by decide) (by decide)
    (by decide) (by decide)⟩

/-- C9 as stated fails when `msize*msize` wraps: for `BSIZE = 32768` and
`msize = 98304 = 3 * BSIZE`, `m2size` is `2^30`, so line 73 maps `2^30`
elements of the reference.  With `c` and the reference both zero every one of
the `msize*msize` elements is within tolerance; the tile `(0, 0)` passes, and
the tile `(0, 1)` starts at the offset `2^30`: `checkBlock` reads the element
`2^30` of the reference, outside the mapping, and `matmulCheck` has no
defined outcome, so it does not return non-zero. -/
theorem matmulCheck_verdict_wraps :
    0 < 32768 ∧ 0 < 98304 ∧ 98304 % 32768 = 0 ∧
      (∀ x, x < 98304 * 98304 → ¬ outOfTolerance (1 / 100 : ℚ) (zeroBuf x) (zeroBuf x)) ∧
      u32 (98304 * 98304) = 1073741824 ∧
      1073741824 ∈
        matmulCheck_reads 32768 (1 / 100 : ℚ) (RefFile.mapped zeroBuf) 1 zeroBuf 98304 ∧
      matmulCheck_run 32768 (1 / 100 : ℚ) (RefFile.mapped zeroBuf) 0 1 zeroBuf 98304 = none ∧
      ¬ ((∃ r, matmulCheck_run 32768 (1 / 100 : ℚ) (RefFile.mapped zeroBuf) 0 1 zeroBuf 98304 =
            some r ∧ r.check_ok ≠ 0) ↔
          ∀ x, x < 98304 * 98304 → ¬ outOfTolerance (1 / 100 : ℚ) (zeroBuf x) (zeroBuf x)) := by
  have hall : ∀ x y : Nat, ¬ outOfTolerance (1 / 100 : ℚ) (zeroBuf x) (zeroBuf y) := by
    intro x y; simp [zeroBuf, outOfTolerance]
  have hoff : checkOffset 32768 98304 0 1 = 1073741824 := by decide
  have hm2 : u32 (98304 * 98304) = 1073741824 := by decide
  have hread : 1073741824 ∈
      matmulCheck_reads 32768 (1 / 100 : ℚ) (RefFile.mapped zeroBuf) 1 zeroBuf 98304 := by
    rw [← hoff]
    exact matmulCheck_reads_second 32768 (1 / 100 : ℚ) zeroBuf zeroBuf 98304 (by decide)
      (by decide) (fun x _ => hall _ _)
  have hnone :
      matmulCheck_run 32768 (1 / 100 : ℚ) (RefFile.mapped zeroBuf) 0 1 zeroBuf 98304 = none := by
    unfold matmulCheck_run
    rw [if_neg]
    intro h
    have := h 1073741824 hread
    rw [hm2] at this
    exact absurd this (by decide)
  refine ⟨by decide, by decide, by decide, fun x _ => hall x x, hm2, hread, hnone, ?_⟩
  rw [hnone]
  intro h
  obtain ⟨r, hr, _⟩ := h.2 (fun x _ => hall x x)
  exact absurd hr (by simp)

/-! ## Generate mode, then check mode (C10) -/

section RoundTrip

variable {α : Type} [LinearOrderedField α]

theorem matmulCheck_generate (BSIZE : Nat) (THRESHOLD : α) (ref_file : RefFile α)
    (fwrite_ret : Nat) (c : Nat → α) (msize : Nat) :
    (matmulCheck BSIZE THRESHOLD ref_file fwrite_ret 2 c msize).written =
        (List.range fwrite_ret).map c ∧
      ((matmulCheck BSIZE THRESHOLD ref_file fwrite_ret 2 c msize).check_ok ≠ 0 →
        fwrite_ret = u32 (msize * msize)) := by
  unfold matmulCheck
  simp only [show (2 : Nat) ≠ 1 by decide, if_false, if_true]
  by_cases hw : fwrite_ret = u32 (msize * msize)
  · simp [hw]
  · simp [hw]

/-- C10 (amended): for `msize` a positive multiple of `BSIZE` with
`msize*msize < 2^32`, every buffer `c` and every threshold `>= 0`: when
generate mode (`check == 2`) succeeds it writes the `msize*msize` elements of
`c`, in index order; and if the reference holds exactly the elements written,
check mode (`check == 1`) on the same `c` reads inside them, returns `1` (OK)
and writes no diagnostic. -/
theorem check_after_generate (BSIZE : Nat) (THRESHOLD : α) (ref_file : RefFile α)
    (fwrite_ret w : Nat) (c c_ref : Nat → α) (msize : Nat) (hB : 0 < BSIZE) (hpos : 0 < msize)
    (hm : msize % BSIZE = 0) (ht : 0 ≤ THRESHOLD) (hbound : msize * msize < 2 ^ 32)
    (hgen : (matmulCheck BSIZE THRESHOLD ref_file fwrite_ret 2 c msize).check_ok ≠ 0)
    (href : ∀ x (hx : x <
        (matmulCheck BSIZE THRESHOLD ref_file fwrite_ret 2 c msize).written.length),
      c_ref x = (matmulCheck BSIZE THRESHOLD ref_file fwrite_ret 2 c msize).written.get ⟨x, hx⟩) :
    (matmulCheck BSIZE THRESHOLD ref_file fwrite_ret 2 c msize).written.length = msize * msize ∧
      (∀ x (hx : x < (matmulCheck BSIZE THRESHOLD ref_file fwrite_ret 2 c msize).written.length),
        (matmulCheck BSIZE THRESHOLD ref_file fwrite_ret 2 c msize).written.get ⟨x, hx⟩ = c x) ∧
      (∀ y ∈ matmulCheck_reads BSIZE THRESHOLD (RefFile.mapped c_ref) 1 c msize,
        y < (matmulCheck BSIZE THRESHOLD ref_file fwrite_ret 2 c msize).written.length) ∧
      matmulCheck_run BSIZE THRESHOLD (RefFile.mapped c_ref) w 1 c msize =
        some { check_ok := 1, err := [], written := [] } := by
  have _ := hpos
  rw [pow32] at hbound
  obtain ⟨hwr, hok⟩ := matmulCheck_generate BSIZE THRESHOLD ref_file fwrite_ret c msize
  have hlen : (matmulCheck BSIZE THRESHOLD ref_file fwrite_ret 2 c msize).written.length =
      msize * msize := by
    rw [hwr, List.length_map, List.length_range, hok hgen, u32_of_lt hbound]
  have hget : ∀ x (hx : x <
      (matmulCheck BSIZE THRESHOLD ref_file fwrite_ret 2 c msize).written.length),
      (matmulCheck BSIZE THRESHOLD ref_file fwrite_ret 2 c msize).written.get ⟨x, hx⟩ = c x := by
    intro x hx
    simp [hwr]
  refine ⟨hlen, hget, ?_, ?_⟩
  · intro y hy
    rw [hlen]
    exact matmulCheck_reads_lt BSIZE THRESHOLD _ 1 c msize hB hm y hy
  · rw [matmulCheck_run_eq BSIZE THRESHOLD _ w 1 c msize hB hm hbound]
    congr 1
    refine (matmulCheck_mapped BSIZE THRESHOLD c_ref w c msize).1 ?_
    intro i j hi hj x hx
    have hlt := checkOffset_add_lt BSIZE msize i j x hB hm hi hj hx
    rw [href _ (by rw [hlen]; exact hlt), hget]
    exact not_outOfTolerance_self THRESHOLD _ ht

end RoundTrip

set_option maxRecDepth 100000 in
theorem check_after_generate_witness :
    (0 < 2 ∧ 0 < 4 ∧ 4 % 2 = 0 ∧ (0 : ℚ) ≤ 1 / 100 ∧ 4 * 4 < 2 ^ 32 ∧
        (matmulCheck 2 (1 / 100 : ℚ) RefFile.cannotOpen 16 2 rampBuf 4).check_ok ≠ 0) ∧
      ((matmulCheck 2 (1 / 100 : ℚ) RefFile.cannotOpen 16 2 rampBuf 4).written.length = 4 * 4 ∧
        matmulCheck_run 2 (1 / 100 : ℚ) (RefFile.mapped rampBuf) 0 1 rampBuf 4 =
          some { check_ok := 1, err := [], written := [] }) :=
  ⟨⟨by decide, by decide, by decide, by norm_num, by decide, by decide⟩,
    (check_after_generate 2 (1 / 100 : ℚ) RefFile.cannotOpen 16 0 rampBuf rampBuf 4 (by decide)
      (by decide) (by decide) (by norm_num) (by decide) (by decide)
      (fun x hx => by simp [matmulCheck, u32, UINT_MOD])).1,
    (check_after_generate 2 (1 / 100 : ℚ) RefFile.cannotOpen 16 0 rampBuf rampBuf 4 (by decide)
      (by decide) (by decide) (by norm_num) (by decide) (by decide)
      (fun x hx => by simp [matmulCheck, u32, UINT_MOD])).2.2.2⟩

/-- C10 as stated fails when `msize*msize` wraps: for `BSIZE = 32768` and
`msize = 98304`, generate mode succeeds and writes `m2size = 2^30` elements of
`c`.  With the reference holding exactly these, check mode on the same `c`
passes the tile `(0, 0)` and goes on to the tile `(0, 1)` at the offset
`2^30`: it reads the element `2^30` of the reference, past the last element
written and outside the mapping, and has no defined outcome. -/
theorem check_after_generate_wraps :
    0 < 32768 ∧ 0 < 98304 ∧ 98304 % 32768 = 0 ∧ (0 : ℚ) ≤ 1 / 100 ∧
      (matmulCheck 32768 (1 / 100 : ℚ) RefFile.cannotOpen 1073741824 2 onesBuf 98304).check_ok
        = 1 ∧
      (matmulCheck 32768 (1 / 100 : ℚ) RefFile.cannotOpen 1073741824 2 onesBuf 98304).written.length
        = 1073741824 ∧
      1073741824 ∈ matmulCheck_reads 32768 (1 / 100 : ℚ)
        (RefFile.mapped (fun x =>
          (matmulCheck 32768 (1 / 100 : ℚ) RefFile.cannotOpen 1073741824 2 onesBuf
            98304).written.getD x 0)) 1 onesBuf 98304 ∧
      matmulCheck_run 32768 (1 / 100 : ℚ)
        (RefFile.mapped (fun x =>
          (matmulCheck 32768 (1 / 100 : ℚ) RefFile.cannotOpen 1073741824 2 onesBuf
            98304).written.getD x 0)) 0 1 onesBuf 98304 = none ∧
      matmulCheck_run 32768 (1 / 100 : ℚ)
        (RefFile.mapped (fun x =>
          (matmulCheck 32768 (1 / 100 : ℚ) RefFile.cannotOpen 1073741824 2 onesBuf
            98304).written.getD x 0)) 0 1 onesBuf 98304 ≠
        some { check_ok := 1, err := [], written := [] } := by
  have hoff : checkOffset 32768 98304 0 1 = 1073741824 := by decide
  have hoff0 : checkOffset 32768 98304 0 0 = 0 := by decide
  have hm2 : u32 (98304 * 98304) = 1073741824 := by decide
  obtain ⟨hwr, _⟩ := matmulCheck_generate 32768 (1 / 100 : ℚ) RefFile.cannotOpen 1073741824
    onesBuf 98304
  have hok : (matmulCheck 32768 (1 / 100 : ℚ) RefFile.cannotOpen 1073741824 2 onesBuf
      98304).check_ok = 1 := by
    unfold matmulCheck
    simp [hm2]
  have hread : 1073741824 ∈ matmulCheck_reads 32768 (1 / 100 : ℚ)
      (RefFile.mapped (fun x =>
        (matmulCheck 32768 (1 / 100 : ℚ) RefFile.cannotOpen 1073741824 2 onesBuf
          98304).written.getD x 0)) 1 onesBuf 98304 := by
    have h2 := matmulCheck_reads_second 32768 (1 / 100 : ℚ)
      (fun x => (matmulCheck 32768 (1 / 100 : ℚ) RefFile.cannotOpen 1073741824 2 onesBuf
        98304).written.getD x 0) onesBuf 98304 (by decide) (by decide)
    rw [hoff] at h2
    apply h2
    intro x hx
    rw [hoff0, hwr]
    have hx2 : x < 1073741824 := hx
    have e : ((List.range 1073741824).map onesBuf).getD (0 + x) 0 = onesBuf (0 + x) := by
      rw [Nat.zero_add, List.getD_eq_getElem?_getD, List.getElem?_map,
        List.getElem?_range hx2]
      rfl
    show ¬ outOfTolerance (1 / 100 : ℚ) (onesBuf (0 + x))
      (((List.range 1073741824).map onesBuf).getD (0 + x) 0)
    rw [e]
    exact not_outOfTolerance_self _ _ (by norm_num)
  have hnone : matmulCheck_run 32768 (1 / 100 : ℚ)
      (RefFile.mapped (fun x =>
        (matmulCheck 32768 (1 / 100 : ℚ) RefFile.cannotOpen 1073741824 2 onesBuf
          98304).written.getD x 0)) 0 1 onesBuf 98304 = none := by
    unfold matmulCheck_run
    rw [if_neg]
    intro h
    have := h 1073741824 hread
    rw [hm2] at this
    exact absurd this (by decide)
  refine ⟨by decide, by decide, by decide, by norm_num, hok, ?_, hread, hnone, ?_⟩
  · rw [hwr, List.length_map, List.length_range]
  · rw [hnone]
    simp

/-! ## Offsets of the calls (C16) -/

theorem isSchedule_offsets (BSIZE msize : Nat) (L : List Invocation)
    (hL : IsSchedule BSIZE msize L) (v : Invocation) (hv : v ∈ L) :
    v.i < msize / BSIZE ∧ v.j < msize / BSIZE ∧ v.k < msize / BSIZE ∧
      v.ai = tileOffset BSIZE msize v.i v.k ∧ v.bi = tileOffset BSIZE msize v.k v.j ∧
      v.ci = tileOffset BSIZE msize v.i v.j := by
  obtain ⟨hi, hj, hk, e⟩ := hL.1 v hv
  refine ⟨hi, hj, hk, ?_, ?_, ?_⟩
  · conv_lhs => rw [e]
    rfl
  · conv_lhs => rw [e]
    rfl
  · conv_lhs => rw [e]
    rfl

/-- C16: for `msize` a positive multiple of `BSIZE` with `msize*msize < 2^32`,
every call issued by `matmulSMP` and by `matmulFPGA` (any fan-out factor
`>= 1`) for a triple `(i, j, k)` has `i, j, k < msize/BSIZE` and passes the
offsets `off(i, k)` into `a`, `off(k, j)` into `b` and `off(i, j)` into `c`,
where `off(row, col) = col*BSIZE*BSIZE + row*BSIZE*msize`; and the flattened
output offset `ll*b2size` of `matmulFPGA` is `off(ll / n, ll mod n)` for every
`ll < n*n`, `n = msize/BSIZE`. -/
theorem scheduler_offsets (BSIZE factor msize : Nat) (hB : 0 < BSIZE) (hf : 1 ≤ factor)
    (hpos : 0 < msize) (hm : msize % BSIZE = 0) (hbound : msize * msize < 2 ^ 32) :
    (∀ v, v ∈ matmulSMP_calls BSIZE msize →
      v.i < msize / BSIZE ∧ v.j < msize / BSIZE ∧ v.k < msize / BSIZE ∧
        v.ai = tileOffset BSIZE msize v.i v.k ∧ v.bi = tileOffset BSIZE msize v.k v.j ∧
        v.ci = tileOffset BSIZE msize v.i v.j) ∧
    (∀ v, v ∈ matmulFPGA_calls BSIZE factor msize →
      v.i < msize / BSIZE ∧ v.j < msize / BSIZE ∧ v.k < msize / BSIZE ∧
        v.ai = tileOffset BSIZE msize v.i v.k ∧ v.bi = tileOffset BSIZE msize v.k v.j ∧
        v.ci = tileOffset BSIZE msize v.i v.j) ∧
    (∀ ll k, ll < msize / BSIZE * (msize / BSIZE) → k < msize / BSIZE →
      (matmulFPGA_call BSIZE msize ll k).ci = u32 (ll * u32 (BSIZE * BSIZE)) ∧
        u32 (ll * u32 (BSIZE * BSIZE)) = ll * (BSIZE * BSIZE) ∧
        ll * (BSIZE * BSIZE) =
          tileOffset BSIZE msize (ll / (msize / BSIZE)) (ll % (msize / BSIZE))) := by
  rw [pow32] at hbound
  refine ⟨fun v hv => isSchedule_offsets BSIZE msize _
      (matmulSMP_isSchedule BSIZE msize hB hm hbound) v hv,
    fun v hv => isSchedule_offsets BSIZE msize _
      (matmulFPGA_isSchedule BSIZE factor msize hB hf hpos hm hbound) v hv, ?_⟩
  intro ll k hll hk
  obtain ⟨n, rfl⟩ := Nat.dvd_of_mod_eq_zero hm
  rw [Nat.mul_div_cancel_left n hB] at hll hk ⊢
  have hn : 0 < n := Nat.lt_of_le_of_lt (Nat.zero_le k) hk
  have hcall := matmulFPGA_call_eq BSIZE n ll k hB hll hk hbound
  have h1 : ll / n * n + ll % n = ll := by
    rw [Nat.mul_comm]; exact Nat.div_add_mod ll n
  have h2 : tileOffset BSIZE (BSIZE * n) (ll / n) (ll % n) = ll * (BSIZE * BSIZE) := by
    rw [tileOffset_flat, h1]
  have h3 : (matmulFPGA_call BSIZE (BSIZE * n) ll k).ci = u32 (ll * u32 (BSIZE * BSIZE)) := rfl
  refine ⟨h3, ?_, h2.symm⟩
  rw [← h3, hcall, ← h2]
  rfl

theorem scheduler_offsets_witness :
    (0 < 2 ∧ 1 ≤ 3 ∧ 0 < 4 ∧ 4 % 2 = 0 ∧ 4 * 4 < 2 ^ 32) ∧
      (∀ ll k, ll < 4 / 2 * (4 / 2) → k < 4 / 2 →
        (matmulFPGA_call 2 4 ll k).ci = u32 (ll * u32 (2 * 2)) ∧
          u32 (ll * u32 (2 * 2)) = ll * (2 * 2) ∧
          ll * (2 * 2) = tileOffset 2 4 (ll / (4 / 2)) (ll % (4 / 2))) :=
  ⟨by decide, (scheduler_offsets 2 3 4 (by decide) (by decide) (by decide) (by decide)
    (by decide)).2.2⟩

/-! ## The tiles partition the buffers (C18) -/

theorem inTile_lt (B n row col y : Nat) (hr : row < n) (hc : col < n)
    (hy : InTile B (tileOffset B (B * n) row col) y) : y < B * n * (B * n) := by
  have := tileOffset_add_le B n row col hr hc
  unfold InTile at hy
  omega

theorem tile_index_bound (BSIZE msize row col i j : Nat) (hB : 0 < BSIZE)
    (hm : msize % BSIZE = 0) (hr : row < msize / BSIZE) (hc : col < msize / BSIZE)
    (hi : i < BSIZE) (hj : j < BSIZE) :
    tileOffset BSIZE msize row col + (i * BSIZE + j) < msize * msize := by
  obtain ⟨n, rfl⟩ := Nat.dvd_of_mod_eq_zero hm
  rw [Nat.mul_div_cancel_left n hB] at hr hc
  exact inTile_lt BSIZE n row col _ hr hc (inTile_of_index hi hj)

theorem isSchedule_in_bounds (BSIZE msize : Nat) (hB : 0 < BSIZE) (hm : msize % BSIZE = 0)
    (L : List Invocation) (hL : IsSchedule BSIZE msize L) (v : Invocation) (hv : v ∈ L)
    (i j : Nat) (hi : i < BSIZE) (hj : j < BSIZE) :
    v.ai + (i * BSIZE + j) < msize * msize ∧ v.bi + (i * BSIZE + j) < msize * msize ∧
      v.ci + (i * BSIZE + j) < msize * msize := by
  obtain ⟨h1, h2, h3, ea, eb, ec⟩ := isSchedule_offsets BSIZE msize L hL v hv
  rw [ea, eb, ec]
  exact ⟨tile_index_bound BSIZE msize _ _ i j hB hm h1 h3 hi hj,
    tile_index_bound BSIZE msize _ _ i j hB hm h3 h2 hi hj,
    tile_index_bound BSIZE msize _ _ i j hB hm h1 h2 hi hj⟩

theorem isSchedule_no_overlap (BSIZE msize : Nat) (hB : 0 < BSIZE) (hm : msize % BSIZE = 0)
    (L1 L2 : List Invocation) (h1 : IsSchedule BSIZE msize L1) (h2 : IsSchedule BSIZE msize L2)
    (v w : Invocation) (hv : v ∈ L1) (hw : w ∈ L2) (hne : ¬ (v.i = w.i ∧ v.j = w.j))
    (r c r2 c2 : Nat) (hr : r < BSIZE) (hc : c < BSIZE) (hr2 : r2 < BSIZE) (hc2 : c2 < BSIZE) :
    v.ci + (r * BSIZE + c) ≠ w.ci + (r2 * BSIZE + c2) := by
  obtain ⟨_, hvj, _, _, _, evc⟩ := isSchedule_offsets BSIZE msize L1 h1 v hv
  obtain ⟨_, hwj, _, _, _, ewc⟩ := isSchedule_offsets BSIZE msize L2 h2 w hw
  rw [evc, ewc]
  obtain ⟨n, rfl⟩ := Nat.dvd_of_mod_eq_zero hm
  rw [Nat.mul_div_cancel_left n hB] at hvj hwj
  intro h
  have hin : InTile BSIZE (tileOffset BSIZE (BSIZE * n) w.i w.j)
      (tileOffset BSIZE (BSIZE * n) v.i v.j + (r * BSIZE + c)) := by
    rw [h]; exact inTile_of_index hr2 hc2
  exact tiles_disjoint BSIZE n v.i v.j w.i w.j _ hvj hwj hne hin (inTile_of_index hr hc)

/-- C18: for `msize` a positive multiple of `BSIZE` with `msize*msize < 2^32`,
the index ranges `[off(row, col), off(row, col) + BSIZE*BSIZE)` of the tiles
with `row, col < msize/BSIZE` are pairwise disjoint and their union is exactly
`[0, msize*msize)`; every index `offset + i*BSIZE + j` with `i, j < BSIZE` that
the kernel reads or writes for a call of `matmulSMP` or `matmulFPGA`, and every
index `matmulCheck` compares, is below `msize*msize`; and two calls on
different output tiles never touch the same element of `c`. -/
theorem tiles_partition (BSIZE factor msize : Nat) (hB : 0 < BSIZE) (hf : 1 ≤ factor)
    (hpos : 0 < msize) (hm : msize % BSIZE = 0) (hbound : msize * msize < 2 ^ 32) :
    (∀ row col row2 col2, row < msize / BSIZE → col < msize / BSIZE →
      row2 < msize / BSIZE → col2 < msize / BSIZE → ¬ (row = row2 ∧ col = col2) →
      ∀ y, InTile BSIZE (tileOffset BSIZE msize row col) y →
        ¬ InTile BSIZE (tileOffset BSIZE msize row2 col2) y) ∧
    (∀ y, y < msize * msize ↔ ∃ row col, row < msize / BSIZE ∧ col < msize / BSIZE ∧
      InTile BSIZE (tileOffset BSIZE msize row col) y) ∧
    (∀ v, v ∈ matmulSMP_calls BSIZE msize ∨ v ∈ matmulFPGA_calls BSIZE factor msize →
      ∀ i j, i < BSIZE → j < BSIZE →
        v.ai + (i * BSIZE + j) < msize * msize ∧ v.bi + (i * BSIZE + j) < msize * msize ∧
          v.ci + (i * BSIZE + j) < msize * msize) ∧
    (∀ i j x, i < msize / BSIZE → j < msize / BSIZE → x < BSIZE * BSIZE →
      checkOffset BSIZE msize i j + x < msize * msize) ∧
    (∀ v w, v ∈ matmulSMP_calls BSIZE msize ∨ v ∈ matmulFPGA_calls BSIZE factor msize →
      w ∈ matmulSMP_calls BSIZE msize ∨ w ∈ matmulFPGA_calls BSIZE factor msize →
      ¬ (v.i = w.i ∧ v.j = w.j) →
      ∀ r c r2 c2, r < BSIZE → c < BSIZE → r2 < BSIZE → c2 < BSIZE →
        v.ci + (r * BSIZE + c) ≠ w.ci + (r2 * BSIZE + c2)) := by
  rw [pow32] at hbound
  have hS := matmulSMP_isSchedule BSIZE msize hB hm hbound
  have hF := matmulFPGA_isSchedule BSIZE factor msize hB hf hpos hm hbound
  refine ⟨?_, ?_, ?_, ?_, ?_⟩
  · intro row col row2 col2 _ hc _ hc2 hne y hy
    obtain ⟨n, rfl⟩ := Nat.dvd_of_mod_eq_zero hm
    rw [Nat.mul_div_cancel_left n hB] at hc hc2
    exact tiles_disjoint BSIZE n row2 col2 row col y hc2 hc
      (fun h => hne ⟨h.1.symm, h.2.symm⟩) hy
  · intro y
    obtain ⟨n, rfl⟩ := Nat.dvd_of_mod_eq_zero hm
    rw [Nat.mul_div_cancel_left n hB]
    constructor
    · intro hy
      obtain ⟨i, j, x, hi, hj, hx, rfl⟩ := tiles_cover BSIZE n y hB hy
      exact ⟨i, j, hi, hj, Nat.le_add_right _ _, by omega⟩
    · rintro ⟨row, col, hr, hc, hy⟩
      exact inTile_lt BSIZE n row col y hr hc hy
  · intro v hv i j hi hj
    rcases hv with hv | hv
    · exact isSchedule_in_bounds BSIZE msize hB hm _ hS v hv i j hi hj
    · exact isSchedule_in_bounds BSIZE msize hB hm _ hF v hv i j hi hj
  · intro i j x hi hj hx
    exact checkOffset_add_lt BSIZE msize i j x hB hm hi hj hx
  · intro v w hv hw hne r c r2 c2 hr hc hr2 hc2
    rcases hv with hv | hv <;> rcases hw with hw | hw
    · exact isSchedule_no_overlap BSIZE msize hB hm _ _ hS hS v w hv hw hne r c r2 c2 hr hc hr2 hc2
    · exact isSchedule_no_overlap BSIZE msize hB hm _ _ hS hF v w hv hw hne r c r2 c2 hr hc hr2 hc2
    · exact isSchedule_no_overlap BSIZE msize hB hm _ _ hF hS v w hv hw hne r c r2 c2 hr hc hr2 hc2
    · exact isSchedule_no_overlap BSIZE msize hB hm _ _ hF hF v w hv hw hne r c r2 c2 hr hc hr2 hc2

theorem tiles_partition_witness :
    (0 < 2 ∧ 1 ≤ 3 ∧ 0 < 4 ∧ 4 % 2 = 0 ∧ 4 * 4 < 2 ^ 32) ∧
      (∀ y, y < 4 * 4 ↔ ∃ row col, row < 4 / 2 ∧ col < 4 / 2 ∧
        InTile 2 (tileOffset 2 4 row col) y) :=
  ⟨by decide, (tiles_partition 2 3 4 (by decide) (by decide) (by decide) (by decide)
    (by decide)).2.1⟩

/-! ## Wrap-around of `msize*msize` (C19) -/

theorem length_flatMap_const {β γ : Type} (l : List β) (f : β → List γ) (m : Nat)
    (h : ∀ x, x ∈ l → (f x).length = m) : (l.flatMap f).length = l.length * m := by
  induction l with
  | nil => simp
  | cons x xs ih =>
    rw [List.flatMap_cons, List.length_append, h x (List.mem_cons_self x xs),
      ih (fun y hy => h y (List.mem_cons_of_mem x hy)), List.length_cons]
    ring

theorem matmulSMP_calls_length (BSIZE msize : Nat) :
    (matmulSMP_calls BSIZE msize).length = (msize / BSIZE) ^ 3 := by
  unfold matmulSMP_calls
  rw [length_flatMap_const _ _ ((msize / BSIZE) * (msize / BSIZE))]
  · rw [List.length_range]; ring
  · intro i _
    rw [length_flatMap_const _ _ (msize / BSIZE)]
    · rw [List.length_range]
    · intro k _
      rw [List.length_map, List.length_range]

theorem matmulFPGA_calls_of_zero (BSIZE factor msize : Nat)
    (h : num_blocks_matrix BSIZE msize = 0) : matmulFPGA_calls BSIZE factor msize = [] := by
  have hl : num_blocks_loop BSIZE factor msize = 0 := by
    unfold num_blocks_loop; rw [h]; simp
  unfold matmulFPGA_calls matmulFPGA_batches matmulFPGA_drain
  rw [hl, h]
  simp [matmulFPGA_bulk]

/-- C19: with `unsigned int` arithmetic modulo `2^32`, for `msize = 65536` and
every `BSIZE` that divides it (a power of two), `msize*msize` wraps to `0`, so
`matmulFPGA` computes `num_blocks_matrix = 0` and issues no call, whatever the
fan-out factor, while `matmulSMP` issues `(msize/BSIZE)^3` calls, among them
the one for the triple `(0, 0, 0)`: the two schedulers do not enumerate the
same triples. -/
theorem wrap_breaks_agreement (BSIZE factor : Nat) (hB : 0 < BSIZE)
    (hm : 65536 % BSIZE = 0) :
    u32 (65536 * 65536) = 0 ∧
      num_blocks_matrix BSIZE 65536 = 0 ∧
      matmulFPGA_calls BSIZE factor 65536 = [] ∧
      (matmulSMP_calls BSIZE 65536).length = (65536 / BSIZE) ^ 3 ∧
      0 < (65536 / BSIZE) ^ 3 ∧
      ((0, 0, 0) ∈ (matmulSMP_calls BSIZE 65536).map Invocation.triple ∧
        (0, 0, 0) ∉ (matmulFPGA_calls BSIZE factor 65536).map Invocation.triple) := by
  have hu : u32 (65536 * 65536) = 0 := by decide
  have hnbm : num_blocks_matrix BSIZE 65536 = 0 := by
    unfold num_blocks_matrix; rw [hu, Nat.zero_div]
  have hF := matmulFPGA_calls_of_zero BSIZE factor 65536 hnbm
  have hn : 0 < 65536 / BSIZE :=
    Nat.div_pos (Nat.le_of_dvd (by decide) (Nat.dvd_of_mod_eq_zero hm)) hB
  refine ⟨hu, hnbm, hF, matmulSMP_calls_length BSIZE 65536, Nat.pow_pos hn, ?_, ?_⟩
  · unfold matmulSMP_calls
    simp only [List.mem_map, List.mem_flatMap, List.mem_range]
    exact ⟨_, ⟨0, hn, 0, hn, 0, hn, rfl⟩, rfl⟩
  · rw [hF]
    simp

theorem wrap_breaks_agreement_witness :
    (0 < 256 ∧ 65536 % 256 = 0) ∧
      (matmulFPGA_calls 256 4 65536 = [] ∧
        (matmulSMP_calls 256 65536).length = (65536 / 256) ^ 3) :=
  ⟨by decide,
    (wrap_breaks_agreement 256 4 (by decide) (by decide)).2.2.1,
    (wrap_breaks_agreement 256 4 (by decide) (by decide)).2.2.2.1⟩

/-! ## The host kernel (C17) -/

theorem Mem.eq_of_fields {α : Type} (m1 m2 : Mem α) (ha : m1.a = m2.a) (hb : m1.b = m2.b)
    (hc : ∀ y, m1.c y = m2.c y) : m1 = m2 := by
  cases m1; cases m2
  simp only at ha hb hc
  rw [ha, hb, funext hc]

section HostKernel
variable {α : Type} [CommRing α]

theorem foldl_add_eq_sum (f : Nat → α) (n : Nat) :
    (List.range n).foldl (fun l k => l + f k) 0 = ∑ k in Finset.range n, f k := by
  induction n with
  | zero => simp
  | succ n ih =>
    rw [List.range_succ, List.foldl_append, ih, Finset.sum_range_succ]
    rfl

theorem matmulBlockSmp_addsTo (BSIZE ai bi ci : Nat) (a b : Nat → α) :
    AddsTo a b (matmulBlockSmp BSIZE ai bi ci)
      (fun y => ∑ i in Finset.range BSIZE, ∑ j in Finset.range BSIZE,
        if y = ci + (i * BSIZE + j) then
          ∑ k in Finset.range BSIZE, a (ai + (i * BSIZE + k)) * b (bi + (k * BSIZE + j))
        else 0) := by
  unfold matmulBlockSmp
  refine addsTo_foldl_range a b _ _ BSIZE (fun i _ => ?_)
  refine addsTo_foldl_range a b _ _ BSIZE (fun j _ => ?_)
  intro m ha hb
  refine ⟨ha, hb, fun y => ?_⟩
  simp only
  rw [foldl_add_eq_sum (fun k => m.a (ai + (i * BSIZE + k)) * m.b (bi + (k * BSIZE + j)))]
  by_cases hy : y = ci + (i * BSIZE + j)
  · subst hy
    simp [ha, hb]
  · rw [Function.update_noteq hy]
    simp [hy]

theorem kernelDelta_eq_host (BSIZE ai bi ci : Nat) (a b : Nat → α) (y : Nat) :
    kernelDelta BSIZE ai bi ci a b y =
      ∑ i in Finset.range BSIZE, ∑ j in Finset.range BSIZE,
        if y = ci + (i * BSIZE + j) then
          ∑ k in Finset.range BSIZE, a (ai + (i * BSIZE + k)) * b (bi + (k * BSIZE + j))
        else 0 := by
  unfold kernelDelta
  rw [Finset.sum_comm]
  refine Finset.sum_congr rfl (fun i _ => ?_)
  rw [Finset.sum_comm]
  refine Finset.sum_congr rfl (fun j _ => ?_)
  by_cases hy : y = ci + (i * BSIZE + j)
  · simp [hy]
  · simp [hy]

/-- C17: over a commutative ring, for all buffers and offsets of the tiles
`a`, `b`, `c`, the host kernel `matmulBlockSmp` (loops `i`, `j`, `k` with a
local accumulator added to `c` once) and the accelerator kernel `matmulBlock`
(loops `k`, `i`, `j` accumulating into `c`) leave the same buffers: the same
`c`, element for element, and `a`, `b` untouched. -/
theorem matmulBlockSmp_eq_matmulBlock (BSIZE ai bi ci : Nat) (m : Mem α) :
    matmulBlockSmp BSIZE ai bi ci m = matmulBlock BSIZE ai bi ci m ∧
      ∀ y, (matmulBlockSmp BSIZE ai bi ci m).c y = (matmulBlock BSIZE ai bi ci m).c y := by
  obtain ⟨ha1, hb1, hc1⟩ := matmulBlockSmp_addsTo BSIZE ai bi ci m.a m.b m rfl rfl
  obtain ⟨ha2, hb2, hc2⟩ := matmulBlock_addsTo BSIZE ai bi ci m.a m.b m rfl rfl
  have hc : ∀ y, (matmulBlockSmp BSIZE ai bi ci m).c y = (matmulBlock BSIZE ai bi ci m).c y := by
    intro y
    rw [hc1 y, hc2 y, kernelDelta_eq_host]
  exact ⟨Mem.eq_of_fields _ _ (ha1.trans ha2.symm) (hb1.trans hb2.symm) hc, hc⟩

end HostKernel

set_option maxRecDepth 100000 in
/-- The host kernel on the first tile of the sample buffers, `BSIZE = 2`. -/
theorem matmulBlockSmp_sample :
    (List.range 4).map (matmulBlockSmp 2 0 0 0 sampleMem).c = [3, 4, 11, 16] ∧
      (List.range 4).map (matmulBlock 2 0 0 0 sampleMem).c = [3, 4, 11, 16] := by decide

/-! ## Row-major and tile-by-tile storage (C11) -/

theorem sum_range_blocks {α : Type} [CommRing α] (f : Nat → α) (n B : Nat) :
    ∑ K in Finset.range (n * B), f K =
      ∑ k in Finset.range n, ∑ kk in Finset.range B, f (k * B + kk) := by
  induction n with
  | zero => simp
  | succ n ih =>
    rw [Nat.succ_mul, Finset.sum_range_add, ih, Finset.sum_range_succ]

theorem div_mod_block {B k kk : Nat} (hkk : kk < B) :
    (k * B + kk) / B = k ∧ (k * B + kk) % B = kk := by
  have hB : 0 < B := Nat.lt_of_le_of_lt (Nat.zero_le kk) hkk
  constructor
  · rw [Nat.add_comm, Nat.add_mul_div_right _ _ hB, Nat.div_eq_of_lt hkk, Nat.zero_add]
  · rw [Nat.add_comm, Nat.add_mul_mod_self_right, Nat.mod_eq_of_lt hkk]

theorem tileProduct_eq_sum {α : Type} [CommRing α] (BSIZE msize : Nat) (a b : Nat → α)
    (hm : msize % BSIZE = 0) (R C : Nat) :
    tileProduct BSIZE msize a b (R / BSIZE) (C / BSIZE) (R % BSIZE) (C % BSIZE) =
      ∑ K in Finset.range msize,
        a (blockIndex BSIZE msize R K) * b (blockIndex BSIZE msize K C) := by
  have hms : msize = msize / BSIZE * BSIZE := (Nat.div_mul_cancel (Nat.dvd_of_mod_eq_zero hm)).symm
  conv_rhs => rw [hms, sum_range_blocks]
  rw [← hms]
  unfold tileProduct
  refine Finset.sum_congr rfl (fun k _ => Finset.sum_congr rfl (fun kk hkk => ?_))
  obtain ⟨h1, h2⟩ := div_mod_block (k := k) (Finset.mem_range.1 hkk)
  unfold blockIndex
  rw [h1, h2]

theorem blockIndex_eq_rowMajor (BSIZE msize R C : Nat) (h : msize = BSIZE ∨ BSIZE = 1)
    (hR : R < msize) (hC : C < msize) :
    blockIndex BSIZE msize R C = rowMajorIndex msize R C := by
  unfold blockIndex rowMajorIndex tileOffset
  rcases h with h | h
  · subst h
    rw [Nat.div_eq_of_lt hR, Nat.div_eq_of_lt hC, Nat.mod_eq_of_lt hR, Nat.mod_eq_of_lt hC]
    simp
  · subst h
    simp [Nat.mod_one]
    exact Nat.add_comm _ _

section Layout
variable {α : Type} [CommRing α]

/-- C11 (amended): for `msize` a positive multiple of `BSIZE` with
`msize*msize < 2^32`, with `a`, `b` and `c` read as square matrices of side
`msize` stored tile by tile (`blockIndex`), one run of `matmulSMP` or of
`matmulFPGA` over a zero-initialised `c` yields `C = A*B`; read as row-major
matrices (element `(r, c)` at `r*msize + c`) this holds when the two layouts
coincide, that is when `msize = BSIZE` or `BSIZE = 1`. -/
theorem matmul_layout (BSIZE factor msize : Nat) (m : Mem α) (hB : 0 < BSIZE)
    (hf : 1 ≤ factor) (hpos : 0 < msize) (hm : msize % BSIZE = 0)
    (hbound : msize * msize < 2 ^ 32) (h0 : ∀ y, m.c y = 0) (R C : Nat) (hR : R < msize)
    (hC : C < msize) :
    ((matmulSMP BSIZE msize m).c (blockIndex BSIZE msize R C) =
        ∑ K in Finset.range msize,
          m.a (blockIndex BSIZE msize R K) * m.b (blockIndex BSIZE msize K C) ∧
      (matmulFPGA BSIZE factor msize m).c (blockIndex BSIZE msize R C) =
        ∑ K in Finset.range msize,
          m.a (blockIndex BSIZE msize R K) * m.b (blockIndex BSIZE msize K C)) ∧
    (msize = BSIZE ∨ BSIZE = 1 →
      (matmulSMP BSIZE msize m).c (rowMajorIndex msize R C) =
          ∑ K in Finset.range msize,
            m.a (rowMajorIndex msize R K) * m.b (rowMajorIndex msize K C) ∧
        (matmulFPGA BSIZE factor msize m).c (rowMajorIndex msize R C) =
          ∑ K in Finset.range msize,
            m.a (rowMajorIndex msize R K) * m.b (rowMajorIndex msize K C)) := by
  rw [pow32] at hbound
  have hdiv : ∀ X, X < msize → X / BSIZE < msize / BSIZE := by
    intro X hX
    rw [Nat.div_lt_iff_lt_mul hB, Nat.div_mul_cancel (Nat.dvd_of_mod_eq_zero hm)]
    exact hX
  have h1 := schedulers_c BSIZE factor msize m hB hf hpos hm hbound (R / BSIZE) (C / BSIZE)
    (R % BSIZE) (C % BSIZE) (hdiv R hR) (hdiv C hC) (Nat.mod_lt _ hB) (Nat.mod_lt _ hB)
  rw [h0, zero_add, tileProduct_eq_sum BSIZE msize m.a m.b hm R C] at h1
  refine ⟨h1, fun hlay => ?_⟩
  have e : ∀ X Y, X < msize → Y < msize →
      rowMajorIndex msize X Y = blockIndex BSIZE msize X Y :=
    fun X Y hX hY => (blockIndex_eq_rowMajor BSIZE msize X Y hlay hX hY).symm
  rw [e R C hR hC]
  have hsum : ∑ K in Finset.range msize,
      m.a (rowMajorIndex msize R K) * m.b (rowMajorIndex msize K C) =
      ∑ K in Finset.range msize,
        m.a (blockIndex BSIZE msize R K) * m.b (blockIndex BSIZE msize K C) := by
    refine Finset.sum_congr rfl (fun K hK => ?_)
    rw [e R K hR (Finset.mem_range.1 hK), e K C (Finset.mem_range.1 hK) hC]
  rw [hsum]
  exact h1

end Layout

set_option maxRecDepth 100000 in
theorem matmul_layout_witness :
    (0 < 2 ∧ 1 ≤ 3 ∧ 0 < 4 ∧ 4 % 2 = 0 ∧ 4 * 4 < 2 ^ 32 ∧ (∀ y, sampleMem.c y = 0) ∧
        1 < 4 ∧ 2 < 4) ∧
      ((matmulSMP 2 4 sampleMem).c (blockIndex 2 4 1 2) =
          ∑ K in Finset.range 4,
            sampleMem.a (blockIndex 2 4 1 K) * sampleMem.b (blockIndex 2 4 K 2) ∧
        (matmulFPGA 2 3 4 sampleMem).c (blockIndex 2 4 1 2) =
          ∑ K in Finset.range 4,
            sampleMem.a (blockIndex 2 4 1 K) * sampleMem.b (blockIndex 2 4 K 2)) :=
  ⟨⟨by decide, by decide, by decide, by decide, by decide, fun _ => rfl, by decide, by decide⟩,
    (matmul_layout 2 3 4 sampleMem (by decide) (by decide) (by decide) (by decide) (by decide)
      (fun _ => rfl) 1 2 (by decide) (by decide)).1⟩

set_option maxRecDepth 100000 in
/-- C11 as stated fails: for `BSIZE = 2`, `msize = 4`, `a[x] = x`, `b[x] = x + 1`
and a zero `c`, one run of either scheduler leaves `c[0] = 94`, while element
`(0, 0)` of the product of the row-major matrices is
`0*1 + 1*5 + 2*9 + 3*13 = 62`. -/
theorem matmul_row_major_fails :
    0 < 2 ∧ 0 < 4 ∧ 4 % 2 = 0 ∧ (∀ y, sampleMem.c y = 0) ∧
      (matmulSMP 2 4 sampleMem).c (rowMajorIndex 4 0 0) = 94 ∧
      (matmulFPGA 2 3 4 sampleMem).c (rowMajorIndex 4 0 0) = 94 ∧
      ∑ K in Finset.range 4,
        sampleMem.a (rowMajorIndex 4 0 K) * sampleMem.b (rowMajorIndex 4 K 0) = 62 ∧
      (matmulSMP 2 4 sampleMem).c (rowMajorIndex 4 0 0) ≠
        ∑ K in Finset.range 4,
          sampleMem.a (rowMajorIndex 4 0 K) * sampleMem.b (rowMajorIndex 4 K 0) := by
  have h1 : (matmulSMP 2 4 sampleMem).c (rowMajorIndex 4 0 0) = 94 := by decide
  have h2 : (matmulFPGA 2 3 4 sampleMem).c (rowMajorIndex 4 0 0) = 94 := by decide
  have h3 : ∑ K in Finset.range 4,
      sampleMem.a (rowMajorIndex 4 0 K) * sampleMem.b (rowMajorIndex 4 K 0) = 62 := by
    decide
  refine ⟨by decide, by decide, by decide, fun _ => rfl, h1, h2, h3, ?_⟩
  rw [h1, h3]
  decide

/-! ## Unavailable reference, disabled check, diagnostics (C12, C15) -/

section Diagnostics
variable {α : Type} [LinearOrderedField α]

/-- C12: when the reference file cannot be opened, or is opened but cannot be
mapped, `matmulCheck(1, c, msize)` returns `0` for every `c` and `msize`, with
the corresponding message and no comparison of elements (the outcome is the
same for every `c`; no mismatch is reported); and for the mode selector `0`
`matmulCheck` returns `1` (OK) for every `c` and `msize`, whatever `c` holds. -/
theorem matmulCheck_unavailable_or_disabled (BSIZE : Nat) (THRESHOLD : α)
    (ref_file : RefFile α) (fwrite_ret : Nat) (c : Nat → α) (msize : Nat) :
    matmulCheck BSIZE THRESHOLD RefFile.cannotOpen fwrite_ret 1 c msize =
        { check_ok := 0, err := [Diag.cannotOpen], written := [] } ∧
      matmulCheck BSIZE THRESHOLD RefFile.cannotMap fwrite_ret 1 c msize =
        { check_ok := 0, err := [Diag.cannotMap], written := [] } ∧
      matmulCheck BSIZE THRESHOLD ref_file fwrite_ret 0 c msize =
        { check_ok := 1, err := [], written := [] } ∧
      (∀ c2 : Nat → α,
        matmulCheck BSIZE THRESHOLD RefFile.cannotOpen fwrite_ret 1 c2 msize =
            matmulCheck BSIZE THRESHOLD RefFile.cannotOpen fwrite_ret 1 c msize ∧
          matmulCheck BSIZE THRESHOLD RefFile.cannotMap fwrite_ret 1 c2 msize =
            matmulCheck BSIZE THRESHOLD RefFile.cannotMap fwrite_ret 1 c msize ∧
          matmulCheck BSIZE THRESHOLD ref_file fwrite_ret 0 c2 msize =
            matmulCheck BSIZE THRESHOLD ref_file fwrite_ret 0 c msize) := by
  refine ⟨?_, ?_, ?_, fun c2 => ⟨?_, ?_, ?_⟩⟩ <;> simp [matmulCheck]

theorem checkBlockBody_atMostOne (threshold : α) (c c_ref : Nat → α) (y : Nat)
    (st : CheckState α) (hok : st.check_ok ≠ 0)
    (h : AtMostOneDiag threshold c c_ref st.check_ok st.err) :
    AtMostOneDiag threshold c c_ref (checkBlockBody threshold (c y) (c_ref y) st).check_ok
      (checkBlockBody threshold (c y) (c_ref y) st).err := by
  have herr : st.err = [] := by
    rcases h with h | h
    · exact h.2
    · exact absurd h.1 hok
  by_cases ho : outOfTolerance threshold (c y) (c_ref y)
  · rw [checkBlockBody_fail _ _ _ st ho]
    right
    exact ⟨rfl, y, by simp [herr], ho⟩
  · rw [checkBlockBody_pass _ _ _ st ho]
    exact h

/-- C15 (amended): in `matmulCheck` with `check == 1` and the reference mapped,
executed in program order, the first mismatch clears `check_ok`, which ends
the comparison of the remaining elements of that tile and, through the guards
`&& check_ok` of the two tile loops, of every subsequent tile: the run ends
either passing with no diagnostic, or failing with exactly one diagnostic, for
one element that is out of tolerance; never with a diagnostic for each of two
tiles. -/
theorem matmulCheck_at_most_one_diagnostic (BSIZE : Nat) (THRESHOLD : α) (c_ref : Nat → α)
    (fwrite_ret : Nat) (c : Nat → α) (msize : Nat) :
    AtMostOneDiag THRESHOLD c c_ref
        (matmulCheck BSIZE THRESHOLD (RefFile.mapped c_ref) fwrite_ret 1 c msize).check_ok
        (matmulCheck BSIZE THRESHOLD (RefFile.mapped c_ref) fwrite_ret 1 c msize).err ∧
      (matmulCheck BSIZE THRESHOLD (RefFile.mapped c_ref) fwrite_ret 1 c msize).err.length ≤ 1 := by
  have key : AtMostOneDiag THRESHOLD c c_ref
      (matmulCheck BSIZE THRESHOLD (RefFile.mapped c_ref) fwrite_ret 1 c msize).check_ok
      (matmulCheck BSIZE THRESHOLD (RefFile.mapped c_ref) fwrite_ret 1 c msize).err := by
    unfold matmulCheck
    simp only [if_true]
    refine forWhile_inv _ _
      (fun s : CheckState α => AtMostOneDiag THRESHOLD c c_ref s.check_ok s.err) ?_ _ 0 _
      (Or.inl ⟨by simp, rfl⟩)
    intro i s _ hs
    refine forWhile_inv _ _
      (fun s : CheckState α => AtMostOneDiag THRESHOLD c c_ref s.check_ok s.err) ?_ _ 0 _ hs
    intro j s2 _ hs2
    unfold checkBlock
    refine forWhile_inv _ _
      (fun s : CheckState α => AtMostOneDiag THRESHOLD c c_ref s.check_ok s.err) ?_ _ 0 _ hs2
    intro x s3 hc3 hs3
    exact checkBlockBody_atMostOne THRESHOLD c c_ref _ s3 (by simpa using hc3) hs3
  refine ⟨key, ?_⟩
  rcases key with h | h
  · rw [h.2]; simp
  · obtain ⟨_, y, hy, _⟩ := h
    rw [hy]; simp

end Diagnostics

/-- C15 as stated fails: for `BSIZE = 1` and `msize = 2` (four tiles of one
element), a `c` of ones and a reference of zeros, the tiles `(0, 0)` and
`(0, 1)`, at offsets `0` and `1`, each hold a mismatching element, yet the run
reports the first one only: after it `check_ok` is `0` and both tile loops
stop. -/
theorem matmulCheck_single_diagnostic :
    checkOffset 1 2 0 0 = 0 ∧ checkOffset 1 2 0 1 = 1 ∧
      outOfTolerance (1 / 100 : ℚ) (onesBuf 0) (zeroBuf 0) ∧
      outOfTolerance (1 / 100 : ℚ) (onesBuf 1) (zeroBuf 1) ∧
      (matmulCheck 1 (1 / 100 : ℚ) (RefFile.mapped zeroBuf) 0 1 onesBuf 2).err =
        [Diag.mismatch 0 1] ∧
      (matmulCheck 1 (1 / 100 : ℚ) (RefFile.mapped zeroBuf) 0 1 onesBuf 2).err.length < 2 := by
  have hout : ∀ y, outOfTolerance (1 / 100 : ℚ) (onesBuf y) (zeroBuf y) := by
    intro y; simp [onesBuf, zeroBuf, outOfTolerance]
  have herr : (matmulCheck 1 (1 / 100 : ℚ) (RefFile.mapped zeroBuf) 0 1 onesBuf 2).err =
      [Diag.mismatch 0 1] := by
    have h1 : outOfTolerance (100⁻¹ : ℚ) 1 0 := by simp [outOfTolerance]
    simp [matmulCheck, forWhile, checkBlock, checkBlockBody, h1, onesBuf, zeroBuf]
  refine ⟨by decide, by decide, hout 0, hout 1, herr, ?_⟩
  rw [herr]
  decide

/-! ## Configuration errors in `main` (C13) -/

section Main
variable {α : Type} [LinearOrderedField α]

theorem matmulCheck_other_mode (BSIZE : Nat) (THRESHOLD : α) (ref_file : RefFile α)
    (fwrite_ret check : Nat) (c : Nat → α) (msize : Nat) (h1 : check ≠ 1) (h2 : check ≠ 2) :
    matmulCheck BSIZE THRESHOLD ref_file fwrite_ret check c msize =
      { check_ok := 1, err := [], written := [] } := by
  simp [matmulCheck, h1, h2]

/-- The size or the backend selector, as `main` stores them, fail its
checks: `main` exits with status `1` before the allocation. -/
theorem main_rejects (BSIZE factor sizeof_elem : Nat) (THRESHOLD : α) (env : MainEnv α)
    (arg1 arg2 arg3 : Int) (hB : 0 < BSIZE)
    (h : (arg1 % 4294967296).toNat % BSIZE ≠ 0 ∨ (arg3 % 256).toNat > 1) :
    main BSIZE factor sizeof_elem THRESHOLD env 4 arg1 arg2 arg3 = MainOutcome.exit 1 [] := by
  have hB0 : BSIZE ≠ 0 := by omega
  unfold main
  simp only [ne_eq, not_true_eq_false, if_false, hB0]
  rcases h with h | h
  · simp [h]
  · by_cases hm : (arg1 % 4294967296).toNat % BSIZE = 0
    · simp [hm, h]
    · simp [hm]

/-- A run of `main` that passes the checks of the arguments, allocates its
buffers and stays inside them, with a mode selector other than `1` and `2`:
the scheduler is dispatched twice and the exit status is `0`. -/
theorem main_runs (BSIZE factor sizeof_elem : Nat) (THRESHOLD : α) (env : MainEnv α)
    (arg1 arg2 arg3 : Int) (hB : 0 < BSIZE) (hm : (arg1 % 4294967296).toNat % BSIZE = 0)
    (h : (arg3 % 256).toNat ≤ 1) (hmalloc : env.malloc_ok = true)
    (hb2 : u32 (BSIZE * BSIZE) ≠ 0)
    (hinit : ∀ i ∈ List.range (u32 ((arg1 % 4294967296).toNat * (arg1 % 4294967296).toNat) /
        u32 (BSIZE * BSIZE)),
      u32 (i * u32 (BSIZE * BSIZE)) + BSIZE * BSIZE ≤
        u32 (u32 ((arg1 % 4294967296).toNat * (arg1 % 4294967296).toNat) * sizeof_elem) /
          sizeof_elem)
    (hcalls : ∀ v ∈ (if (arg3 % 256).toNat = 0
          then matmulFPGA_calls BSIZE factor (arg1 % 4294967296).toNat
          else matmulSMP_calls BSIZE (arg1 % 4294967296).toNat),
      v.ai + BSIZE * BSIZE ≤
          u32 (u32 ((arg1 % 4294967296).toNat * (arg1 % 4294967296).toNat) * sizeof_elem) /
            sizeof_elem ∧
        v.bi + BSIZE * BSIZE ≤
          u32 (u32 ((arg1 % 4294967296).toNat * (arg1 % 4294967296).toNat) * sizeof_elem) /
            sizeof_elem ∧
        v.ci + BSIZE * BSIZE ≤
          u32 (u32 ((arg1 % 4294967296).toNat * (arg1 % 4294967296).toNat) * sizeof_elem) /
            sizeof_elem)
    (hc1 : (arg2 % 256).toNat ≠ 1) (hc2 : (arg2 % 256).toNat ≠ 2) :
    main BSIZE factor sizeof_elem THRESHOLD env 4 arg1 arg2 arg3 =
      MainOutcome.exit 0
        ((if (arg3 % 256).toNat = 0 then matmulFPGA_calls BSIZE factor (arg1 % 4294967296).toNat
            else matmulSMP_calls BSIZE (arg1 % 4294967296).toNat) ++
          (if (arg3 % 256).toNat = 0 then matmulFPGA_calls BSIZE factor (arg1 % 4294967296).toNat
            else matmulSMP_calls BSIZE (arg1 % 4294967296).toNat)) := by
  have hB0 : BSIZE ≠ 0 := by omega
  have h4 : ¬ ((arg3 % 256).toNat > 1) := by omega
  unfold main
  simp only [ne_eq, not_true_eq_false, if_false, hB0, hm, h4, hmalloc, hb2, hc1, hc2,
    false_and, Bool.true_eq_false]
  rw [if_neg (not_not.2 hinit), if_neg (not_not.2 hcalls),
    matmulCheck_other_mode _ _ _ _ _ _ _ hc1 hc2]
  simp

/-- A run of `main` whose initialisation loop leaves the allocated buffers. -/
theorem main_faults (BSIZE factor sizeof_elem : Nat) (THRESHOLD : α) (env : MainEnv α)
    (arg1 arg2 arg3 : Int) (hB : 0 < BSIZE) (hm : (arg1 % 4294967296).toNat % BSIZE = 0)
    (h : (arg3 % 256).toNat ≤ 1) (hmalloc : env.malloc_ok = true)
    (hb2 : u32 (BSIZE * BSIZE) ≠ 0)
    (hinit : ¬ ∀ i ∈ List.range (u32 ((arg1 % 4294967296).toNat * (arg1 % 4294967296).toNat) /
        u32 (BSIZE * BSIZE)),
      u32 (i * u32 (BSIZE * BSIZE)) + BSIZE * BSIZE ≤
        u32 (u32 ((arg1 % 4294967296).toNat * (arg1 % 4294967296).toNat) * sizeof_elem) /
          sizeof_elem) :
    main BSIZE factor sizeof_elem THRESHOLD env 4 arg1 arg2 arg3 = MainOutcome.fault := by
  have hB0 : BSIZE ≠ 0 := by omega
  have h4 : ¬ ((arg3 % 256).toNat > 1) := by omega
  unfold main
  simp only [ne_eq, not_true_eq_false, if_false, hB0, hm, h4, hmalloc, hb2,
    Bool.true_eq_false]
  rw [if_pos hinit]

/-- C13 (amended): for every invocation with three arguments in which the
matrix size, as stored in the `unsigned int msize`, is not a multiple of
`BSIZE`, or the backend selector, as stored in the `unsigned char createFrom`,
is not `0` or `1`, `main` exits with status `1` without dispatching any tile
computation, whatever the verification mode selector is. -/
theorem main_configuration_errors (BSIZE factor sizeof_elem : Nat) (THRESHOLD : α)
    (env : MainEnv α) (arg1 arg2 arg3 : Int) (hB : 0 < BSIZE)
    (h : (arg1 % 4294967296).toNat % BSIZE ≠ 0 ∨ (arg3 % 256).toNat > 1) :
    main BSIZE factor sizeof_elem THRESHOLD env 4 arg1 arg2 arg3 = MainOutcome.exit 1 [] :=
  main_rejects BSIZE factor sizeof_elem THRESHOLD env arg1 arg2 arg3 hB h

end Main

theorem main_configuration_errors_witness :
    (0 < 2 ∧ (((5 : Int) % 4294967296).toNat % 2 ≠ 0 ∨ ((7 : Int) % 256).toNat > 1)) ∧
      main 2 1 4 (1 / 100 : ℚ) sampleEnv 4 5 0 7 = MainOutcome.exit 1 [] :=
  ⟨by decide, main_configuration_errors 2 1 4 (1 / 100 : ℚ) sampleEnv 5 0 7 (by decide)
    (by decide)⟩

/-- C13 as stated fails in each of its three parts.  The mode selector is
never checked: with `BSIZE = 2`, a `float` element type, the size `4`, the
backend selector `1` and the mode selector `3`, which is none of `0`, `1`,
`2`, `main` dispatches the 8 calls of `matmulSMP` twice and exits with status
`0`.  The backend selector is checked as stored in an `unsigned char`: the
selector `256`, which is neither `0` nor `1`, is stored as `0` and `main`
dispatches the calls of `matmulFPGA` twice and exits with status `0`.  The
size is checked as stored in an `unsigned int`: with `BSIZE = 3` the size
`-1`, which is not a multiple of `3`, is stored as `4294967295 = 3 *
1431655765`, and `main` exits with status `0`. -/
theorem main_accepts_unchecked_arguments :
    ((3 : Int) ≠ 0 ∧ (3 : Int) ≠ 1 ∧ (3 : Int) ≠ 2 ∧
        main 2 1 4 (1 / 100 : ℚ) sampleEnv 4 4 3 1 =
          MainOutcome.exit 0 (matmulSMP_calls 2 4 ++ matmulSMP_calls 2 4) ∧
        (matmulSMP_calls 2 4 ++ matmulSMP_calls 2 4).length = 16) ∧
      ((256 : Int) ≠ 0 ∧ (256 : Int) ≠ 1 ∧
        main 2 1 4 (1 / 100 : ℚ) sampleEnv 4 4 0 256 =
          MainOutcome.exit 0 (matmulFPGA_calls 2 1 4 ++ matmulFPGA_calls 2 1 4) ∧
        (matmulFPGA_calls 2 1 4 ++ matmulFPGA_calls 2 1 4).length = 16) ∧
      ((-1 : Int) % 3 ≠ 0 ∧
        main 3 1 4 (1 / 100 : ℚ) sampleEnv 4 (-1) 0 0 = MainOutcome.exit 0 []) := by
  refine ⟨⟨by decide, by decide, by decide, ?_, by decide⟩, ⟨by decide, by decide, ?_, by decide⟩,
    by decide, ?_⟩
  · exact main_runs 2 1 4 (1 / 100 : ℚ) sampleEnv 4 3 1 (by decide) (by decide) (by decide) rfl
      (by decide) (by decide) (by decide) (by decide) (by decide)
  · exact main_runs 2 1 4 (1 / 100 : ℚ) sampleEnv 4 0 256 (by decide) (by decide) (by decide) rfl
      (by decide) (by decide) (by decide) (by decide) (by decide)
  · have hz : matmulFPGA_calls 3 1 4294967295 = [] :=
      matmulFPGA_calls_of_zero 3 1 4294967295 (by decide)
    have h := main_runs 3 1 4 (1 / 100 : ℚ) sampleEnv (-1) 0 0 (by decide) (by decide)
      (by decide) rfl (by decide) (by decide)
      (by
        have e : ((-1 : Int) % 4294967296).toNat = 4294967295 := by decide
        have e0 : ((0 : Int) % 256).toNat = 0 := by decide
        rw [e, e0, if_pos rfl, hz]
        intro v hv
        cases hv)
      (by decide) (by decide)
    have e : ((-1 : Int) % 4294967296).toNat = 4294967295 := by decide
    have e0 : ((0 : Int) % 256).toNat = 0 := by decide
    rw [e, e0, if_pos rfl, hz] at h
    exact h

/-- With `BSIZE = 256`, a `float` element type and the size `32768`, `m2size`
is `2^30` and the allocation size `s` wraps to `0`: the initialisation loop
writes outside the buffers. -/
theorem main_allocation_wraps :
    u32 (u32 (32768 * 32768) * 4) = 0 ∧
      main 256 1 4 (1 / 100 : ℚ) sampleEnv 4 32768 0 1 = MainOutcome.fault := by
  refine ⟨by decide, ?_⟩
  refine main_faults 256 1 4 (1 / 100 : ℚ) sampleEnv 32768 0 1 (by decide) (by decide)
    (by decide) rfl (by decide) ?_
  intro h
  have h0 := h 0 (by rw [List.mem_range]; decide)
  revert h0
  decide

/-- A run in check mode without a reference file: `main` dispatches the calls
of `matmulFPGA` twice and exits with status `1`. -/
theorem main_sample :
    main 2 1 4 (1 / 100 : ℚ) sampleEnv 4 4 1 0 =
      MainOutcome.exit 1 (matmulFPGA_calls 2 1 4 ++ matmulFPGA_calls 2 1 4) := by
  simp [main, sampleEnv, matmulCheck, matmulCheck_reads, u32, UINT_MOD]
  decide

end Matmul
